import Mathlib

/-!
# PNM codec: shallow embedding of the decoder, the encoder and the bitset

The Go package reads an image from a `bufio.Reader` and writes one to an
`io.Writer`.  The embedding keeps the functions of the package under their
own names:

* the input of `Decode` and `DecodeConfig` is the list of the pieces in which
  the `io.Reader` delivers its bytes, one piece for each time the
  `bufio.Reader` fills its buffer (each piece fits the buffer, 4096 bytes
  unless the caller passes a larger `bufio.Reader`; a reader that holds all
  its bytes, such as a `bytes.Reader`, delivers them in pieces of the size of
  the buffer);
* for `ReadByte` and `UnreadByte` a reader is the list of the bytes that are
  still unread (`ReadByte` takes the head, `UnreadByte` after a `ReadByte`
  puts it back), whatever the pieces; `Read` copies from the buffer only, that
  is from the unread bytes of the piece the first unread byte is in;
* a byte is a natural number below 256, a `uint8` operation that can wrap is
  written with `% 256`; `int` and `uint` have 64 bits;
* a Go panic is a value of `Err`; `Decode`, `DecodeConfig` and `Encode`
  recover from every panic and return it as their error;
* a writer is the list of the bytes written so far, and writing never fails;
* the platform is 64-bit Linux: `make` panics for a slice of more than
  `maxAlloc = 2^48` bytes and returns for any other, memory is not bounded
  otherwise; `image.NewAlpha`, `image.NewGray` and `image.NewRGBA` panic when
  the length of the pixel buffer does not fit `int` and when `make` does; the
  slices the decoders make for the payload are not longer than the pixel
  buffer of the image `Decode` has made before, so that `make` returns for
  them and their lengths do not wrap, and in the encoder `make` returns.
-/

namespace Pnm

/-- The panics the package can raise. -/
inductive Err where
  /-- Go's `io.EOF`, from `ReadByte` or `Read` at the end of the input. -/
  | eof
  /-- An error of `strconv.ParseUint`: not a number, or out of range. -/
  | number
  /-- The runtime panic of an integer division by zero. -/
  | divByZero
  /-- The runtime panic of an index out of range. -/
  | index
  /-- The panic "Unknown PPM format". -/
  | unknownFormat
  /-- The error "Invalid PPM type" of `Encode`. -/
  | invalidType
  /-- The panic "Rectangle has huge or negative dimensions" of `image.NewAlpha`,
  `image.NewGray` and `image.NewRGBA`. -/
  | hugeRect
  /-- The runtime panic "makeslice: len out of range". -/
  | makeslice
  /-- Not a panic of the package: the recursion bound of `readN` ran out. -/
  | fuel
  deriving DecidableEq, Repr

deriving instance DecidableEq for Except

/-! ## Token reader (decode.go) -/

/-- Go's `isSpace`: space, LF, TAB, VT, FF, CR. -/
def isSpace (b : Nat) : Bool :=
  b == 0x20 || b == 0xa || b == 0x9 || b == 0xb || b == 0xc || b == 0xd

/-- Go's `isNewline`: LF, CR. -/
def isNewline (b : Nat) : Bool :=
  b == 0xa || b == 0xd

/-- Go's `space`: reads bytes until one is not whitespace and puts that byte back;
`check(err)` panics when the input ends first. -/
def space : List Nat → Except Err (List Nat)
  | [] => .error .eof
  | b :: r => if isSpace b then space r else .ok (b :: r)

/-- The `loop:` of `read`, with the local variables `comment` and `buf`.
Returns `buf` and the reader once the loop is left through `break loop`. -/
def readLoop : Bool → List Nat → List Nat → Except Err (List Nat × List Nat)
  | _, _, [] => .error .eof
  | comment, buf, b :: r =>
    if b = 0x23 then readLoop true buf r
    else if (comment && isNewline b) || (!comment && isSpace b) then .ok (buf, b :: r)
    else if !comment then readLoop comment (buf ++ [b]) r
    else readLoop comment buf r

/-- Go's `read` with a bound on the depth of its recursion `return read(r)`. -/
def readN : Nat → List Nat → Except Err (List Nat × List Nat)
  | 0, _ => .error .fuel
  | n + 1, r =>
    match space r with
    | .error e => .error e
    | .ok r1 =>
      match readLoop false [] r1 with
      | .error e => .error e
      | .ok (buf, r2) => if buf.length = 0 then readN n r2 else .ok (buf, r2)

/-- Go's `read`: the next token.  Every recursive call comes after a comment was
consumed, so the length of the input bounds the depth (`read_ne_fuel`). -/
def read (r : List Nat) : Except Err (List Nat × List Nat) :=
  readN (r.length + 1) r

/-- Go's `readS`: the next token as a string (here: its bytes). -/
def readS (r : List Nat) : Except Err (List Nat × List Nat) :=
  read r

/-- The digit loop of `strconv.ParseUint(s, 10, 32)`: a byte that is not a
decimal digit is an error, and so is a value above `1<<32 - 1`. -/
def parseUintLoop : List Nat → Nat → Except Err Nat
  | [], n => .ok n
  | c :: cs, n =>
    if 48 ≤ c ∧ c ≤ 57 then
      if n * 10 + (c - 48) > 4294967295 then .error .number
      else parseUintLoop cs (n * 10 + (c - 48))
    else .error .number

/-- Go's `strconv.ParseUint(s, 10, 32)`. -/
def parseUint (s : List Nat) : Except Err Nat :=
  if s = [] then .error .number else parseUintLoop s 0

/-- Go's `readU`: the next token as an unsigned number. -/
def readU (r : List Nat) : Except Err (Nat × List Nat) :=
  match readS r with
  | .error e => .error e
  | .ok (s, r1) =>
    match parseUint s with
    | .error e => .error e
    | .ok n => .ok (n, r1)

/-- The number of bytes in the buffer of the `bufio.Reader` when the input
arrives in the pieces `fills`, `left` bytes of it are unread and the first of
them has been read and put back: the unread bytes of the piece that byte is
in.  (`ReadByte` fills the buffer only when it is empty, so the buffer holds
the unread rest of one piece.) -/
def buffered : List (List Nat) → Nat → Nat
  | [], _ => 0
  | _ :: ps, left =>
    if left ≤ ps.flatten.length then buffered ps left else left - ps.flatten.length

/-- Go's `(*bufio.Reader).Read(p)` followed by `check(err)`, on a reader with
the unread bytes `r`, the first `n` of them in the buffer: `copy(p, b.buf[b.r:b.w])`
fills `p` from the front with bytes of the buffer, at most `len(p)` of them,
and leaves the rest of `p` as it was; a short read is no error, only an input
that has nothing left is (`io.EOF`).  Where the decoders call `Read` the
buffer is not empty, `space` has just put a byte back, so that `Read` does not
fill the buffer.  Returns `p` and the reader. -/
def Read (n : Nat) (r : List Nat) (p : List Nat) : Except Err (List Nat × List Nat) :=
  if p.length = 0 then .ok (p, r)
  else if r = [] then .error .eof
  else
    let k := min p.length (min n r.length)
    .ok (r.take k ++ p.drop k, r.drop k)

/-! ## Bitset (bitset.go) -/

/-- Go's `newBitset(bits)`: `ceil(bits / 8)` zero bytes. -/
def newBitset (bits : Nat) : List Nat :=
  List.replicate ((bits + 7) / 8) 0

namespace bitset

/-- Go's `bitset.Set(i)`.  `w := i / 8` and `i % 8` are Go's truncated division;
`bit := uint8(1 << (8 - uint(i%8)))` is computed in `uint8`, so that a shift
by 8 gives 0; `b[w] &^= bit; b[w] ^= bit`.  An index outside the slice
would be the panic `Err.index`. -/
def Set (b : List Nat) (i : Int) : Except Err (List Nat) :=
  let w := Int.tdiv i 8
  if i < 0 ∨ w ≥ b.length then .ok b
  else
    let bit := (1 <<< (8 - (Int.tmod i 8).toNat)) % 256
    match b[w.toNat]? with
    | none => .error .index
    | some v => .ok (b.set w.toNat ((v &&& (255 ^^^ bit)) ^^^ bit))

/-- Go's `bitset.Test(i)`:
`i >= 0 && w < len(b) && ((b[w]>>(8-uint(i%8)))&1) == 1`. -/
def Test (b : List Nat) (i : Int) : Except Err Bool :=
  let w := Int.tdiv i 8
  if i ≥ 0 ∧ w < b.length then
    match b[w.toNat]? with
    | none => .error .index
    | some v => .ok (((v % 256) >>> (8 - (Int.tmod i 8).toNat)) &&& 1 == 1)
  else .ok false

end bitset

/-! ## Images (the part of Go's `image` and `image/color` the package uses) -/

/-- The colours the package builds: `color.Alpha`, `color.Gray`, `color.RGBA`. -/
inductive Color where
  | alpha (a : Nat)
  | gray (y : Nat)
  | rgba (r g b a : Nat)
  deriving DecidableEq, Repr

/-- Go's `Color.RGBA()`: the four 16-bit channels of a colour. -/
def Color.RGBA : Color → Nat × Nat × Nat × Nat
  | .alpha a => (a * 0x101, a * 0x101, a * 0x101, a * 0x101)
  | .gray y => (y * 0x101, y * 0x101, y * 0x101, 0xffff)
  | .rgba r g b a => (r * 0x101, g * 0x101, b * 0x101, a * 0x101)

/-- The colour models of `image.Alpha`, `image.Gray` and `image.RGBA`. -/
inductive ColorModel where
  | alpha
  | gray
  | rgba
  deriving DecidableEq, Repr

/-- The zero colour of a model, the value of a fresh pixel. -/
def ColorModel.zero : ColorModel → Color
  | .alpha => .alpha 0
  | .gray => .gray 0
  | .rgba => .rgba 0 0 0 0

/-- Go's `color.Model.Convert`: a colour of the model is kept, any other colour is
converted from its 16-bit channels. -/
def ColorModel.convert : ColorModel → Color → Color
  | .alpha, .alpha a => .alpha a
  | .alpha, c => .alpha (c.RGBA.2.2.2 >>> 8)
  | .gray, .gray y => .gray y
  | .gray, c =>
    .gray ((19595 * c.RGBA.1 + 38470 * c.RGBA.2.1 + 7471 * c.RGBA.2.2.1 + 32768) >>> 24)
  | .rgba, .rgba r g b a => .rgba r g b a
  | .rgba, c => .rgba (c.RGBA.1 >>> 8) (c.RGBA.2.1 >>> 8) (c.RGBA.2.2.1 >>> 8) (c.RGBA.2.2.2 >>> 8)

/-- The bytes of a pixel in the buffer `Pix` of an image: 1 in `image.Alpha`
and `image.Gray`, 4 in `image.RGBA`. -/
def ColorModel.bytesPerPixel : ColorModel → Nat
  | .alpha => 1
  | .gray => 1
  | .rgba => 4

/-- The limit of the Go runtime on the bytes of one allocation, on 64-bit Linux. -/
def maxAlloc : Nat := 2 ^ 48

/-- Go's `make([]uint8, n)` for an `n` that is not negative: the runtime panics
when `n` is above `maxAlloc`. -/
def make (n : Nat) : Except Err (List Nat) :=
  if n > maxAlloc then .error .makeslice else .ok (List.replicate n 0)

/-- Go's `mul3NonNeg` of the package `image` on three `int` that are not
negative: `x*y*z`, unless a product overflows `uint64` or the result does not
fit `int`. -/
def mul3NonNeg (x y z : Nat) : Option Nat :=
  if x * y ≥ 2 ^ 64 then none
  else if x * y * z ≥ 2 ^ 64 then none
  else if x * y * z ≥ 2 ^ 63 then none
  else some (x * y * z)

/-- Go's `pixelBufferLength` of the package `image` on
`image.Rect(0, 0, width, height)`: the panic when `mul3NonNeg` fails. -/
def pixelBufferLength (bytesPerPixel width height : Nat) : Except Err Nat :=
  match mul3NonNeg bytesPerPixel width height with
  | none => .error .hugeRect
  | some n => .ok n

/-- An `image.Alpha`, `image.Gray` or `image.RGBA`: the rectangle
`[minX, minX + width) x [minY, minY + height)` and one colour per pixel, row
after row. -/
structure Image where
  model : ColorModel
  minX : Int
  minY : Int
  width : Nat
  height : Nat
  pix : List Color
  deriving DecidableEq, Repr

namespace Image

/-- The image on `image.Rect(0, 0, width, height)` with every pixel zero. -/
def blank (model : ColorModel) (width height : Nat) : Image :=
  { model := model, minX := 0, minY := 0, width := width, height := height,
    pix := List.replicate (width * height) model.zero }

/-- Go's `image.NewAlpha`, `image.NewGray`, `image.NewRGBA` on
`image.Rect(0, 0, width, height)`:
`Pix: make([]uint8, pixelBufferLength(bytesPerPixel, r, name))`. -/
def new (model : ColorModel) (width height : Nat) : Except Err Image :=
  match pixelBufferLength model.bytesPerPixel width height with
  | .error e => .error e
  | .ok n =>
    match make n with
    | .error e => .error e
    | .ok _ => .ok (blank model width height)

/-- Go's `Point.In(p.Rect)` for the point `(x, y)`. -/
def inRect (m : Image) (x y : Int) : Bool :=
  decide (m.minX ≤ x) && decide (x < m.minX + m.width) &&
    decide (m.minY ≤ y) && decide (y < m.minY + m.height)

/-- The index of pixel `(x, y)` in `pix`. -/
def pixOffset (m : Image) (x y : Int) : Nat :=
  (y - m.minY).toNat * m.width + (x - m.minX).toNat

/-- Go's `At(x, y)`: the zero colour outside the rectangle. -/
def At (m : Image) (x y : Int) : Color :=
  if m.inRect x y then m.pix.getD (m.pixOffset x y) m.model.zero else m.model.zero

/-- Go's `Set(x, y, c)`: nothing outside the rectangle. -/
def Set (m : Image) (x y : Int) (c : Color) : Image :=
  if m.inRect x y then { m with pix := m.pix.set (m.pixOffset x y) (m.model.convert c) } else m

end Image

/-! ## Decoder (decode.go) -/

/-- A Go loop `for i = lo; i < lo + n; i++ { body }` over a state `s`; the
body returns the state and the panic it raised, if any, and a panic leaves
the loop with the state reached so far. -/
def forLoop {σ : Type} (body : Nat → σ → σ × Option Err) : Nat → Nat → σ → σ × Option Err
  | _, 0, s => (s, none)
  | i, n + 1, s =>
    match body i s with
    | (s1, some e) => (s1, some e)
    | (s1, none) => forLoop body (i + 1) n s1

/-- The body of the inner loop of `decodeP1` at pixel `(x, y)`, on the reader
and the image: `img.Set(x, y, color.Alpha{uint8(readU(r)) * 0xff})`. -/
def decodeP1Pixel (y x : Nat) (st : List Nat × Image) : (List Nat × Image) × Option Err :=
  match readU st.1 with
  | .error e => (st, some e)
  | .ok (v, r1) => ((r1, st.2.Set x y (.alpha ((v % 256) * 0xff % 256))), none)

/-- Go's `decodeP1`: one number per pixel, row after row. -/
def decodeP1 (r : List Nat) (img : Image) (width height : Nat) : Image × Option Err :=
  let res := forLoop (fun y st => forLoop (decodeP1Pixel y) 0 width st) 0 height (r, img)
  (res.1.2, res.2)

/-- One sample of `decodeP2` and `decodeP3`: `uint8((s & mask) * mul)`, the
product taken in `uint` (64 bits). -/
def sampleU (mask mul s : Nat) : Nat :=
  ((s &&& mask) * mul) % 2 ^ 64 % 256

/-- The body of the inner loop of `decodeP2`:
`img.Set(x, y, color.Gray{uint8((readU(r) & mask) * mul)})`. -/
def decodeP2Pixel (mask mul y x : Nat) (st : List Nat × Image) :
    (List Nat × Image) × Option Err :=
  match readU st.1 with
  | .error e => (st, some e)
  | .ok (v, r1) => ((r1, st.2.Set x y (.gray (sampleU mask mul v))), none)

/-- Go's `decodeP2`: `mask := readU(r)`, `mul := 255 / mask` (a panic when
`mask` is 0), then one number per pixel. -/
def decodeP2 (r : List Nat) (img : Image) (width height : Nat) : Image × Option Err :=
  match readU r with
  | .error e => (img, some e)
  | .ok (mask, r0) =>
    if mask = 0 then (img, some .divByZero)
    else
      let res := forLoop (fun y st => forLoop (decodeP2Pixel mask (255 / mask) y) 0 width st)
        0 height (r0, img)
      (res.1.2, res.2)

/-- The body of the inner loop of `decodeP3`: three numbers, read in the
order red, green, blue, then `img.Set(x, y, color.RGBA{..., 0xff})`. -/
def decodeP3Pixel (mask mul y x : Nat) (st : List Nat × Image) :
    (List Nat × Image) × Option Err :=
  match readU st.1 with
  | .error e => (st, some e)
  | .ok (vr, r1) =>
    match readU r1 with
    | .error e => (st, some e)
    | .ok (vg, r2) =>
      match readU r2 with
      | .error e => (st, some e)
      | .ok (vb, r3) =>
        ((r3, st.2.Set x y
          (.rgba (sampleU mask mul vr) (sampleU mask mul vg) (sampleU mask mul vb) 0xff)), none)

/-- Go's `decodeP3`: as `decodeP2` with three numbers per pixel. -/
def decodeP3 (r : List Nat) (img : Image) (width height : Nat) : Image × Option Err :=
  match readU r with
  | .error e => (img, some e)
  | .ok (mask, r0) =>
    if mask = 0 then (img, some .divByZero)
    else
      let res := forLoop (fun y st => forLoop (decodeP3Pixel mask (255 / mask) y) 0 width st)
        0 height (r0, img)
      (res.1.2, res.2)

/-- The statement `bit += pad` after the inner loop of `decodeP4` and of
`encodeP4`, on the state of the loop and its counter `bit`. -/
def addPad {α : Type} (pad : Int) (res : (α × Int) × Option Err) : (α × Int) × Option Err :=
  match res with
  | (st, some e) => (st, some e)
  | (st, none) => ((st.1, st.2 + pad), none)

/-- The body of the inner loop of `decodeP4`, on the image and the counter
`bit`: the pixel is `color.Alpha{0xff}` when `bits.Test(bit)` and
`color.Alpha{0x00}` otherwise, then `bit++`. -/
def decodeP4Pixel (bits : List Nat) (y x : Nat) (st : Image × Int) : (Image × Int) × Option Err :=
  match bitset.Test bits st.2 with
  | .error e => (st, some e)
  | .ok t => ((st.1.Set x y (.alpha (if t then 0xff else 0x00)), st.2 + 1), none)

/-- Go's `decodeP4`, on the reader with the pieces `fills` and the unread bytes
`r`: `bytes := ceil(width / 8)` bytes per row are read into a bitset after
`space(r)`, with one call of `Read` whose count is dropped; the loop tests bit
`bit` for each pixel and skips `pad` bits at the end of a row. -/
def decodeP4 (fills : List (List Nat)) (r : List Nat) (img : Image) (width height : Nat) :
    Image × Option Err :=
  let bytes := (width + 7) / 8
  let bits := newBitset (bytes * height * 8)
  let pad : Int := (bytes * 8 : Nat) - (width : Int)
  match space r with
  | .error e => (img, some e)
  | .ok r1 =>
    match Read (buffered fills r1.length) r1 bits with
    | .error e => (img, some e)
    | .ok (bits, _) =>
      let res := forLoop (fun y st => addPad pad (forLoop (decodeP4Pixel bits y) 0 width st))
        0 height (img, (0 : Int))
      (res.1.1, res.2)

/-- One sample of `decodeP5` and `decodeP6`: `(d & mask) * mul` in `uint8`. -/
def sampleB (mask mul d : Nat) : Nat :=
  ((d &&& mask) * mul) % 256

/-- The body of the inner loop of `decodeP5`, on the image and the counter
`pix`: `img.Set(x, y, color.Gray{(data[pix] & mask) * mul})`, then `pix++`. -/
def decodeP5Pixel (data : List Nat) (mask mul y x : Nat) (st : Image × Nat) :
    (Image × Nat) × Option Err :=
  match data[st.2]? with
  | none => (st, some .index)
  | some d => ((st.1.Set x y (.gray (sampleB mask mul d)), st.2 + 1), none)

/-- Go's `decodeP5`, on the reader with the pieces `fills` and the unread bytes
`r`: `mask := byte(readU(r))`, `mul := 255 / mask` (a panic when `mask` is 0),
`data := make([]byte, width*height)` is read after `space(r)`, with one call
of `Read` whose count is dropped, then one byte of `data` is taken per
pixel. -/
def decodeP5 (fills : List (List Nat)) (r : List Nat) (img : Image) (width height : Nat) :
    Image × Option Err :=
  match readU r with
  | .error e => (img, some e)
  | .ok (m, r0) =>
    let mask := m % 256
    if mask = 0 then (img, some .divByZero)
    else
      match space r0 with
      | .error e => (img, some e)
      | .ok r1 =>
        match Read (buffered fills r1.length) r1 (List.replicate (width * height) 0) with
        | .error e => (img, some e)
        | .ok (data, _) =>
          let res := forLoop (fun y st =>
            forLoop (decodeP5Pixel data mask (255 / mask) y) 0 width st) 0 height (img, 0)
          (res.1.1, res.2)

/-- The body of the inner loop of `decodeP6`: the pixel is made of
`data[pix]`, `data[pix+1]`, `data[pix+2]`, then `pix += 3`. -/
def decodeP6Pixel (data : List Nat) (mask mul y x : Nat) (st : Image × Nat) :
    (Image × Nat) × Option Err :=
  match data[st.2]?, data[st.2 + 1]?, data[st.2 + 2]? with
  | some dr, some dg, some db =>
    ((st.1.Set x y
      (.rgba (sampleB mask mul dr) (sampleB mask mul dg) (sampleB mask mul db) 0xff),
      st.2 + 3), none)
  | _, _, _ => (st, some .index)

/-- Go's `decodeP6`: as `decodeP5` with `width*height*3` bytes, three per
pixel. -/
def decodeP6 (fills : List (List Nat)) (r : List Nat) (img : Image) (width height : Nat) :
    Image × Option Err :=
  match readU r with
  | .error e => (img, some e)
  | .ok (m, r0) =>
    let mask := m % 256
    if mask = 0 then (img, some .divByZero)
    else
      match space r0 with
      | .error e => (img, some e)
      | .ok r1 =>
        match Read (buffered fills r1.length) r1 (List.replicate (width * height * 3) 0) with
        | .error e => (img, some e)
        | .ok (data, _) =>
          let res := forLoop (fun y st =>
            forLoop (decodeP6Pixel data mask (255 / mask) y) 0 width st) 0 height (img, 0)
          (res.1.1, res.2)

/-- Go's `Decode` on an input that arrives in the pieces `fills`: the image and
the error it returns.  The image is the named result `img`: it is nil until
the `switch` assigns it, which a panic of `image.NewAlpha`, `image.NewGray` or
`image.NewRGBA` prevents, and a panic raised after that leaves it assigned. -/
def Decode (fills : List (List Nat)) : Option Image × Option Err :=
  match readS fills.flatten with
  | .error e => (none, some e)
  | .ok (format, r1) =>
    match readU r1 with
    | .error e => (none, some e)
    | .ok (width, r2) =>
      match readU r2 with
      | .error e => (none, some e)
      | .ok (height, r3) =>
        if format = [0x50, 0x31] then
          match Image.new .alpha width height with
          | .error e => (none, some e)
          | .ok img =>
            let res := decodeP1 r3 img width height
            (some res.1, res.2)
        else if format = [0x50, 0x32] then
          match Image.new .gray width height with
          | .error e => (none, some e)
          | .ok img =>
            let res := decodeP2 r3 img width height
            (some res.1, res.2)
        else if format = [0x50, 0x33] then
          match Image.new .rgba width height with
          | .error e => (none, some e)
          | .ok img =>
            let res := decodeP3 r3 img width height
            (some res.1, res.2)
        else if format = [0x50, 0x34] then
          match Image.new .alpha width height with
          | .error e => (none, some e)
          | .ok img =>
            let res := decodeP4 fills r3 img width height
            (some res.1, res.2)
        else if format = [0x50, 0x35] then
          match Image.new .gray width height with
          | .error e => (none, some e)
          | .ok img =>
            let res := decodeP5 fills r3 img width height
            (some res.1, res.2)
        else if format = [0x50, 0x36] then
          match Image.new .rgba width height with
          | .error e => (none, some e)
          | .ok img =>
            let res := decodeP6 fills r3 img width height
            (some res.1, res.2)
        else (none, some .unknownFormat)

/-- The fields `Width` and `Height` of `image.Config`. -/
structure Config where
  width : Nat
  height : Nat
  deriving DecidableEq, Repr

/-- Go's `DecodeConfig` on an input that arrives in the pieces `fills`: the
named result `cfg`, zero until its fields are assigned, and the error. -/
def DecodeConfig (fills : List (List Nat)) : Config × Option Err :=
  match readS fills.flatten with
  | .error e => (⟨0, 0⟩, some e)
  | .ok (format, r1) =>
    if format = [0x50, 0x31] ∨ format = [0x50, 0x32] ∨ format = [0x50, 0x33] ∨
        format = [0x50, 0x34] ∨ format = [0x50, 0x35] ∨ format = [0x50, 0x36] then
      match readU r1 with
      | .error e => (⟨0, 0⟩, some e)
      | .ok (width, r2) =>
        match readU r2 with
        | .error e => (⟨width, 0⟩, some e)
        | .ok (height, _) => (⟨width, height⟩, none)
    else (⟨0, 0⟩, some .unknownFormat)

/-! ## Encoder (encode.go) -/

/-- The digits of `decimal`, most significant first, with a bound on the
number of digits. -/
def decimalAux : Nat → Nat → List Nat
  | 0, _ => []
  | f + 1, n => if n < 10 then [48 + n] else decimalAux f (n / 10) ++ [48 + n % 10]

/-- The verb `%d` of `fmt` on a number that is not negative. -/
def decimal (n : Nat) : List Nat :=
  decimalAux (n + 1) n

/-- Go's `strings.Join(row, sep)`. -/
def join (sep : List Nat) : List (List Nat) → List Nat
  | [] => []
  | [a] => a
  | a :: b :: l => a ++ sep ++ join sep (b :: l)

/-- The values of `PNMType`. -/
def BitmapAscii : Int := 0

def BitmapBinary : Int := 1

def GraymapAscii : Int := 2

def GraymapBinary : Int := 3

def PixmapAscii : Int := 4

def PixmapBinary : Int := 5

/-- Go's `encodeP1`: the header `"P1\n%d %d\n"`, then one line per row with `1`
where `byte(r)/0xff == 1` and `0` elsewhere, joined by spaces. -/
def encodeP1 (m : Image) : List Nat :=
  [0x50, 0x31, 0x0a] ++ decimal m.width ++ [0x20] ++ decimal m.height ++ [0x0a] ++
    ((List.range m.height).map (fun y =>
      join [0x20] ((List.range m.width).map (fun x =>
        if (m.At x y).RGBA.1 % 256 / 0xff = 1 then [0x31] else [0x30])) ++ [0x0a])).flatten

/-- Go's `encodeP2`: the header `"P2\n%d %d\n255\n"`, then one line per row with
`byte(r)` in decimal for each pixel. -/
def encodeP2 (m : Image) : List Nat :=
  [0x50, 0x32, 0x0a] ++ decimal m.width ++ [0x20] ++ decimal m.height ++
    [0x0a, 0x32, 0x35, 0x35, 0x0a] ++
    ((List.range m.height).map (fun y =>
      join [0x20] ((List.range m.width).map (fun x =>
        decimal ((m.At x y).RGBA.1 % 256))) ++ [0x0a])).flatten

/-- The row entry of `encodeP3` for a pixel:
`fmt.Sprintf("%d %d %d", byte(r), byte(g), byte(b))`. -/
def encodeP3Pixel (m : Image) (y x : Nat) : List Nat :=
  decimal ((m.At x y).RGBA.1 % 256) ++ ([0x20] ++
    (decimal ((m.At x y).RGBA.2.1 % 256) ++ ([0x20] ++
      decimal ((m.At x y).RGBA.2.2.1 % 256))))

/-- Go's `encodeP3`: the header `"P3\n%d %d\n255\n"`, then one line per row,
the entries of its pixels joined by spaces. -/
def encodeP3 (m : Image) : List Nat :=
  [0x50, 0x33, 0x0a] ++ decimal m.width ++ [0x20] ++ decimal m.height ++
    [0x0a, 0x32, 0x35, 0x35, 0x0a] ++
    ((List.range m.height).map (fun y =>
      join [0x20] ((List.range m.width).map (encodeP3Pixel m y)) ++ [0x0a])).flatten

/-- The body of the inner loop of `encodeP4` at pixel `(x, y)`, on the bitset
and the counter `bit`: `bits.Set(bit)` when `r > 0`, then `bit++`. -/
def encodeP4Pixel (m : Image) (y x : Nat) (st : List Nat × Int) : (List Nat × Int) × Option Err :=
  if (m.At x y).RGBA.1 > 0 then
    match bitset.Set st.1 st.2 with
    | .error e => (st, some e)
    | .ok b => ((b, st.2 + 1), none)
  else ((st.1, st.2 + 1), none)

/-- Go's `encodeP4`: the header `"P4\n%d %d\n"` is written first; the loop
sets bit `bit` of a fresh bitset where `r > 0` and skips `pad` bits after each
row; the bitset is written last.  Returns the bytes written and the panic. -/
def encodeP4 (m : Image) : List Nat × Option Err :=
  let bytes := (m.width + 7) / 8
  let bits := newBitset (bytes * m.height * 8)
  let pad : Int := (bytes * 8 : Nat) - (m.width : Int)
  let header := [0x50, 0x34, 0x0a] ++ decimal m.width ++ [0x20] ++ decimal m.height ++ [0x0a]
  let res := forLoop (fun y st => addPad pad (forLoop (encodeP4Pixel m y) 0 m.width st))
    0 m.height (bits, (0 : Int))
  match res.2 with
  | some e => (header, some e)
  | none => (header ++ res.1.1, none)

/-- Go's `encodeP5`: the header `"P5\n%d %d\n255\n"`, then `byte(r)` of each
pixel, row after row. -/
def encodeP5 (m : Image) : List Nat :=
  [0x50, 0x35, 0x0a] ++ decimal m.width ++ [0x20] ++ decimal m.height ++
    [0x0a, 0x32, 0x35, 0x35, 0x0a] ++
    ((List.range m.height).map (fun y =>
      (List.range m.width).map (fun x => (m.At x y).RGBA.1 % 256))).flatten

/-- Go's `encodeP6`: the header `"P6\n%d %d\n255\n"`, then
`byte(r), byte(g), byte(b)` of each pixel, row after row. -/
def encodeP6 (m : Image) : List Nat :=
  [0x50, 0x36, 0x0a] ++ decimal m.width ++ [0x20] ++ decimal m.height ++
    [0x0a, 0x32, 0x35, 0x35, 0x0a] ++
    ((List.range m.height).map (fun y =>
      ((List.range m.width).map (fun x =>
        [(m.At x y).RGBA.1 % 256, (m.At x y).RGBA.2.1 % 256,
          (m.At x y).RGBA.2.2.1 % 256])).flatten)).flatten

/-- Go's `Encode`: the bytes written to `w` and the error returned. -/
def Encode (m : Image) (ptype : Int) : List Nat × Option Err :=
  if ptype = BitmapAscii then (encodeP1 m, none)
  else if ptype = GraymapAscii then (encodeP2 m, none)
  else if ptype = PixmapAscii then (encodeP3 m, none)
  else if ptype = BitmapBinary then encodeP4 m
  else if ptype = GraymapBinary then (encodeP5 m, none)
  else if ptype = PixmapBinary then (encodeP6 m, none)
  else ([], some .invalidType)

/-! ## Predicates and streams used by the theorems -/

/-- The width and the height of the image of a loop state are those of `img`. -/
def SameDims (img m : Image) : Prop :=
  m.width = img.width ∧ m.height = img.height

/-- A token byte: neither whitespace nor `#`. -/
def isTokByte (b : Nat) : Bool :=
  !isSpace b && b != 0x23

/-- A run of token bytes. -/
def isTok (t : List Nat) : Bool :=
  t.all isTokByte

/-- What may stand between two tokens: whitespace bytes and comments, each
comment running from a `#` to the next CR or LF.  The flag tells whether the
bytes start inside a comment; a gap does not end inside one. -/
def isGapFrom : Bool → List Nat → Bool
  | comment, [] => !comment
  | false, b :: g => if b = 0x23 then isGapFrom true g else isSpace b && isGapFrom false g
  | true, b :: g => if isNewline b then isGapFrom false g else isGapFrom true g

/-- A separator: a gap with at least one byte. -/
def isSep (g : List Nat) : Bool :=
  isGapFrom false g && !g.isEmpty

/-- The bytes of a comment from its end of line on. -/
def dropComment : List Nat → List Nat
  | [] => []
  | b :: g => if isNewline b then b :: g else dropComment g

/-- What is left of a separator once the token before it was read: `read`
stops in front of a whitespace byte, and in front of the end of line of a
comment that follows the token directly. -/
def trimSep : List Nat → List Nat
  | [] => []
  | b :: g => if b = 0x23 then dropComment g else b :: g

/-- The pixel tokens of a `P1` stream: for each pixel the token `1` or `0` and
the separator after it. -/
def p1Pixels : List (Bool × List Nat) → List Nat
  | [] => []
  | p :: l => decimal (if p.1 then 1 else 0) ++ (p.2 ++ p1Pixels l)

/-- A `P1` stream: the token `P1`, the width and the height in decimal, then
the pixel tokens, with a separator after every token. -/
def p1Stream (w h : Nat) (g0 g1 g2 : List Nat) (l : List (Bool × List Nat)) : List Nat :=
  [0x50, 0x31] ++ (g0 ++ (decimal w ++ (g1 ++ (decimal h ++ (g2 ++ p1Pixels l)))))

/-- An `image.RGBA` on a rectangle at the origin, one colour per pixel, every
pixel a `color.RGBA` with byte channels and alpha `0xff`. -/
def isOpaqueRGB (m : Image) : Bool :=
  m.model == .rgba && m.minX == 0 && m.minY == 0 && m.pix.length == m.width * m.height &&
    m.pix.all (fun c =>
      match c with
      | .rgba r g b a => decide (r < 256) && decide (g < 256) && decide (b < 256) && a == 0xff
      | _ => false)

/-- What `encodeP3` writes for the pixels `x, ..., x + n - 1` of row `y`, each
entry after the byte `s` or a space, followed by `tail`. -/
def p3Cols (m : Image) (y : Nat) : Nat → Nat → Nat → List Nat → List Nat
  | _, _, 0, tail => tail
  | s, x, n + 1, tail => s :: (encodeP3Pixel m y x ++ p3Cols m y 0x20 (x + 1) n tail)

/-- What `encodeP3` writes for the rows `y, ..., y + n - 1`, each row after a
line feed, and the last line feed. -/
def p3Rows (m : Image) : Nat → Nat → List Nat
  | _, 0 => [0x0a]
  | y, n + 1 => p3Cols m y 0x0a 0 m.width (p3Rows m (y + 1) n)

/-- A stream without a token: whitespace bytes and comments only; unlike a
gap it may end inside a comment.  The flag tells whether the bytes start
inside a comment. -/
def isBlankFrom : Bool → List Nat → Bool
  | _, [] => true
  | false, b :: g => if b = 0x23 then isBlankFrom true g else isSpace b && isBlankFrom false g
  | true, b :: g => if isNewline b then isBlankFrom false g else isBlankFrom true g

/-- Number tokens in decimal, each followed by its separator. -/
def numToks : List (Nat × List Nat) → List Nat
  | [] => []
  | p :: l => decimal p.1 ++ (p.2 ++ numToks l)

/-- An ASCII stream that ends right after its last token: the magic token `P`
and the digit `d`, a separator, number tokens with their separators (the
header numbers, then the samples), and a last sample `last` with nothing
after it. -/
def asciiStream (d : Nat) (g0 : List Nat) (toks : List (Nat × List Nat)) (last : Nat) :
    List Nat :=
  [0x50, d] ++ (g0 ++ (numToks toks ++ decimal last))

/-- The entries of a list of triples, in order: for RGB samples red, green,
blue of the first pixel, then those of the second, and so on. -/
def triples {α : Type} : List (α × α × α) → List α
  | [] => []
  | p :: l => p.1 :: p.2.1 :: p.2.2 :: triples l

/-- A stream of number tokens: the magic token `P` and the digit `d`, a
separator, then number tokens, each followed by its separator (the header
numbers, then the samples). -/
def numStream (d : Nat) (g0 : List Nat) (toks : List (Nat × List Nat)) : List Nat :=
  [0x50, d] ++ (g0 ++ numToks toks)

/-- A binary stream with a maxSample: the magic token `P` and the digit `d`,
the width, the height and maxSample in decimal, a separator after each of the
first three tokens, the whitespace bytes `ws` after maxSample, then the
payload. -/
def binStream (d : Nat) (g0 : List Nat) (w : Nat) (g1 : List Nat) (h : Nat) (g2 : List Nat)
    (m : Nat) (ws payload : List Nat) : List Nat :=
  [0x50, d] ++ (g0 ++ (decimal w ++ (g1 ++ (decimal h ++ (g2 ++ (decimal m ++
    (ws ++ payload)))))))

/-! ## Test data (decode_test.go) -/

/-- The `Data` of the test case `P1` of decode_test.go: the letter J, 6 x 10. -/
def testP1 : List Nat :=
  [80, 49, 10, 9, 9, 35, 32, 84, 104, 105, 115, 32, 105, 115, 32, 97, 110, 32, 101, 120, 97,
    109, 112, 108, 101, 32, 98, 105, 116, 109, 97, 112, 32, 111, 102, 32, 116, 104, 101, 32,
    108, 101, 116, 116, 101, 114, 32, 34, 74, 34, 10, 9, 9, 54, 32, 49, 48, 10, 9, 9, 48, 32,
    48, 32, 48, 32, 48, 32, 49, 32, 48, 10, 9, 9, 48, 32, 48, 32, 48, 32, 48, 32, 49, 32, 48,
    10, 9, 9, 48, 32, 48, 32, 48, 32, 48, 32, 49, 32, 48, 10, 9, 9, 48, 32, 48, 32, 48, 32, 48,
    32, 49, 32, 48, 10, 9, 9, 48, 32, 48, 32, 48, 32, 48, 32, 49, 32, 48, 10, 9, 9, 48, 32, 48,
    32, 48, 32, 48, 32, 49, 32, 48, 10, 9, 9, 49, 32, 48, 32, 48, 32, 48, 32, 49, 32, 48, 10,
    9, 9, 48, 32, 49, 32, 49, 32, 49, 32, 48, 32, 48, 10, 9, 9, 48, 32, 48, 32, 48, 32, 48, 32,
    48, 32, 48, 10, 9, 9, 48, 32, 48, 32, 48, 32, 48, 32, 48, 32, 48, 10, 9, 9]

/-- The `Data` of the test case `P4` of decode_test.go: the letter J, 6 x 10,
as the payload `08 08 08 08 08 08 88 70 00 00`. -/
def testP4 : List Nat :=
  [80, 52, 10, 9, 9, 35, 32, 84, 104, 105, 115, 32, 105, 115, 32, 97, 110, 32, 101, 120, 97,
    109, 112, 108, 101, 32, 98, 105, 116, 109, 97, 112, 32, 111, 102, 32, 116, 104, 101, 32,
    108, 101, 116, 116, 101, 114, 32, 34, 74, 34, 10, 9, 9, 54, 32, 49, 48, 32, 8, 8, 8, 8, 8,
    8, 136, 112, 0, 0]

/-! ## Loops and images: general lemmas -/

theorem forLoop_inv {σ : Type} (P : σ → Prop) (body : Nat → σ → σ × Option Err)
    (hb : ∀ i s, P s → P (body i s).1) :
    ∀ n i s, P s → P (forLoop body i n s).1 := by
  intro n
  induction n with
  | zero => intro i s h; simpa [forLoop] using h
  | succ n ih =>
    intro i s h
    have h1 := hb i s h
    unfold forLoop
    cases hbody : body i s with
    | mk s1 e =>
      rw [hbody] at h1
      cases e with
      | none => exact ih (i + 1) s1 h1
      | some e => exact h1

theorem Image.Set_width (m : Image) (x y : Int) (c : Color) : (m.Set x y c).width = m.width := by
  unfold Image.Set; split <;> rfl

theorem Image.Set_height (m : Image) (x y : Int) (c : Color) :
    (m.Set x y c).height = m.height := by
  unfold Image.Set; split <;> rfl

theorem SameDims.Set {img m : Image} (h : SameDims img m) (x y : Int) (c : Color) :
    SameDims img (m.Set x y c) := by
  unfold SameDims at *
  rw [Image.Set_width, Image.Set_height]
  exact h

theorem addPad_fst {α : Type} (pad : Int) (res : (α × Int) × Option Err) :
    (addPad pad res).1.1 = res.1.1 := by
  unfold addPad
  split <;> rfl

theorem decodeP1_dims (r : List Nat) (img : Image) (w h : Nat) :
    SameDims img (decodeP1 r img w h).1 := by
  unfold decodeP1
  refine forLoop_inv (fun st : List Nat × Image => SameDims img st.2) _ ?_ _ _ _ ⟨rfl, rfl⟩
  intro y st hst
  refine forLoop_inv (fun st : List Nat × Image => SameDims img st.2) _ ?_ _ _ _ hst
  intro x st hst
  unfold decodeP1Pixel
  split
  · exact hst
  · exact hst.Set _ _ _

theorem decodeP2_dims (r : List Nat) (img : Image) (w h : Nat) :
    SameDims img (decodeP2 r img w h).1 := by
  unfold decodeP2
  split
  · exact ⟨rfl, rfl⟩
  · split
    · exact ⟨rfl, rfl⟩
    · refine forLoop_inv (fun st : List Nat × Image => SameDims img st.2) _ ?_ _ _ _ ⟨rfl, rfl⟩
      intro y st hst
      refine forLoop_inv (fun st : List Nat × Image => SameDims img st.2) _ ?_ _ _ _ hst
      intro x st hst
      unfold decodeP2Pixel
      split
      · exact hst
      · exact hst.Set _ _ _

theorem decodeP3_dims (r : List Nat) (img : Image) (w h : Nat) :
    SameDims img (decodeP3 r img w h).1 := by
  unfold decodeP3
  split
  · exact ⟨rfl, rfl⟩
  · split
    · exact ⟨rfl, rfl⟩
    · refine forLoop_inv (fun st : List Nat × Image => SameDims img st.2) _ ?_ _ _ _ ⟨rfl, rfl⟩
      intro y st hst
      refine forLoop_inv (fun st : List Nat × Image => SameDims img st.2) _ ?_ _ _ _ hst
      intro x st hst
      unfold decodeP3Pixel
      split
      · exact hst
      · split
        · exact hst
        · split
          · exact hst
          · exact hst.Set _ _ _

theorem decodeP4_dims (fills : List (List Nat)) (r : List Nat) (img : Image) (w h : Nat) :
    SameDims img (decodeP4 fills r img w h).1 := by
  unfold decodeP4
  simp only []
  split
  · exact ⟨rfl, rfl⟩
  · split
    · exact ⟨rfl, rfl⟩
    · refine forLoop_inv (fun st : Image × Int => SameDims img st.1) _ ?_ _ _ _ ⟨rfl, rfl⟩
      intro y st hst
      show SameDims img (addPad _ _).1.1
      rw [addPad_fst]
      refine forLoop_inv (fun st : Image × Int => SameDims img st.1) _ ?_ _ _ _ hst
      intro x st hst
      unfold decodeP4Pixel
      split
      · exact hst
      · exact hst.Set _ _ _

theorem decodeP5_dims (fills : List (List Nat)) (r : List Nat) (img : Image) (w h : Nat) :
    SameDims img (decodeP5 fills r img w h).1 := by
  unfold decodeP5
  simp only []
  split
  · exact ⟨rfl, rfl⟩
  · split
    · exact ⟨rfl, rfl⟩
    · split
      · exact ⟨rfl, rfl⟩
      · split
        · exact ⟨rfl, rfl⟩
        · refine forLoop_inv (fun st : Image × Nat => SameDims img st.1) _ ?_ _ _ _ ⟨rfl, rfl⟩
          intro y st hst
          refine forLoop_inv (fun st : Image × Nat => SameDims img st.1) _ ?_ _ _ _ hst
          intro x st hst
          unfold decodeP5Pixel
          split
          · exact hst
          · exact hst.Set _ _ _

theorem decodeP6_dims (fills : List (List Nat)) (r : List Nat) (img : Image) (w h : Nat) :
    SameDims img (decodeP6 fills r img w h).1 := by
  unfold decodeP6
  simp only []
  split
  · exact ⟨rfl, rfl⟩
  · split
    · exact ⟨rfl, rfl⟩
    · split
      · exact ⟨rfl, rfl⟩
      · split
        · exact ⟨rfl, rfl⟩
        · refine forLoop_inv (fun st : Image × Nat => SameDims img st.1) _ ?_ _ _ _ ⟨rfl, rfl⟩
          intro y st hst
          refine forLoop_inv (fun st : Image × Nat => SameDims img st.1) _ ?_ _ _ _ hst
          intro x st hst
          unfold decodeP6Pixel
          split
          · exact hst.Set _ _ _
          · exact hst

theorem rescale_le (m s : Nat) : (s &&& m) * (255 / m) ≤ 255 := by
  have ha : s &&& m ≤ m := Nat.and_le_right
  calc (s &&& m) * (255 / m) ≤ m * (255 / m) := Nat.mul_le_mul_right _ ha
    _ ≤ 255 := Nat.mul_div_le 255 m

theorem sampleU_eq (m s : Nat) :
    sampleU m (255 / m) s = (s &&& m) * (255 / m) := by
  have h := rescale_le m s
  unfold sampleU
  omega

theorem sampleB_eq (m d : Nat) (h2 : m ≤ 255) :
    sampleB (m % 256) (255 / (m % 256)) d = (d &&& m) * (255 / m) := by
  have h := rescale_le m d
  have hm : m % 256 = m := by omega
  rw [hm]
  unfold sampleB
  omega

/-! ## Token reader: general lemmas -/

theorem isNewline_isSpace {b : Nat} (h : isNewline b = true) : isSpace b = true := by
  simp only [isNewline, isSpace, Bool.or_eq_true, beq_iff_eq] at h ⊢
  omega

theorem space_of_isSpace {b : Nat} (r : List Nat) (h : isSpace b = true) :
    space (b :: r) = space r := by
  simp [space, h]

theorem space_of_not_isSpace {b : Nat} (r : List Nat) (h : isSpace b = false) :
    space (b :: r) = .ok (b :: r) := by
  simp [space, h]

theorem isSpace_hash : isSpace 0x23 = false := by decide

theorem readN_of_isSpace {b : Nat} (n : Nat) (r : List Nat) (h : isSpace b = true) :
    readN n (b :: r) = readN n r := by
  cases n with
  | zero => rfl
  | succ n => simp only [readN, space_of_isSpace r h]

/-- Inside a comment the loop runs to the end of line and stops in front of it. -/
theorem readLoop_comment (c : List Nat) (hc : isGapFrom true c = true) :
    isGapFrom false (dropComment c) = true ∧ dropComment c ≠ [] ∧
    (dropComment c).length ≤ c.length ∧
    ∀ buf rest, readLoop true buf (c ++ rest) = .ok (buf, dropComment c ++ rest) := by
  induction c with
  | nil => simp [isGapFrom] at hc
  | cons b c ih =>
    by_cases hn : isNewline b = true
    · simp only [isGapFrom, hn, if_true] at hc
      simp only [dropComment, hn, if_true]
      refine ⟨?_, by simp, le_refl _, ?_⟩
      · have hb : b ≠ 0x23 := by
          intro hb; rw [hb] at hn; exact absurd hn (by decide)
        simp [isGapFrom, hb, isNewline_isSpace hn, hc]
      · intro buf rest
        have hb : b ≠ 0x23 := by
          intro hb; rw [hb] at hn; exact absurd hn (by decide)
        simp [readLoop, hb, hn]
    · simp only [Bool.not_eq_true] at hn
      simp only [isGapFrom, hn] at hc
      simp only [dropComment, hn]
      obtain ⟨h1, h2, h3, h4⟩ := ih (by simpa using hc)
      refine ⟨by simpa using h1, by simpa using h2, ?_, ?_⟩
      · simp only [Bool.false_eq_true, if_false, List.length_cons]; omega
      · intro buf rest
        by_cases hb : b = 0x23
        · simp [readLoop, hb, h4]
        · simp [readLoop, hb, hn, h4]

theorem isTokByte_iff {b : Nat} : isTokByte b = true ↔ isSpace b = false ∧ b ≠ 0x23 := by
  simp [isTokByte]

/-- After a token `read` stops inside the separator, at `trimSep`. -/
theorem readLoop_sep (g : List Nat) (hg : isSep g = true) :
    isSep (trimSep g) = true ∧ (trimSep g).length ≤ g.length ∧
    ∀ buf rest, readLoop false buf (g ++ rest) = .ok (buf, trimSep g ++ rest) := by
  cases g with
  | nil => simp [isSep] at hg
  | cons b g =>
    simp only [isSep, Bool.and_eq_true] at hg
    by_cases hb : b = 0x23
    · subst hb
      have hc : isGapFrom true g = true := by simpa [isGapFrom] using hg.1
      obtain ⟨h1, h2, h3, h4⟩ := readLoop_comment g hc
      refine ⟨?_, ?_, ?_⟩
      · simp only [trimSep, if_true, isSep, h1, Bool.true_and]
        cases hd : dropComment g with
        | nil => exact absurd hd h2
        | cons _ _ => rfl
      · simp only [trimSep, if_true, List.length_cons]; omega
      · intro buf rest
        simp [readLoop, trimSep, h4]
    · have hs : isSpace b = true ∧ isGapFrom false g = true := by
        simpa [isGapFrom, hb] using hg.1
      refine ⟨?_, ?_, ?_⟩
      · simp [trimSep, hb, isSep, isGapFrom, hs.1, hs.2]
      · simp [trimSep, hb]
      · intro buf rest
        simp [readLoop, trimSep, hb, hs.1]

theorem readLoop_tok (t g : List Nat) (ht : isTok t = true) (hg : isSep g = true) :
    ∀ buf rest, readLoop false buf (t ++ (g ++ rest)) = .ok (buf ++ t, trimSep g ++ rest) := by
  induction t with
  | nil =>
    intro buf rest
    simpa using (readLoop_sep g hg).2.2 buf rest
  | cons b t ih =>
    intro buf rest
    simp only [isTok, List.all_cons, Bool.and_eq_true] at ht
    have hb := isTokByte_iff.1 ht.1
    have := ih (by simpa [isTok] using ht.2) (buf ++ [b]) rest
    simp [readLoop, hb.1, hb.2, this]

/-- The token reader with enough recursion depth for the gap in front of the
token: it skips the gap, returns the token and stops inside the separator. -/
theorem readN_tok (t g' : List Nat) (ht : isTok t = true) (hne : t ≠ [])
    (hg' : isSep g' = true) :
    ∀ k g, g.length ≤ k → isGapFrom false g = true → ∀ n rest, g.length < n →
      readN n (g ++ (t ++ (g' ++ rest))) = .ok (t, trimSep g' ++ rest) := by
  intro k
  induction k with
  | zero =>
    intro g hk _ n rest hn
    have hg0 : g = [] := List.length_eq_zero.1 (by omega)
    subst hg0
    obtain ⟨n, rfl⟩ : ∃ m, n = m + 1 := ⟨n - 1, by simp at hn; omega⟩
    cases t with
    | nil => exact absurd rfl hne
    | cons b t =>
      have hb : isSpace b = false := by
        simp only [isTok, List.all_cons, Bool.and_eq_true] at ht
        exact (isTokByte_iff.1 ht.1).1
      have hl := readLoop_tok (b :: t) g' ht hg' [] rest
      simp only [List.nil_append, List.cons_append] at hl ⊢
      simp only [readN, space_of_not_isSpace _ hb, hl]
      simp
  | succ k ih =>
    intro g hk hg n rest hn
    cases g with
    | nil => exact ih [] (by simp) hg n rest hn
    | cons b g =>
      simp only [List.length_cons] at hk hn
      by_cases hb : b = 0x23
      · subst hb
        have hc : isGapFrom true g = true := by simpa [isGapFrom] using hg
        obtain ⟨h1, _, h3, h4⟩ := readLoop_comment g hc
        obtain ⟨n, rfl⟩ : ∃ m, n = m + 1 := ⟨n - 1, by omega⟩
        have hrec := ih (dropComment g) (by omega) h1 n rest (by omega)
        simp only [List.cons_append, readN, space_of_not_isSpace _ isSpace_hash]
        have hl : readLoop false [] (0x23 :: (g ++ (t ++ (g' ++ rest)))) =
            .ok ([], dropComment g ++ (t ++ (g' ++ rest))) := by
          simp [readLoop, h4]
        simp only [hl]
        simpa using hrec
      · have hs : isSpace b = true ∧ isGapFrom false g = true := by
          simpa [isGapFrom, hb] using hg
        simp only [List.cons_append]
        rw [readN_of_isSpace _ _ hs.1]
        exact ih g (by omega) hs.2 n rest (by omega)

theorem read_tok (g t g' rest : List Nat) (hg : isGapFrom false g = true)
    (ht : isTok t = true) (hne : t ≠ []) (hg' : isSep g' = true) :
    read (g ++ (t ++ (g' ++ rest))) = .ok (t, trimSep g' ++ rest) := by
  unfold read
  exact readN_tok t g' ht hne hg' g.length g (le_refl _) hg _ rest (by simp; omega)

theorem isSep_isGap {g : List Nat} (h : isSep g = true) : isGapFrom false g = true := by
  simp only [isSep, Bool.and_eq_true] at h
  exact h.1

theorem isSep_trimSep {g : List Nat} (h : isSep g = true) : isSep (trimSep g) = true :=
  (readLoop_sep g h).1

theorem isSep_single {s : Nat} (h : isSpace s = true) : isSep [s] = true := by
  have hs : s ≠ 0x23 := by
    intro e; rw [e] at h; exact absurd h (by decide)
  simp [isSep, isGapFrom, hs, h]

theorem trimSep_single {s : Nat} (h : isSpace s = true) : trimSep [s] = [s] := by
  have hs : s ≠ 0x23 := by
    intro e; rw [e] at h; exact absurd h (by decide)
  simp [trimSep, hs]

/-! ## Decimal numbers -/

theorem isTokByte_digit (d : Nat) (h : d < 10) : isTokByte (48 + d) = true := by
  interval_cases d <;> decide

theorem isTok_append {a b : List Nat} (ha : isTok a = true) (hb : isTok b = true) :
    isTok (a ++ b) = true := by
  simp only [isTok, List.all_append, Bool.and_eq_true] at *
  exact ⟨ha, hb⟩

theorem isTok_decimalAux (f : Nat) : ∀ n, isTok (decimalAux f n) = true := by
  induction f with
  | zero => intro n; rfl
  | succ f ih =>
    intro n
    unfold decimalAux
    split
    · simp only [isTok, List.all_cons, List.all_nil, Bool.and_true]
      exact isTokByte_digit n (by omega)
    · refine isTok_append (ih _) ?_
      simp only [isTok, List.all_cons, List.all_nil, Bool.and_true]
      exact isTokByte_digit _ (Nat.mod_lt _ (by omega))

theorem isTok_decimal (n : Nat) : isTok (decimal n) = true :=
  isTok_decimalAux _ n

theorem decimal_ne_nil (n : Nat) : decimal n ≠ [] := by
  unfold decimal decimalAux
  split <;> simp

theorem parseUintLoop_append (a b : List Nat) :
    ∀ n, parseUintLoop (a ++ b) n =
      match parseUintLoop a n with
      | .ok v => parseUintLoop b v
      | .error e => .error e := by
  induction a with
  | nil => intro n; rfl
  | cons c a ih =>
    intro n
    simp only [List.cons_append, parseUintLoop]
    split
    · split
      · rfl
      · exact ih _
    · rfl

theorem parseUintLoop_decimalAux (f : Nat) :
    ∀ n, n < f → n < 4294967296 → parseUintLoop (decimalAux f n) 0 = .ok n := by
  induction f with
  | zero => intro n h; omega
  | succ f ih =>
    intro n hf hn
    unfold decimalAux
    split
    · rename_i h10
      have h1 : 48 ≤ 48 + n ∧ 48 + n ≤ 57 := by omega
      have h2 : ¬ (0 * 10 + (48 + n - 48) > 4294967295) := by omega
      simp only [parseUintLoop, h1, h2, and_self, if_true, if_false]
      congr 1
      omega
    · rename_i h10
      rw [parseUintLoop_append, ih (n / 10) (by omega) (by omega)]
      have h1 : 48 ≤ 48 + n % 10 ∧ 48 + n % 10 ≤ 57 := by omega
      have h2 : ¬ (n / 10 * 10 + (48 + n % 10 - 48) > 4294967295) := by omega
      simp only [parseUintLoop, h1, h2, and_self, if_true, if_false]
      congr 1
      omega

theorem parseUint_decimal (n : Nat) (hn : n < 4294967296) : parseUint (decimal n) = .ok n := by
  unfold parseUint
  rw [if_neg (decimal_ne_nil n)]
  exact parseUintLoop_decimalAux _ n (by omega) hn

/-- A number in decimal, after a gap and in front of a separator, is read by
`readU`, which stops inside the separator. -/
theorem readU_decimal (g g' rest : List Nat) (n : Nat) (hg : isGapFrom false g = true)
    (hn : n < 4294967296) (hg' : isSep g' = true) :
    readU (g ++ (decimal n ++ (g' ++ rest))) = .ok (n, trimSep g' ++ rest) := by
  unfold readU readS
  rw [read_tok g (decimal n) g' rest hg (isTok_decimal n) (decimal_ne_nil n) hg']
  simp only [parseUint_decimal n hn]

/-! ## Loops: invariants -/

/-- A loop whose body keeps an invariant and never panics runs to its end. -/
theorem forLoop_hoare {σ : Type} (body : Nat → σ → σ × Option Err) (n : Nat) :
    ∀ (I : Nat → σ → Prop) (i : Nat),
      (∀ j s, j < n → I j s → ∃ s1, body (i + j) s = (s1, none) ∧ I (j + 1) s1) →
      ∀ s, I 0 s → ∃ s1, forLoop body i n s = (s1, none) ∧ I n s1 := by
  induction n with
  | zero => intro I i _ s h0; exact ⟨s, rfl, h0⟩
  | succ n ih =>
    intro I i hstep s h0
    obtain ⟨s1, hb, h1⟩ := hstep 0 s (by omega) h0
    have hrec := ih (fun j s => I (j + 1) s) (i + 1) (by
      intro j s hj hI
      have := hstep (j + 1) s (by omega) hI
      rwa [show i + (j + 1) = i + 1 + j by omega] at this) s1 h1
    obtain ⟨s2, hl, h2⟩ := hrec
    refine ⟨s2, ?_, h2⟩
    rw [forLoop]
    simp only [Nat.add_zero] at hb
    rw [hb]
    exact hl

/-- The two nested loops over the rows and the columns of an image, with an
invariant on the number `y * w + x` of pixels done. -/
theorem forLoop_rows {σ : Type} (body : Nat → Nat → σ → σ × Option Err) (w h : Nat)
    (I : Nat → σ → Prop)
    (hstep : ∀ y x s, y < h → x < w → I (y * w + x) s →
      ∃ s1, body y x s = (s1, none) ∧ I (y * w + x + 1) s1) :
    ∀ s, I 0 s →
      ∃ s1, forLoop (fun y st => forLoop (body y) 0 w st) 0 h s = (s1, none) ∧ I (h * w) s1 := by
  intro s h0
  have := forLoop_hoare (fun y st => forLoop (body y) 0 w st) h (fun y s => I (y * w) s) 0 (by
    intro y s hy hI
    have hin := forLoop_hoare (body (0 + y)) w (fun x s => I (y * w + x) s) 0 (by
      intro x s hx hI
      have := hstep y x s hy hx hI
      simpa using this) s (by simpa using hI)
    obtain ⟨s1, hl, h1⟩ := hin
    refine ⟨s1, hl, ?_⟩
    show I ((y + 1) * w) s1
    rw [Nat.succ_mul]
    exact h1) s (by simpa using h0)
  exact this

/-! ## Images: setting the pixels in order -/

theorem set_length_append {α : Type} (a : List α) (z c : α) (l : List α) :
    (a ++ z :: l).set a.length c = a ++ c :: l := by
  induction a with
  | nil => rfl
  | cons x a ih => simp [List.set, ih]

/-- Setting pixel `(x, y)` of an image whose first `y * w + x` pixels are done. -/
theorem Image.Set_next (model : ColorModel) (w h : Nat) (done : List Color) (c : Color)
    (x y : Nat) (hx : x < w) (hy : y < h) (hd : done.length = y * w + x)
    (hc : model.convert c = c) :
    (Image.mk model 0 0 w h (done ++ List.replicate (w * h - done.length) model.zero)).Set
        x y c =
      Image.mk model 0 0 w h
        ((done ++ [c]) ++ List.replicate (w * h - (done ++ [c]).length) model.zero) := by
  have hlt : y * w + x < w * h := by
    calc y * w + x < y * w + w := by omega
      _ = (y + 1) * w := by rw [Nat.succ_mul]
      _ ≤ h * w := Nat.mul_le_mul_right _ hy
      _ = w * h := Nat.mul_comm _ _
  have hin : Image.inRect (Image.mk model 0 0 w h
      (done ++ List.replicate (w * h - done.length) model.zero)) x y = true := by
    simp only [Image.inRect, Bool.and_eq_true, decide_eq_true_eq]
    omega
  have hoff : Image.pixOffset (Image.mk model 0 0 w h
      (done ++ List.replicate (w * h - done.length) model.zero)) x y = done.length := by
    simp only [Image.pixOffset, sub_zero, Int.toNat_ofNat]
    omega
  unfold Image.Set
  rw [if_pos hin, hoff, hc]
  have hrep : w * h - done.length = (w * h - (done ++ [c]).length) + 1 := by
    simp only [List.length_append, List.length_singleton]
    omega
  simp only [hrep, List.replicate_succ, set_length_append, List.append_assoc,
    List.singleton_append]

/-! ## Making the image -/

theorem flatten_one (s : List Nat) : [s].flatten = s := by
  simp

theorem mul3NonNeg_small (b w h : Nat) (hb : b * w * h < 2 ^ 63) (hw : b * w < 2 ^ 64) :
    mul3NonNeg b w h = some (b * w * h) := by
  unfold mul3NonNeg
  rw [if_neg (by omega), if_neg (by omega), if_neg (by omega)]

/-- Go's `image.New...` returns the blank image when the pixel buffer has at
most `maxAlloc` bytes. -/
theorem Image.new_ok (model : ColorModel) (w h : Nat)
    (hb : model.bytesPerPixel * w * h ≤ maxAlloc) (hw : w < 4294967296) :
    Image.new model w h = .ok (Image.blank model w h) := by
  have hbpp : model.bytesPerPixel ≤ 4 := by cases model <;> decide
  have h1 : model.bytesPerPixel * w < 2 ^ 64 := by
    calc model.bytesPerPixel * w ≤ 4 * w := Nat.mul_le_mul_right _ hbpp
      _ < 2 ^ 64 := by omega
  have h2 : model.bytesPerPixel * w * h < 2 ^ 63 := by
    have : maxAlloc < 2 ^ 63 := by decide
    omega
  unfold Image.new pixelBufferLength
  rw [mul3NonNeg_small _ _ _ h2 h1]
  simp only [make]
  rw [if_neg (by omega)]

/-- Go's `image.New...` returns nothing but the blank image, and only when the
pixel buffer has at most `maxAlloc` bytes. -/
theorem Image.new_eq_ok (model : ColorModel) (w h : Nat) (img : Image)
    (hn : Image.new model w h = .ok img) :
    img = Image.blank model w h ∧ model.bytesPerPixel * w * h ≤ maxAlloc := by
  unfold Image.new pixelBufferLength mul3NonNeg at hn
  split_ifs at hn with h1 h2 h3
  · simp only [make] at hn
    split_ifs at hn with h4
    simp only [Except.ok.injEq] at hn
    exact ⟨hn.symm, by omega⟩

/-- The panics of Go's `image.New...`. -/
theorem Image.new_error (model : ColorModel) (w h : Nat) (e : Err) (hw : w < 4294967296)
    (hn : Image.new model w h = .error e) :
    (e = .hugeRect ∨ e = .makeslice) ∧ maxAlloc < model.bytesPerPixel * w * h := by
  have hm : maxAlloc < 2 ^ 63 := by decide
  have hbpp : model.bytesPerPixel ≤ 4 := by cases model <;> decide
  have hlt : model.bytesPerPixel * w < 2 ^ 64 := by
    calc model.bytesPerPixel * w ≤ 4 * w := Nat.mul_le_mul_right _ hbpp
      _ < 2 ^ 64 := by omega
  unfold Image.new pixelBufferLength mul3NonNeg at hn
  split_ifs at hn with h1 h2 h3
  · omega
  · simp only [Except.error.injEq] at hn
    exact ⟨Or.inl hn.symm, by omega⟩
  · simp only [Except.error.injEq] at hn
    exact ⟨Or.inl hn.symm, by omega⟩
  · simp only [make] at hn
    split_ifs at hn with h4
    simp only [Except.error.injEq] at hn
    exact ⟨Or.inr hn.symm, by omega⟩

/-! ## Decoding a `P1` stream -/

/-- The colour `decodeP1` gives to a pixel token. -/
theorem p1_value (b : Bool) :
    (((if b then 1 else 0 : Nat) % 256) * 0xff % 256) = (if b then 0xff else 0x00) := by
  cases b <;> rfl

theorem decodeP1_p1Pixels (w h : Nat) (l : List (Bool × List Nat)) (hl : l.length = w * h)
    (hsep : ∀ p ∈ l, isSep p.2 = true) (lead : List Nat) (hlead : isSep lead = true) :
    decodeP1 (lead ++ p1Pixels l) (Image.blank .alpha w h) w h =
      (Image.mk .alpha 0 0 w h (l.map (fun p => Color.alpha (if p.1 then 0xff else 0x00))),
        none) := by
  let col : Bool × List Nat → Color := fun p => Color.alpha (if p.1 then 0xff else 0x00)
  let I : Nat → List Nat × Image → Prop := fun k st =>
    (∃ ld, isSep ld = true ∧ st.1 = ld ++ p1Pixels (l.drop k)) ∧
    st.2 = Image.mk .alpha 0 0 w h (((l.take k).map col) ++
      List.replicate (w * h - ((l.take k).map col).length) ColorModel.alpha.zero)
  have hrun := forLoop_rows (σ := List Nat × Image) decodeP1Pixel w h I (by
    intro y x st hy hx hI
    obtain ⟨⟨ld, hld, hr⟩, himg⟩ := hI
    have hk : y * w + x < l.length := by
      rw [hl]
      calc y * w + x < y * w + w := by omega
        _ = (y + 1) * w := by rw [Nat.succ_mul]
        _ ≤ h * w := Nat.mul_le_mul_right _ hy
        _ = w * h := Nat.mul_comm _ _
    have hp := hsep _ (List.getElem_mem hk)
    have hread : readU st.1 = .ok ((if (l[y * w + x]).1 then 1 else 0),
        trimSep (l[y * w + x]).2 ++ p1Pixels (l.drop (y * w + x + 1))) := by
      rw [hr, List.drop_eq_getElem_cons hk, p1Pixels]
      exact readU_decimal ld _ _ _ (isSep_isGap hld) (by split <;> omega) hp
    have hlen : ((l.take (y * w + x)).map col).length = y * w + x := by
      rw [List.length_map, List.length_take]
      omega
    refine ⟨(trimSep (l[y * w + x]).2 ++ p1Pixels (l.drop (y * w + x + 1)),
      st.2.Set x y (col l[y * w + x])), ?_, ⟨_, isSep_trimSep hp, rfl⟩, ?_⟩
    · simp only [decodeP1Pixel, hread, p1_value]
    · show st.2.Set x y (col l[y * w + x]) = _
      have hdone : (l.take (y * w + x + 1)).map col =
          (l.take (y * w + x)).map col ++ [col l[y * w + x]] := by
        rw [← List.take_concat_get l _ hk, List.concat_eq_append, List.map_append]
        rfl
      rw [himg, Image.Set_next .alpha w h _ (col l[y * w + x]) x y hx hy hlen rfl, hdone])
    (lead ++ p1Pixels l, Image.blank .alpha w h)
    ⟨⟨lead, hlead, by simp⟩, by simp [Image.blank]⟩
  obtain ⟨s1, hloop, ⟨_, himg⟩⟩ := hrun
  unfold decodeP1
  simp only [hloop, himg]
  have hfull : l.take (h * w) = l := List.take_of_length_le (by rw [hl, Nat.mul_comm])
  rw [hfull]
  simp [col, hl]

theorem Decode_p1Stream_general (w h : Nat) (g0 g1 g2 : List Nat) (l : List (Bool × List Nat))
    (hw : w < 4294967296) (hh : h < 4294967296)
    (h0 : isSep g0 = true) (h1 : isSep g1 = true) (h2 : isSep g2 = true)
    (hsep : ∀ p ∈ l, isSep p.2 = true) (hl : l.length = w * h) (hb : w * h ≤ maxAlloc)
    (fills : List (List Nat)) (hf : fills.flatten = p1Stream w h g0 g1 g2 l) :
    Decode fills =
      (some (Image.mk .alpha 0 0 w h
        (l.map (fun p => Color.alpha (if p.1 then 0xff else 0x00)))), none) := by
  unfold Decode
  rw [hf]
  unfold p1Stream readS
  have hP1 : isTok [0x50, 0x31] = true := by decide
  have hr0 := read_tok [] [0x50, 0x31] g0
    (decimal w ++ (g1 ++ (decimal h ++ (g2 ++ p1Pixels l)))) rfl hP1 (by simp) h0
  rw [List.nil_append] at hr0
  rw [hr0]
  simp only []
  rw [readU_decimal _ g1 _ w (isSep_isGap (isSep_trimSep h0)) hw h1]
  simp only []
  rw [readU_decimal _ g2 _ h (isSep_isGap (isSep_trimSep h1)) hh h2]
  simp only [if_true]
  rw [Image.new_ok .alpha w h (by simpa [ColorModel.bytesPerPixel] using hb) hw]
  simp only []
  rw [decodeP1_p1Pixels w h l hl hsep _ (isSep_trimSep h2)]

theorem Image.At_row_major (model : ColorModel) (w h : Nat) (pix : List Color) (x y : Nat)
    (hx : x < w) (hy : y < h) :
    (Image.mk model 0 0 w h pix).At x y = pix.getD (y * w + x) model.zero := by
  have hin : Image.inRect (Image.mk model 0 0 w h pix) x y = true := by
    simp only [Image.inRect, Bool.and_eq_true, decide_eq_true_eq]
    omega
  have hoff : Image.pixOffset (Image.mk model 0 0 w h pix) x y = y * w + x := by
    simp only [Image.pixOffset, sub_zero, Int.toNat_ofNat]
  unfold Image.At
  rw [if_pos hin, hoff]

/-- A `P1` header whose width token is `4294967296` makes `Decode` fail,
whatever follows. -/
theorem Decode_width_range (rest : List Nat) (fills : List (List Nat))
    (hf : fills.flatten =
      [0x50, 0x31] ++ ([0x0a] ++ (decimal 4294967296 ++ ([0x20] ++ rest)))) :
    Decode fills = (none, some .number) := by
  unfold Decode
  rw [hf]
  unfold readS
  have hP1 : isTok [0x50, 0x31] = true := by decide
  have hr0 := read_tok [] [0x50, 0x31] [0x0a]
    (decimal 4294967296 ++ ([0x20] ++ rest)) rfl hP1 (by simp) (by decide)
  rw [List.nil_append] at hr0
  rw [hr0]
  simp only []
  unfold readU readS
  rw [read_tok _ (decimal 4294967296) [0x20] _ (by decide) (isTok_decimal _)
    (decimal_ne_nil _) (by decide)]
  have hp : parseUint (decimal 4294967296) = .error .number := by decide!
  simp only [hp]

/-! ## The recursion bound of `read` is never reached -/

theorem space_ok {r r1 : List Nat} (h : space r = .ok r1) :
    r1.length ≤ r.length ∧ ∃ b t, r1 = b :: t ∧ isSpace b = false := by
  induction r with
  | nil => simp [space] at h
  | cons b r ih =>
    by_cases hb : isSpace b = true
    · rw [space_of_isSpace r hb] at h
      obtain ⟨h1, h2⟩ := ih h
      exact ⟨by simp only [List.length_cons]; omega, h2⟩
    · simp only [Bool.not_eq_true] at hb
      rw [space_of_not_isSpace r hb] at h
      cases h
      exact ⟨le_refl _, b, r, rfl, hb⟩

theorem space_error {r : List Nat} {e : Err} (h : space r = .error e) : e = .eof := by
  induction r with
  | nil => simp only [space] at h; cases h; rfl
  | cons b r ih =>
    by_cases hb : isSpace b = true
    · rw [space_of_isSpace r hb] at h; exact ih h
    · simp only [Bool.not_eq_true] at hb
      rw [space_of_not_isSpace r hb] at h
      cases h

theorem readLoop_ok {r : List Nat} :
    ∀ {c : Bool} {buf buf1 r2 : List Nat}, readLoop c buf r = .ok (buf1, r2) →
      r2.length ≤ r.length ∧ buf.length ≤ buf1.length := by
  induction r with
  | nil => intro c buf buf1 r2 h; simp [readLoop] at h
  | cons b r ih =>
    intro c buf buf1 r2 h
    rw [readLoop] at h
    split at h
    · have := ih h
      exact ⟨by simp only [List.length_cons]; omega, this.2⟩
    · split at h
      · cases h
        exact ⟨le_refl _, le_refl _⟩
      · split at h
        · have := ih h
          simp only [List.length_append, List.length_singleton] at this
          exact ⟨by simp only [List.length_cons]; omega, by omega⟩
        · have := ih h
          exact ⟨by simp only [List.length_cons]; omega, this.2⟩

theorem readLoop_error {r : List Nat} :
    ∀ {c : Bool} {buf : List Nat} {e : Err}, readLoop c buf r = .error e → e = .eof := by
  induction r with
  | nil => intro c buf e h; simp only [readLoop] at h; cases h; rfl
  | cons b r ih =>
    intro c buf e h
    rw [readLoop] at h
    split at h
    · exact ih h
    · split at h
      · cases h
      · split at h
        · exact ih h
        · exact ih h

theorem readN_ne_fuel (n : Nat) : ∀ r : List Nat, r.length < n → readN n r ≠ .error .fuel := by
  induction n with
  | zero => intro r h; omega
  | succ n ih =>
    intro r hn
    rw [readN]
    cases hs : space r with
    | error e => rw [space_error hs]; simp
    | ok r1 =>
      obtain ⟨hlen, b, t, hr1, hb⟩ := space_ok hs
      simp only []
      cases hl : readLoop false [] r1 with
      | error e => rw [readLoop_error hl]; simp
      | ok v =>
        obtain ⟨buf, r2⟩ := v
        simp only []
        split
        · rename_i hbuf
          apply ih
          subst hr1
          rw [readLoop] at hl
          by_cases h23 : b = 0x23
          · rw [if_pos h23] at hl
            have := (readLoop_ok hl).1
            simp only [List.length_cons] at hlen
            omega
          · rw [if_neg h23] at hl
            simp only [Bool.false_and, Bool.not_false, Bool.true_and, Bool.false_or, hb,
              Bool.false_eq_true, if_false, if_true] at hl
            have := (readLoop_ok hl).2
            simp only [List.nil_append, List.length_singleton] at this
            omega
        · simp

/-- The token reader never runs out of its recursion bound: an error of `read`
is an error of the Go function. -/
theorem read_ne_fuel (r : List Nat) : read r ≠ .error .fuel :=
  readN_ne_fuel _ r (by omega)

theorem parseUint_ne_fuel (s : List Nat) : parseUint s ≠ .error .fuel := by
  have hloop : ∀ (l : List Nat) (n : Nat), parseUintLoop l n ≠ .error .fuel := by
    intro l
    induction l with
    | nil => intro n; simp [parseUintLoop]
    | cons c l ih =>
      intro n
      rw [parseUintLoop]
      split
      · split
        · simp
        · exact ih _
      · simp
  unfold parseUint
  split
  · simp
  · exact hloop s 0

theorem readU_ne_fuel (r : List Nat) : readU r ≠ .error .fuel := by
  unfold readU readS
  cases h : read r with
  | error e =>
    intro he
    simp only [Except.error.injEq] at he
    rw [he] at h
    exact read_ne_fuel r h
  | ok v =>
    obtain ⟨s, r1⟩ := v
    simp only []
    cases hp : parseUint s with
    | error e =>
      intro he
      simp only [Except.error.injEq] at he
      rw [he] at hp
      exact parseUint_ne_fuel s hp
    | ok n => simp

/-! ## Encoding and decoding a `P3` stream -/

theorem join_p3Cols (m : Image) (y n : Nat) :
    ∀ s x tail, s :: (join [0x20] ((List.range' x (n + 1)).map (encodeP3Pixel m y)) ++ tail) =
      p3Cols m y s x (n + 1) tail := by
  induction n with
  | zero => intro s x tail; simp [join, p3Cols]
  | succ n ih =>
    intro s x tail
    rw [p3Cols, ← ih 0x20 (x + 1) tail]
    simp only [List.range'_succ, List.map_cons, join, List.append_assoc, List.singleton_append,
      List.cons_append, List.nil_append]

theorem flatten_p3Rows (m : Image) (hw : 0 < m.width) (n : Nat) :
    ∀ y, 0x0a :: ((List.range' y n).map (fun y =>
        join [0x20] ((List.range m.width).map (encodeP3Pixel m y)) ++ [0x0a])).flatten =
      p3Rows m y n := by
  obtain ⟨w, hw⟩ : ∃ w, m.width = w + 1 := ⟨m.width - 1, by omega⟩
  induction n with
  | zero => intro y; simp [p3Rows]
  | succ n ih =>
    intro y
    rw [p3Rows, ← ih (y + 1), List.range'_succ, List.map_cons, List.flatten_cons,
      List.range_eq_range', hw, ← join_p3Cols m y w 0x0a 0]
    simp only [List.append_assoc, List.singleton_append]

theorem encodeP3_eq (m : Image) (hw : 0 < m.width) :
    encodeP3 m = [0x50, 0x33] ++ ([0x0a] ++ (decimal m.width ++ ([0x20] ++
      (decimal m.height ++ ([0x0a] ++ (decimal 255 ++ p3Rows m 0 m.height)))))) := by
  have hd : decimal 255 = [0x32, 0x35, 0x35] := by decide
  rw [← flatten_p3Rows m hw m.height 0, hd, ← List.range_eq_range']
  simp [encodeP3]

/-- The two nested loops over the rows and the columns of an image, with an
invariant at the start of a row and one in front of a pixel. -/
theorem forLoop_rows_cols {σ : Type} (body : Nat → Nat → σ → σ × Option Err) (w h : Nat)
    (Irow : Nat → σ → Prop) (Icol : Nat → Nat → σ → Prop)
    (henter : ∀ y s, y < h → Irow y s → Icol y 0 s)
    (hstep : ∀ y x s, y < h → x < w → Icol y x s →
      ∃ s1, body y x s = (s1, none) ∧ Icol y (x + 1) s1)
    (hexit : ∀ y s, y < h → Icol y w s → Irow (y + 1) s) :
    ∀ s, Irow 0 s →
      ∃ s1, forLoop (fun y st => forLoop (body y) 0 w st) 0 h s = (s1, none) ∧ Irow h s1 := by
  intro s h0
  refine forLoop_hoare (fun y st => forLoop (body y) 0 w st) h Irow 0 ?_ s h0
  intro y s hy hI
  obtain ⟨s1, hl, h1⟩ := forLoop_hoare (body (0 + y)) w (fun x s => Icol y x s) 0 (by
    intro x s hx hI
    have := hstep y x s hy hx hI
    simpa using this) s (henter y s hy hI)
  exact ⟨s1, hl, hexit y s1 hy h1⟩

theorem readU_byte (s s1 n : Nat) (rest : List Nat) (hs : isSpace s = true)
    (hs1 : isSpace s1 = true) (hn : n < 4294967296) :
    readU (s :: (decimal n ++ s1 :: rest)) = .ok (n, s1 :: rest) := by
  have := readU_decimal [s] [s1] rest n (isSep_isGap (isSep_single hs)) hn (isSep_single hs1)
  rw [trimSep_single hs1] at this
  simpa using this

theorem p3Cols_head (m : Image) (y : Nat) (n : Nat) (s x : Nat) (t : List Nat)
    (hs : isSpace s = true) :
    ∃ s1 r, isSpace s1 = true ∧ p3Cols m y s x n (0x0a :: t) = s1 :: r := by
  cases n with
  | zero => exact ⟨0x0a, t, by decide, rfl⟩
  | succ n => exact ⟨s, _, hs, rfl⟩

theorem p3Rows_head (m : Image) (hw : 0 < m.width) (n : Nat) :
    ∀ y, ∃ t, p3Rows m y n = 0x0a :: t := by
  obtain ⟨w, hw⟩ : ∃ w, m.width = w + 1 := ⟨m.width - 1, by omega⟩
  cases n with
  | zero => intro y; exact ⟨[], rfl⟩
  | succ n =>
    intro y
    rw [p3Rows, hw, p3Cols]
    exact ⟨_, rfl⟩

theorem byte_of_RGBA (v : Nat) (hv : v < 256) : v * 0x101 % 256 = v := by omega

theorem sampleU_255 (v : Nat) (hv : v < 256) : sampleU 255 (255 / 255) v = v := by
  rw [sampleU_eq]
  have : v &&& 255 = v := Nat.and_pow_two_sub_one_of_lt_two_pow (n := 8) (by omega)
  rw [this]
  omega

/-- The inner loop body of `decodeP3` on the entry `encodeP3` wrote for the pixel. -/
theorem decodeP3Pixel_encodeP3Pixel (m img : Image) (x y R G B s s1 : Nat) (rest : List Nat)
    (hc : m.At x y = .rgba R G B 0xff) (hR : R < 256) (hG : G < 256) (hB : B < 256)
    (hs : isSpace s = true) (hs1 : isSpace s1 = true) :
    decodeP3Pixel 255 (255 / 255) y x (s :: (encodeP3Pixel m y x ++ s1 :: rest), img) =
      ((s1 :: rest, img.Set x y (.rgba R G B 0xff)), none) := by
  have h32 : isSpace 0x20 = true := by decide
  unfold decodeP3Pixel encodeP3Pixel
  simp only [hc, Color.RGBA, byte_of_RGBA R hR, byte_of_RGBA G hG, byte_of_RGBA B hB,
    List.append_assoc, List.singleton_append, List.cons_append, List.nil_append]
  rw [readU_byte s 0x20 R _ hs h32 (by omega)]
  simp only []
  rw [readU_byte 0x20 0x20 G _ h32 h32 (by omega)]
  simp only []
  rw [readU_byte 0x20 s1 B _ h32 hs1 (by omega)]
  simp only [sampleU_255 R hR, sampleU_255 G hG, sampleU_255 B hB]

theorem decodeP3_p3Rows (w h : Nat) (pix : List Color) (hw : 0 < w)
    (hlen : pix.length = w * h)
    (hpix : ∀ c ∈ pix, ∃ r g b, c = .rgba r g b 0xff ∧ r < 256 ∧ g < 256 ∧ b < 256) :
    decodeP3 ([0x0a] ++ (decimal 255 ++ p3Rows (Image.mk .rgba 0 0 w h pix) 0 h))
        (Image.blank .rgba w h) w h =
      (Image.mk .rgba 0 0 w h pix, none) := by
  let m : Image := Image.mk .rgba 0 0 w h pix
  have hmw : 0 < m.width := hw
  let imgAt : Nat → Image := fun k => Image.mk .rgba 0 0 w h
    ((pix.take k) ++ List.replicate (w * h - (pix.take k).length) ColorModel.rgba.zero)
  let Irow : Nat → List Nat × Image → Prop := fun y st =>
    st.1 = p3Rows m y (h - y) ∧ st.2 = imgAt (y * w)
  let Icol : Nat → Nat → List Nat × Image → Prop := fun y x st =>
    (∃ s, isSpace s = true ∧ st.1 = p3Cols m y s x (w - x) (p3Rows m (y + 1) (h - (y + 1)))) ∧
      st.2 = imgAt (y * w + x)
  have hrun := forLoop_rows_cols (decodeP3Pixel 255 (255 / 255)) w h Irow Icol
    (by
      intro y st hy hI
      refine ⟨⟨0x0a, by decide, ?_⟩, by simpa using hI.2⟩
      rw [hI.1, show h - y = (h - (y + 1)) + 1 by omega, p3Rows]
      rfl)
    (by
      intro y x st hy hx hI
      obtain ⟨⟨s, hs, hr⟩, himg⟩ := hI
      have hk : y * w + x < pix.length := by
        rw [hlen]
        calc y * w + x < y * w + w := by omega
          _ = (y + 1) * w := by rw [Nat.succ_mul]
          _ ≤ h * w := Nat.mul_le_mul_right _ hy
          _ = w * h := Nat.mul_comm _ _
      obtain ⟨R, G, B, hc, hR, hG, hB⟩ := hpix _ (List.getElem_mem hk)
      have hat : m.At x y = .rgba R G B 0xff := by
        rw [Image.At_row_major _ w h _ x y hx hy, List.getD_eq_getElem?_getD,
          List.getElem?_eq_getElem hk, hc]
        rfl
      obtain ⟨t, ht⟩ := p3Rows_head m hmw (h - (y + 1)) (y + 1)
      obtain ⟨s1, r1, hs1, hnext⟩ := p3Cols_head m y (w - (x + 1)) 0x20 (x + 1) t (by decide)
      have hst : st = (s :: (encodeP3Pixel m y x ++ s1 :: r1), imgAt (y * w + x)) := by
        rw [← hnext, ← ht, ← himg]
        have : st.1 = s :: (encodeP3Pixel m y x ++
            p3Cols m y 0x20 (x + 1) (w - (x + 1)) (p3Rows m (y + 1) (h - (y + 1)))) := by
          rw [hr, show w - x = (w - (x + 1)) + 1 by omega, p3Cols]
        rw [← this]
      refine ⟨(s1 :: r1, (imgAt (y * w + x)).Set x y (.rgba R G B 0xff)), ?_,
        ⟨0x20, by decide, ?_⟩, ?_⟩
      · rw [hst]
        exact decodeP3Pixel_encodeP3Pixel m _ x y R G B s s1 r1 hat hR hG hB hs hs1
      · show s1 :: r1 = _
        rw [← hnext, ht]
      · show (imgAt (y * w + x)).Set x y (.rgba R G B 0xff) = imgAt (y * w + x + 1)
        have hl : (pix.take (y * w + x)).length = y * w + x := by
          rw [List.length_take]; omega
        have hdone : pix.take (y * w + x + 1) = pix.take (y * w + x) ++ [.rgba R G B 0xff] := by
          rw [← List.take_concat_get pix _ hk, List.concat_eq_append, hc]
        show Image.Set (Image.mk .rgba 0 0 w h _) x y _ = Image.mk .rgba 0 0 w h _
        rw [Image.Set_next .rgba w h _ (.rgba R G B 0xff) x y hx hy hl rfl, hdone])
    (by
      intro y st hy hI
      obtain ⟨⟨s, _, hr⟩, himg⟩ := hI
      refine ⟨?_, ?_⟩
      · rw [hr, Nat.sub_self, p3Cols]
      · rw [himg, Nat.succ_mul])
    (p3Rows m 0 h, Image.blank .rgba w h) ⟨by simp, by simp [imgAt, Image.blank]⟩
  obtain ⟨s1, hloop, ⟨_, himg⟩⟩ := hrun
  obtain ⟨t, ht⟩ := p3Rows_head m hmw h 0
  have hread : readU ([0x0a] ++ (decimal 255 ++ p3Rows m 0 h)) = .ok (255, p3Rows m 0 h) := by
    rw [ht]
    exact readU_byte 0x0a 0x0a 255 t (by decide) (by decide) (by omega)
  unfold decodeP3
  rw [hread]
  simp only [show (255 : Nat) ≠ 0 by omega, if_false, hloop, himg]
  have hfull : pix.take (h * w) = pix := List.take_of_length_le (by rw [hlen, Nat.mul_comm])
  simp [imgAt, hfull, hlen, Nat.mul_comm h w]

theorem Encode_PixmapAscii (m : Image) : Encode m PixmapAscii = (encodeP3 m, none) := by
  unfold Encode
  rw [if_neg (by decide), if_neg (by decide), if_pos rfl]

theorem Decode_encodeP3 (w h : Nat) (pix : List Color) (hw0 : 0 < w) (hw : w < 4294967296)
    (hh : h < 4294967296) (hlen : pix.length = w * h)
    (hpix : ∀ c ∈ pix, ∃ r g b, c = .rgba r g b 0xff ∧ r < 256 ∧ g < 256 ∧ b < 256)
    (hb : 4 * w * h ≤ maxAlloc) (fills : List (List Nat))
    (hf : fills.flatten = encodeP3 (Image.mk .rgba 0 0 w h pix)) :
    Decode fills = (some (Image.mk .rgba 0 0 w h pix), none) := by
  rw [encodeP3_eq _ hw0] at hf
  unfold Decode
  rw [hf]
  unfold readS
  have hP3 : isTok [0x50, 0x33] = true := by decide
  have h10 : isSep [0x0a] = true := by decide
  have h32 : isSep [0x20] = true := by decide
  have hr0 := read_tok [] [0x50, 0x33] [0x0a]
    (decimal w ++ ([0x20] ++ (decimal h ++ ([0x0a] ++
      (decimal 255 ++ p3Rows (Image.mk .rgba 0 0 w h pix) 0 h))))) rfl hP3 (by simp) h10
  rw [List.nil_append] at hr0
  rw [hr0]
  simp only []
  rw [readU_decimal _ [0x20] _ w (by decide) hw h32]
  simp only []
  rw [readU_decimal _ [0x0a] _ h (by decide) hh h10]
  have ht : trimSep [0x0a] = [0x0a] := by decide
  simp only []
  rw [if_neg (by decide), if_neg (by decide), if_pos trivial, Image.new_ok .rgba w h hb hw]
  simp only [ht, decodeP3_p3Rows w h pix hw0 hlen hpix]

/-- A `P3` header whose height token is `4294967296` makes `Decode` fail,
whatever follows. -/
theorem Decode_height_range (rest : List Nat) (fills : List (List Nat))
    (hf : fills.flatten = [0x50, 0x33] ++ ([0x0a] ++ (decimal 1 ++ ([0x20] ++
      (decimal 4294967296 ++ ([0x0a] ++ rest)))))) :
    Decode fills = (none, some .number) := by
  unfold Decode
  rw [hf]
  unfold readS
  have hP3 : isTok [0x50, 0x33] = true := by decide
  have hr0 := read_tok [] [0x50, 0x33] [0x0a]
    (decimal 1 ++ ([0x20] ++ (decimal 4294967296 ++ ([0x0a] ++ rest)))) rfl hP3 (by simp)
    (by decide)
  rw [List.nil_append] at hr0
  rw [hr0]
  simp only []
  rw [readU_decimal _ [0x20] _ 1 (by decide) (by omega) (by decide)]
  simp only []
  unfold readU readS
  rw [read_tok _ (decimal 4294967296) [0x0a] _ (by decide) (isTok_decimal _)
    (decimal_ne_nil _) (by decide)]
  have hp : parseUint (decimal 4294967296) = .error .number := by decide!
  simp only [hp]

/-! ## Token reader: the depth of the recursion, comments and the end of the input -/

/-- A recursive call of `read` is on a shorter input. -/
theorem readN_step_lt {r r1 buf r2 : List Nat} (hs : space r = .ok r1)
    (hl : readLoop false [] r1 = .ok (buf, r2)) (hbuf : buf.length = 0) :
    r2.length < r.length := by
  obtain ⟨hlen, b, t, hr1, hb⟩ := space_ok hs
  subst hr1
  rw [readLoop] at hl
  by_cases h23 : b = 0x23
  · rw [if_pos h23] at hl
    have := (readLoop_ok hl).1
    simp only [List.length_cons] at hlen
    omega
  · rw [if_neg h23] at hl
    simp only [Bool.false_and, Bool.not_false, Bool.true_and, Bool.false_or, hb,
      Bool.false_eq_true, if_false, if_true] at hl
    have := (readLoop_ok hl).2
    simp only [List.nil_append, List.length_singleton] at this
    omega

/-- Any recursion bound above the length of the input gives the same result. -/
theorem readN_bound (k : Nat) :
    ∀ (k1 : Nat) (r : List Nat), r.length < k → r.length < k1 → readN k r = readN k1 r := by
  induction k with
  | zero => intro k1 r h; omega
  | succ k ih =>
    intro k1 r hk hk1
    obtain ⟨k1, rfl⟩ : ∃ m, k1 = m + 1 := ⟨k1 - 1, by omega⟩
    rw [readN, readN]
    cases hs : space r with
    | error e => rfl
    | ok r1 =>
      simp only []
      cases hl : readLoop false [] r1 with
      | error e => rfl
      | ok v =>
        obtain ⟨buf, r2⟩ := v
        simp only []
        by_cases hbuf : buf.length = 0
        · rw [if_pos hbuf, if_pos hbuf]
          have := readN_step_lt hs hl hbuf
          exact ih k1 r2 (by omega) (by omega)
        · rw [if_neg hbuf, if_neg hbuf]

theorem read_eq_readN (r : List Nat) (k : Nat) (hk : r.length < k) : read r = readN k r :=
  readN_bound _ k r (by omega) hk

theorem isGapFrom_comment (c : List Nat) (n : Nat) (hc : ∀ b ∈ c, isNewline b = false)
    (hn : isNewline n = true) :
    isGapFrom true (c ++ [n]) = true ∧ dropComment (c ++ [n]) = [n] := by
  induction c with
  | nil => simp [isGapFrom, dropComment, hn]
  | cons b c ih =>
    have hb := hc b (by simp)
    have := ih (fun x hx => hc x (by simp [hx]))
    simp [isGapFrom, dropComment, hb, this]

theorem isSep_comment (c : List Nat) (n : Nat) (hc : ∀ b ∈ c, isNewline b = false)
    (hn : isNewline n = true) :
    isSep (0x23 :: (c ++ [n])) = true ∧ trimSep (0x23 :: (c ++ [n])) = [n] := by
  obtain ⟨h1, h2⟩ := isGapFrom_comment c n hc hn
  simp [isSep, isGapFrom, trimSep, h1, h2]

theorem isGapFrom_of_all_isSpace (ws : List Nat) (h : ws.all isSpace = true) :
    isGapFrom false ws = true := by
  induction ws with
  | nil => rfl
  | cons b ws ih =>
    simp only [List.all_cons, Bool.and_eq_true] at h
    have hb : b ≠ 0x23 := by
      intro e; rw [e] at h; exact absurd h.1 (by decide)
    simp [isGapFrom, hb, h.1, ih h.2]

/-- The bytes `read` collects are token bytes. -/
theorem readLoop_isTok {r : List Nat} :
    ∀ {c : Bool} {buf buf1 r2 : List Nat}, readLoop c buf r = .ok (buf1, r2) →
      isTok buf = true → isTok buf1 = true := by
  induction r with
  | nil => intro c buf buf1 r2 h; simp [readLoop] at h
  | cons b r ih =>
    intro c buf buf1 r2 h hbuf
    rw [readLoop] at h
    split at h
    · exact ih h hbuf
    · rename_i h23
      split at h
      · cases h
        exact hbuf
      · rename_i hstop
        split at h
        · rename_i hc
          refine ih h (isTok_append hbuf ?_)
          simp only [Bool.not_eq_true', Bool.not_eq_eq_eq_not, Bool.not_true] at hc
          subst hc
          have hsp : isSpace b = false := by simpa using hstop
          simp [isTok, isTokByte, hsp, h23]
        · exact ih h hbuf

theorem readN_ok_isTok (n : Nat) :
    ∀ (r tok r2 : List Nat), readN n r = .ok (tok, r2) → tok ≠ [] ∧ isTok tok = true := by
  induction n with
  | zero => intro r tok r2 h; simp [readN] at h
  | succ n ih =>
    intro r tok r2 h
    rw [readN] at h
    cases hs : space r with
    | error e => rw [hs] at h; simp at h
    | ok r1 =>
      rw [hs] at h
      simp only [] at h
      cases hl : readLoop false [] r1 with
      | error e => rw [hl] at h; simp at h
      | ok v =>
        obtain ⟨buf, r3⟩ := v
        rw [hl] at h
        simp only [] at h
        by_cases hbuf : buf.length = 0
        · rw [if_pos hbuf] at h
          exact ih _ _ _ h
        · rw [if_neg hbuf] at h
          simp only [Except.ok.injEq, Prod.mk.injEq] at h
          obtain ⟨h1, _⟩ := h
          subst h1
          refine ⟨?_, readLoop_isTok hl rfl⟩
          intro he
          rw [he] at hbuf
          exact hbuf rfl

/-- Inside a comment of a stream without a token the loop reaches the end of
the input, or the end of the line with the rest of the stream. -/
theorem readLoop_blank_comment (c : List Nat) :
    ∀ buf, isBlankFrom true c = true →
      readLoop true buf c = .error .eof ∨
      ∃ c1, readLoop true buf c = .ok (buf, c1) ∧ isBlankFrom false c1 = true ∧
        c1.length ≤ c.length := by
  induction c with
  | nil => intro buf _; left; rfl
  | cons b c ih =>
    intro buf hc
    by_cases hn : isNewline b = true
    · right
      have hb : b ≠ 0x23 := by
        intro hb; rw [hb] at hn; exact absurd hn (by decide)
      refine ⟨b :: c, by simp [readLoop, hb, hn], ?_, le_refl _⟩
      simp only [isBlankFrom, hn, if_true] at hc
      simp [isBlankFrom, hb, isNewline_isSpace hn, hc]
    · simp only [Bool.not_eq_true] at hn
      simp only [isBlankFrom, hn, Bool.false_eq_true, if_false] at hc
      have hstep : readLoop true buf (b :: c) = readLoop true buf c := by
        by_cases hb : b = 0x23
        · simp [readLoop, hb]
        · simp [readLoop, hb, hn]
      rw [hstep]
      rcases ih buf hc with h | ⟨c1, h1, h2, h3⟩
      · exact Or.inl h
      · exact Or.inr ⟨c1, h1, h2, by simp only [List.length_cons]; omega⟩

/-- On a stream without a token `read` reports the end of the input. -/
theorem readN_blank (k : Nat) :
    ∀ (r : List Nat) (n : Nat), r.length ≤ k → isBlankFrom false r = true → r.length < n →
      readN n r = .error .eof := by
  induction k with
  | zero =>
    intro r n hk _ hn
    have hr : r = [] := List.length_eq_zero.1 (by omega)
    subst hr
    obtain ⟨n, rfl⟩ : ∃ m, n = m + 1 := ⟨n - 1, by simp at hn; omega⟩
    simp [readN, space]
  | succ k ih =>
    intro r n hk hr hn
    cases r with
    | nil => exact ih [] n (by simp) hr hn
    | cons b r =>
      simp only [List.length_cons] at hk hn
      by_cases hb : b = 0x23
      · subst hb
        have hc : isBlankFrom true r = true := by simpa [isBlankFrom] using hr
        obtain ⟨n, rfl⟩ : ∃ m, n = m + 1 := ⟨n - 1, by omega⟩
        have hl : readLoop false [] (0x23 :: r) = readLoop true [] r := by simp [readLoop]
        simp only [readN, space_of_not_isSpace _ isSpace_hash, hl]
        rcases readLoop_blank_comment r [] hc with h | ⟨c1, h1, h2, h3⟩
        · rw [h]
        · rw [h1]
          simp only [List.length_nil, if_true]
          exact ih c1 n (by omega) h2 (by omega)
      · have hs : isSpace b = true ∧ isBlankFrom false r = true := by
          simpa [isBlankFrom, hb] using hr
        rw [readN_of_isSpace _ _ hs.1]
        exact ih r n (by omega) hs.2 (by omega)

/-- A token that runs to the end of the input is not returned: the loop of
`read` reaches the end of the input. -/
theorem readLoop_tok_eof (t : List Nat) (ht : isTok t = true) :
    ∀ buf, readLoop false buf t = .error .eof := by
  induction t with
  | nil => intro buf; rfl
  | cons b t ih =>
    intro buf
    simp only [isTok, List.all_cons, Bool.and_eq_true] at ht
    have hb := isTokByte_iff.1 ht.1
    simp [readLoop, hb.1, hb.2, ih (by simpa [isTok] using ht.2)]

theorem readN_tok_eof (t : List Nat) (ht : isTok t = true) :
    ∀ k g, g.length ≤ k → isGapFrom false g = true → ∀ n, g.length < n →
      readN n (g ++ t) = .error .eof := by
  intro k
  induction k with
  | zero =>
    intro g hk _ n hn
    have hg0 : g = [] := List.length_eq_zero.1 (by omega)
    subst hg0
    obtain ⟨n, rfl⟩ : ∃ m, n = m + 1 := ⟨n - 1, by simp at hn; omega⟩
    cases t with
    | nil => simp [readN, space]
    | cons b t =>
      have hb : isSpace b = false := by
        simp only [isTok, List.all_cons, Bool.and_eq_true] at ht
        exact (isTokByte_iff.1 ht.1).1
      simp only [List.nil_append, readN, space_of_not_isSpace _ hb,
        readLoop_tok_eof (b :: t) ht []]
  | succ k ih =>
    intro g hk hg n hn
    cases g with
    | nil => exact ih [] (by simp) hg n hn
    | cons b g =>
      simp only [List.length_cons] at hk hn
      by_cases hb : b = 0x23
      · subst hb
        have hc : isGapFrom true g = true := by simpa [isGapFrom] using hg
        obtain ⟨h1, _, h3, h4⟩ := readLoop_comment g hc
        obtain ⟨n, rfl⟩ : ∃ m, n = m + 1 := ⟨n - 1, by omega⟩
        have hrec := ih (dropComment g) (by omega) h1 n (by omega)
        have hl : readLoop false [] (0x23 :: (g ++ t)) = .ok ([], dropComment g ++ t) := by
          simp [readLoop, h4]
        simp only [List.cons_append, readN, space_of_not_isSpace _ isSpace_hash, hl]
        simpa using hrec
      · have hs : isSpace b = true ∧ isGapFrom false g = true := by
          simpa [isGapFrom, hb] using hg
        simp only [List.cons_append]
        rw [readN_of_isSpace _ _ hs.1]
        exact ih g (by omega) hs.2 n (by omega)

theorem read_tok_eof (g t : List Nat) (hg : isGapFrom false g = true) (ht : isTok t = true) :
    read (g ++ t) = .error .eof := by
  unfold read
  exact readN_tok_eof t ht g.length g (le_refl _) hg _ (by simp; omega)

theorem readU_tok_eof (g t : List Nat) (hg : isGapFrom false g = true) (ht : isTok t = true) :
    readU (g ++ t) = .error .eof := by
  unfold readU readS
  rw [read_tok_eof g t hg ht]

/-! ## Loops that panic -/

/-- A loop whose body keeps an invariant for `k` rounds and panics in the next
round returns that panic. -/
theorem forLoop_fail {σ : Type} (body : Nat → σ → σ × Option Err) (e : Err) (k : Nat) :
    ∀ (n i : Nat) (I : Nat → σ → Prop), k < n →
      (∀ j s, j < k → I j s → ∃ s1, body (i + j) s = (s1, none) ∧ I (j + 1) s1) →
      (∀ s, I k s → ∃ s1, body (i + k) s = (s1, some e)) →
      ∀ s, I 0 s → ∃ s1, forLoop body i n s = (s1, some e) := by
  induction k with
  | zero =>
    intro n i I hn _ hfail s h0
    obtain ⟨n, rfl⟩ : ∃ m, n = m + 1 := ⟨n - 1, by omega⟩
    obtain ⟨s1, hb⟩ := hfail s h0
    simp only [Nat.add_zero] at hb
    exact ⟨s1, by rw [forLoop, hb]⟩
  | succ k ih =>
    intro n i I hn hstep hfail s h0
    obtain ⟨n, rfl⟩ : ∃ m, n = m + 1 := ⟨n - 1, by omega⟩
    obtain ⟨s1, hb, h1⟩ := hstep 0 s (by omega) h0
    simp only [Nat.add_zero] at hb
    obtain ⟨s2, hl⟩ := ih n (i + 1) (fun j s => I (j + 1) s) (by omega)
      (by
        intro j s hj hI
        have := hstep (j + 1) s (by omega) hI
        rwa [show i + (j + 1) = i + 1 + j by omega] at this)
      (by
        intro s hI
        have := hfail s hI
        rwa [show i + (k + 1) = i + 1 + k by omega] at this) s1 h1
    exact ⟨s2, by rw [forLoop, hb]; exact hl⟩

/-- The two nested loops over the rows and the columns of an image, when the
body keeps an invariant on the number of pixels done up to pixel `(x0, y0)`
and panics there. -/
theorem forLoop_rows_fail {σ : Type} (body : Nat → Nat → σ → σ × Option Err) (e : Err)
    (w h y0 x0 : Nat) (hy0 : y0 < h) (hx0 : x0 < w) (I : Nat → σ → Prop)
    (hstep : ∀ y x s, y < h → x < w → y * w + x < y0 * w + x0 → I (y * w + x) s →
      ∃ s1, body y x s = (s1, none) ∧ I (y * w + x + 1) s1)
    (hfail : ∀ s, I (y0 * w + x0) s → ∃ s1, body y0 x0 s = (s1, some e)) :
    ∀ s, I 0 s →
      ∃ s1, forLoop (fun y st => forLoop (body y) 0 w st) 0 h s = (s1, some e) := by
  intro s h0
  refine forLoop_fail (fun y st => forLoop (body y) 0 w st) e y0 h 0 (fun y s => I (y * w) s)
    hy0 ?_ ?_ s (by simpa using h0)
  · intro y s hy hI
    have hle : (y + 1) * w ≤ y0 * w := Nat.mul_le_mul_right w hy
    rw [Nat.succ_mul] at hle
    obtain ⟨s1, hl, h1⟩ := forLoop_hoare (body (0 + y)) w (fun x s => I (y * w + x) s) 0 (by
      intro x s hx hI
      have := hstep y x s (by omega) hx (by omega) hI
      simpa using this) s (by simpa using hI)
    refine ⟨s1, hl, ?_⟩
    show I ((y + 1) * w) s1
    rw [Nat.succ_mul]
    exact h1
  · intro s hI
    have := forLoop_fail (body (0 + y0)) e x0 w 0 (fun x s => I (y0 * w + x) s) hx0 (by
      intro x s hx hI
      have := hstep y0 x s hy0 (by omega) (by omega) hI
      simpa using this) (by
      intro s hI
      have := hfail s hI
      simpa using this) s (by simpa using hI)
    exact this

/-! ## Reading number tokens -/

theorem numToks_drop (l : List (Nat × List Nat)) (k : Nat) (hk : k < l.length) :
    numToks (l.drop k) = decimal l[k].1 ++ (l[k].2 ++ numToks (l.drop (k + 1))) := by
  rw [List.drop_eq_getElem_cons hk, numToks]

/-- The number token `k` of a run of number tokens is read by `readU`. -/
theorem readU_numToks (l : List (Nat × List Nat)) (tail ld : List Nat) (k : Nat)
    (hk : k < l.length) (hl : ∀ p ∈ l, p.1 < 4294967296 ∧ isSep p.2 = true)
    (hld : isSep ld = true) :
    readU (ld ++ (numToks (l.drop k) ++ tail)) =
      .ok (l[k].1, trimSep l[k].2 ++ (numToks (l.drop (k + 1)) ++ tail)) ∧
    isSep (trimSep l[k].2) = true := by
  have hp := hl _ (List.getElem_mem hk)
  refine ⟨?_, isSep_trimSep hp.2⟩
  rw [numToks_drop l k hk]
  have := readU_decimal ld l[k].2 (numToks (l.drop (k + 1)) ++ tail) l[k].1
    (isSep_isGap hld) hp.1 hp.2
  simpa [List.append_assoc] using this

/-- After the last separator only the last token is left, and `readU` reaches
the end of the input. -/
theorem readU_last (l : List (Nat × List Nat)) (ld : List Nat) (last k : Nat)
    (hk : l.length ≤ k) (hld : isSep ld = true) :
    readU (ld ++ (numToks (l.drop k) ++ decimal last)) = .error .eof := by
  rw [List.drop_of_length_le hk]
  exact readU_tok_eof ld (decimal last) (isSep_isGap hld) (isTok_decimal last)

/-! ## ASCII streams that end right after the last sample -/

theorem last_pixel (w h n : Nat) (hw : 0 < w) (hh : 0 < h) (hn : n + 1 = w * h) :
    (h - 1) * w + (w - 1) = n := by
  obtain ⟨w, rfl⟩ : ∃ m, w = m + 1 := ⟨w - 1, by omega⟩
  obtain ⟨h, rfl⟩ : ∃ m, h = m + 1 := ⟨h - 1, by omega⟩
  have : (w + 1) * (h + 1) = h * (w + 1) + w + 1 := by ring
  simp only [Nat.add_sub_cancel]
  omega

theorem decodeP1_eof (w h : Nat) (hw : 0 < w) (hh : 0 < h) (l : List (Nat × List Nat))
    (hlen : l.length + 1 = w * h) (hl : ∀ p ∈ l, p.1 < 4294967296 ∧ isSep p.2 = true)
    (ld : List Nat) (hld : isSep ld = true) (last : Nat) (img : Image) :
    (decodeP1 (ld ++ (numToks l ++ decimal last)) img w h).2 = some .eof := by
  have hK := last_pixel w h l.length hw hh hlen
  obtain ⟨s1, hrun⟩ := forLoop_rows_fail decodeP1Pixel .eof w h (h - 1) (w - 1) (by omega)
    (by omega)
    (fun k st => ∃ ld, isSep ld = true ∧ st.1 = ld ++ (numToks (l.drop k) ++ decimal last))
    (by
      intro y x st _ _ hlt hI
      obtain ⟨ld, hld, hr⟩ := hI
      obtain ⟨hread, hsep⟩ := readU_numToks l (decimal last) ld (y * w + x) (by omega) hl hld
      exact ⟨_, by rw [decodeP1Pixel, hr, hread], _, hsep, by rfl⟩)
    (by
      intro st hI
      obtain ⟨ld, hld, hr⟩ := hI
      refine ⟨st, ?_⟩
      rw [decodeP1Pixel, hr, readU_last l ld last _ (by omega) hld])
    (ld ++ (numToks l ++ decimal last), img) ⟨ld, hld, by simp⟩
  unfold decodeP1
  simp only [hrun]

theorem decodeP2_eof (w h m : Nat) (hw : 0 < w) (hh : 0 < h) (hm0 : 0 < m)
    (hm : m < 4294967296) (g3 : List Nat) (hg3 : isSep g3 = true)
    (l : List (Nat × List Nat))
    (hlen : l.length + 1 = w * h) (hl : ∀ p ∈ l, p.1 < 4294967296 ∧ isSep p.2 = true)
    (ld : List Nat) (hld : isSep ld = true) (last : Nat) (img : Image) :
    (decodeP2 (ld ++ (numToks ((m, g3) :: l) ++ decimal last)) img w h).2 = some .eof := by
  have hK := last_pixel w h l.length hw hh hlen
  have hmask : readU (ld ++ (numToks ((m, g3) :: l) ++ decimal last)) =
      .ok (m, trimSep g3 ++ (numToks l ++ decimal last)) := by
    have := readU_decimal ld g3 (numToks l ++ decimal last) m (isSep_isGap hld) hm hg3
    simpa [numToks, List.append_assoc] using this
  obtain ⟨s1, hrun⟩ := forLoop_rows_fail (decodeP2Pixel m (255 / m)) .eof w h (h - 1) (w - 1)
    (by omega) (by omega)
    (fun k st => ∃ ld, isSep ld = true ∧ st.1 = ld ++ (numToks (l.drop k) ++ decimal last))
    (by
      intro y x st _ _ hlt hI
      obtain ⟨ld, hld, hr⟩ := hI
      obtain ⟨hread, hsep⟩ := readU_numToks l (decimal last) ld (y * w + x) (by omega) hl hld
      exact ⟨_, by rw [decodeP2Pixel, hr, hread], _, hsep, by rfl⟩)
    (by
      intro st hI
      obtain ⟨ld, hld, hr⟩ := hI
      refine ⟨st, ?_⟩
      rw [decodeP2Pixel, hr, readU_last l ld last _ (by omega) hld])
    (trimSep g3 ++ (numToks l ++ decimal last), img) ⟨_, isSep_trimSep hg3, by simp⟩
  unfold decodeP2
  rw [hmask]
  simp only [show m ≠ 0 by omega, if_false, hrun]

theorem decodeP3_eof (w h m : Nat) (hw : 0 < w) (hh : 0 < h) (hm0 : 0 < m)
    (hm : m < 4294967296) (g3 : List Nat) (hg3 : isSep g3 = true)
    (l : List (Nat × List Nat))
    (hlen : l.length + 1 = 3 * (w * h)) (hl : ∀ p ∈ l, p.1 < 4294967296 ∧ isSep p.2 = true)
    (ld : List Nat) (hld : isSep ld = true) (last : Nat) (img : Image) :
    (decodeP3 (ld ++ (numToks ((m, g3) :: l) ++ decimal last)) img w h).2 = some .eof := by
  obtain ⟨n, hn⟩ : ∃ n, n + 1 = w * h := ⟨w * h - 1, by
    have : 0 < w * h := Nat.mul_pos hw hh
    omega⟩
  have hK := last_pixel w h n hw hh hn
  have hmask : readU (ld ++ (numToks ((m, g3) :: l) ++ decimal last)) =
      .ok (m, trimSep g3 ++ (numToks l ++ decimal last)) := by
    have := readU_decimal ld g3 (numToks l ++ decimal last) m (isSep_isGap hld) hm hg3
    simpa [numToks, List.append_assoc] using this
  obtain ⟨s1, hrun⟩ := forLoop_rows_fail (decodeP3Pixel m (255 / m)) .eof w h (h - 1) (w - 1)
    (by omega) (by omega)
    (fun k st => ∃ ld, isSep ld = true ∧
      st.1 = ld ++ (numToks (l.drop (3 * k)) ++ decimal last))
    (by
      intro y x st _ _ hlt hI
      obtain ⟨ld, hld, hr⟩ := hI
      obtain ⟨hread1, hsep1⟩ :=
        readU_numToks l (decimal last) ld (3 * (y * w + x)) (by omega) hl hld
      obtain ⟨hread2, hsep2⟩ :=
        readU_numToks l (decimal last) _ (3 * (y * w + x) + 1) (by omega) hl hsep1
      obtain ⟨hread3, hsep3⟩ :=
        readU_numToks l (decimal last) _ (3 * (y * w + x) + 1 + 1) (by omega) hl hsep2
      exact ⟨_, by
        rw [decodeP3Pixel, hr, hread1]
        simp only []
        rw [hread2]
        simp only []
        rw [hread3], _, hsep3, by
        rw [show 3 * (y * w + x + 1) = 3 * (y * w + x) + 1 + 1 + 1 by omega]⟩)
    (by
      intro st hI
      obtain ⟨ld, hld, hr⟩ := hI
      obtain ⟨hread1, hsep1⟩ :=
        readU_numToks l (decimal last) ld (3 * ((h - 1) * w + (w - 1))) (by omega) hl hld
      obtain ⟨hread2, hsep2⟩ :=
        readU_numToks l (decimal last) _ (3 * ((h - 1) * w + (w - 1)) + 1) (by omega) hl hsep1
      refine ⟨st, ?_⟩
      rw [decodeP3Pixel, hr, hread1]
      simp only []
      rw [hread2]
      simp only []
      rw [readU_last l _ last _ (by omega) hsep2])
    (trimSep g3 ++ (numToks l ++ decimal last), img) ⟨_, isSep_trimSep hg3, by simp⟩
  unfold decodeP3
  rw [hmask]
  simp only [show m ≠ 0 by omega, if_false, hrun]

/-- The three header tokens of an ASCII stream, as `Decode` reads them. -/
theorem asciiStream_header (d w h : Nat) (g0 g1 g2 : List Nat) (toks : List (Nat × List Nat))
    (last : Nat) (hd : isTokByte d = true) (hw : w < 4294967296) (hh : h < 4294967296)
    (h0 : isSep g0 = true) (h1 : isSep g1 = true) (h2 : isSep g2 = true) :
    readS (asciiStream d g0 ((w, g1) :: (h, g2) :: toks) last) =
      .ok ([0x50, d], trimSep g0 ++ (numToks ((w, g1) :: (h, g2) :: toks) ++ decimal last)) ∧
    readU (trimSep g0 ++ (numToks ((w, g1) :: (h, g2) :: toks) ++ decimal last)) =
      .ok (w, trimSep g1 ++ (numToks ((h, g2) :: toks) ++ decimal last)) ∧
    readU (trimSep g1 ++ (numToks ((h, g2) :: toks) ++ decimal last)) =
      .ok (h, trimSep g2 ++ (numToks toks ++ decimal last)) := by
  have hP : isTok [0x50, d] = true := by
    simp only [isTok, List.all_cons, List.all_nil, Bool.and_true, Bool.and_eq_true]
    exact ⟨by decide, hd⟩
  refine ⟨?_, ?_, ?_⟩
  · have := read_tok [] [0x50, d] g0
      (numToks ((w, g1) :: (h, g2) :: toks) ++ decimal last) rfl hP (by simp) h0
    rw [List.nil_append] at this
    exact this
  · have := readU_decimal (trimSep g0) g1 (numToks ((h, g2) :: toks) ++ decimal last) w
      (isSep_isGap (isSep_trimSep h0)) hw h1
    simpa [numToks, List.append_assoc] using this
  · have := readU_decimal (trimSep g1) g2 (numToks toks ++ decimal last) h
      (isSep_isGap (isSep_trimSep h1)) hh h2
    simpa [numToks, List.append_assoc] using this

/-! ## Loops that may panic early -/

/-- A loop whose body keeps an invariant or panics with an error in `P` either
runs to its end or returns such an error. -/
theorem forLoop_hoare_or {σ : Type} (body : Nat → σ → σ × Option Err) (P : Err → Prop)
    (n : Nat) :
    ∀ (I : Nat → σ → Prop) (i : Nat),
      (∀ j s, j < n → I j s →
        (∃ s1, body (i + j) s = (s1, none) ∧ I (j + 1) s1) ∨
        (∃ s1 e, body (i + j) s = (s1, some e) ∧ P e)) →
      ∀ s, I 0 s →
        (∃ s1, forLoop body i n s = (s1, none) ∧ I n s1) ∨
        (∃ s1 e, forLoop body i n s = (s1, some e) ∧ P e) := by
  induction n with
  | zero => intro I i _ s h0; exact Or.inl ⟨s, rfl, h0⟩
  | succ n ih =>
    intro I i hstep s h0
    rcases hstep 0 s (by omega) h0 with ⟨s1, hb, h1⟩ | ⟨s1, e, hb, he⟩
    · simp only [Nat.add_zero] at hb
      have hrec := ih (fun j s => I (j + 1) s) (i + 1) (by
        intro j s hj hI
        have := hstep (j + 1) s (by omega) hI
        rwa [show i + (j + 1) = i + 1 + j by omega] at this) s1 h1
      rcases hrec with ⟨s2, hl, h2⟩ | ⟨s2, e, hl, he⟩
      · exact Or.inl ⟨s2, by rw [forLoop, hb]; exact hl, h2⟩
      · exact Or.inr ⟨s2, e, by rw [forLoop, hb]; exact hl, he⟩
    · simp only [Nat.add_zero] at hb
      exact Or.inr ⟨s1, e, by rw [forLoop, hb], he⟩

/-- A loop whose body keeps an invariant or panics for `k` rounds and panics in
the next round returns a panic. -/
theorem forLoop_fail_or {σ : Type} (body : Nat → σ → σ × Option Err) (P : Err → Prop)
    (k : Nat) :
    ∀ (n i : Nat) (I : Nat → σ → Prop), k < n →
      (∀ j s, j < k → I j s →
        (∃ s1, body (i + j) s = (s1, none) ∧ I (j + 1) s1) ∨
        (∃ s1 e, body (i + j) s = (s1, some e) ∧ P e)) →
      (∀ s, I k s → ∃ s1 e, body (i + k) s = (s1, some e) ∧ P e) →
      ∀ s, I 0 s → ∃ s1 e, forLoop body i n s = (s1, some e) ∧ P e := by
  induction k with
  | zero =>
    intro n i I hn _ hfail s h0
    obtain ⟨n, rfl⟩ : ∃ m, n = m + 1 := ⟨n - 1, by omega⟩
    obtain ⟨s1, e, hb, he⟩ := hfail s h0
    simp only [Nat.add_zero] at hb
    exact ⟨s1, e, by rw [forLoop, hb], he⟩
  | succ k ih =>
    intro n i I hn hstep hfail s h0
    obtain ⟨n, rfl⟩ : ∃ m, n = m + 1 := ⟨n - 1, by omega⟩
    rcases hstep 0 s (by omega) h0 with ⟨s1, hb, h1⟩ | ⟨s1, e, hb, he⟩
    · simp only [Nat.add_zero] at hb
      obtain ⟨s2, e, hl, he⟩ := ih n (i + 1) (fun j s => I (j + 1) s) (by omega)
        (by
          intro j s hj hI
          have := hstep (j + 1) s (by omega) hI
          rwa [show i + (j + 1) = i + 1 + j by omega] at this)
        (by
          intro s hI
          have := hfail s hI
          rwa [show i + (k + 1) = i + 1 + k by omega] at this) s1 h1
      exact ⟨s2, e, by rw [forLoop, hb]; exact hl, he⟩
    · simp only [Nat.add_zero] at hb
      exact ⟨s1, e, by rw [forLoop, hb], he⟩

/-- The two nested loops over the rows and the columns of an image, when the
body keeps an invariant or panics up to pixel `(x0, y0)` and panics there. -/
theorem forLoop_rows_fail_or {σ : Type} (body : Nat → Nat → σ → σ × Option Err)
    (P : Err → Prop) (w h y0 x0 : Nat) (hy0 : y0 < h) (hx0 : x0 < w) (I : Nat → σ → Prop)
    (hstep : ∀ y x s, y < h → x < w → y * w + x < y0 * w + x0 → I (y * w + x) s →
      (∃ s1, body y x s = (s1, none) ∧ I (y * w + x + 1) s1) ∨
      (∃ s1 e, body y x s = (s1, some e) ∧ P e))
    (hfail : ∀ s, I (y0 * w + x0) s → ∃ s1 e, body y0 x0 s = (s1, some e) ∧ P e) :
    ∀ s, I 0 s →
      ∃ s1 e, forLoop (fun y st => forLoop (body y) 0 w st) 0 h s = (s1, some e) ∧ P e := by
  intro s h0
  refine forLoop_fail_or (fun y st => forLoop (body y) 0 w st) P y0 h 0
    (fun y s => I (y * w) s) hy0 ?_ ?_ s (by simpa using h0)
  · intro y s hy hI
    have hle : (y + 1) * w ≤ y0 * w := Nat.mul_le_mul_right w hy
    rw [Nat.succ_mul] at hle
    rcases forLoop_hoare_or (body (0 + y)) P w (fun x s => I (y * w + x) s) 0 (by
      intro x s hx hI
      have := hstep y x s (by omega) hx (by omega) hI
      simpa using this) s (by simpa using hI) with ⟨s1, hl, h1⟩ | ⟨s1, e, hl, he⟩
    · refine Or.inl ⟨s1, hl, ?_⟩
      show I ((y + 1) * w) s1
      rw [Nat.succ_mul]
      exact h1
    · exact Or.inr ⟨s1, e, hl, he⟩
  · intro s hI
    have := forLoop_fail_or (body (0 + y0)) P x0 w 0 (fun x s => I (y0 * w + x) s) hx0 (by
      intro x s hx hI
      have := hstep y0 x s hy0 (by omega) (by omega) hI
      simpa using this) (by
      intro s hI
      have := hfail s hI
      simpa using this) s (by simpa using hI)
    exact this

/-! ## Numbers out of the range of `ParseUint` -/

theorem parseUintLoop_decimalAux_big (f : Nat) :
    ∀ n, n < f → 4294967296 ≤ n → parseUintLoop (decimalAux f n) 0 = .error .number := by
  induction f with
  | zero => intro n h; omega
  | succ f ih =>
    intro n hf hn
    unfold decimalAux
    rw [if_neg (by omega), parseUintLoop_append]
    by_cases hbig : 4294967296 ≤ n / 10
    · rw [ih (n / 10) (by omega) hbig]
    · rw [parseUintLoop_decimalAux f (n / 10) (by omega) (by omega)]
      have h1 : 48 ≤ 48 + n % 10 ∧ 48 + n % 10 ≤ 57 := by omega
      have h2 : n / 10 * 10 + (48 + n % 10 - 48) > 4294967295 := by omega
      simp only [parseUintLoop, h1, h2, and_self, if_true]

theorem parseUint_decimal_big (n : Nat) (hn : 4294967296 ≤ n) :
    parseUint (decimal n) = .error .number := by
  unfold parseUint
  rw [if_neg (decimal_ne_nil n)]
  exact parseUintLoop_decimalAux_big _ n (by omega) hn

/-- A number in decimal, after a gap and in front of a separator, is read by
`readU` when it is below `2^32` and is an error of `ParseUint` otherwise. -/
theorem readU_decimal_or (g g' rest : List Nat) (n : Nat) (hg : isGapFrom false g = true)
    (hg' : isSep g' = true) :
    (n < 4294967296 ∧ readU (g ++ (decimal n ++ (g' ++ rest))) = .ok (n, trimSep g' ++ rest)) ∨
    readU (g ++ (decimal n ++ (g' ++ rest))) = .error .number := by
  by_cases hn : n < 4294967296
  · exact Or.inl ⟨hn, readU_decimal g g' rest n hg hn hg'⟩
  · right
    unfold readU readS
    rw [read_tok g (decimal n) g' rest hg (isTok_decimal n) (decimal_ne_nil n) hg']
    simp only [parseUint_decimal_big n (by omega)]

/-- The number token `k` of a run of number tokens is read by `readU`, with
some value, or is an error of `ParseUint`. -/
theorem readU_numToks_or (l : List (Nat × List Nat)) (tail ld : List Nat) (k : Nat)
    (hk : k < l.length) (hl : ∀ p ∈ l, isSep p.2 = true) (hld : isSep ld = true) :
    ((readU (ld ++ (numToks (l.drop k) ++ tail)) =
        .ok (l[k].1, trimSep l[k].2 ++ (numToks (l.drop (k + 1)) ++ tail))) ∨
      readU (ld ++ (numToks (l.drop k) ++ tail)) = .error .number) ∧
    isSep (trimSep l[k].2) = true := by
  have hp := hl _ (List.getElem_mem hk)
  refine ⟨?_, isSep_trimSep hp⟩
  rw [numToks_drop l k hk]
  rcases readU_decimal_or ld l[k].2 (numToks (l.drop (k + 1)) ++ tail) l[k].1
    (isSep_isGap hld) hp with ⟨_, h⟩ | h
  · left
    simpa [List.append_assoc] using h
  · right
    simpa [List.append_assoc] using h

/-! ## ASCII streams that end right after the last sample: any numbers -/

theorem decodeP1_err (w h : Nat) (hw : 0 < w) (hh : 0 < h) (l : List (Nat × List Nat))
    (hlen : l.length + 1 = w * h) (hl : ∀ p ∈ l, isSep p.2 = true)
    (ld : List Nat) (hld : isSep ld = true) (last : Nat) (img : Image) :
    ∃ e, (decodeP1 (ld ++ (numToks l ++ decimal last)) img w h).2 = some e ∧
      (e = .eof ∨ e = .number ∨ e = .divByZero) := by
  have hK := last_pixel w h l.length hw hh hlen
  obtain ⟨s1, e, hrun, he⟩ := forLoop_rows_fail_or decodeP1Pixel
    (fun e => e = .eof ∨ e = .number ∨ e = .divByZero) w h (h - 1) (w - 1) (by omega)
    (by omega)
    (fun k st => ∃ ld, isSep ld = true ∧ st.1 = ld ++ (numToks (l.drop k) ++ decimal last))
    (by
      intro y x st _ _ hlt hI
      obtain ⟨ld, hld, hr⟩ := hI
      obtain ⟨hread, hsep⟩ :=
        readU_numToks_or l (decimal last) ld (y * w + x) (by omega) hl hld
      rcases hread with hread | hread
      · exact Or.inl ⟨_, by rw [decodeP1Pixel, hr, hread], _, hsep, by rfl⟩
      · exact Or.inr ⟨st, .number, by rw [decodeP1Pixel, hr, hread], Or.inr (Or.inl rfl)⟩)
    (by
      intro st hI
      obtain ⟨ld, hld, hr⟩ := hI
      exact ⟨st, .eof, by rw [decodeP1Pixel, hr, readU_last l ld last _ (by omega) hld],
        Or.inl rfl⟩)
    (ld ++ (numToks l ++ decimal last), img) ⟨ld, hld, by simp⟩
  refine ⟨e, ?_, he⟩
  unfold decodeP1
  simp only [hrun]

theorem decodeP2_err (w h m : Nat) (hw : 0 < w) (hh : 0 < h)
    (g3 : List Nat) (hg3 : isSep g3 = true) (l : List (Nat × List Nat))
    (hlen : l.length + 1 = w * h) (hl : ∀ p ∈ l, isSep p.2 = true)
    (ld : List Nat) (hld : isSep ld = true) (last : Nat) (img : Image) :
    ∃ e, (decodeP2 (ld ++ (numToks ((m, g3) :: l) ++ decimal last)) img w h).2 = some e ∧
      (e = .eof ∨ e = .number ∨ e = .divByZero) := by
  have hK := last_pixel w h l.length hw hh hlen
  have hmask := readU_decimal_or ld g3 (numToks l ++ decimal last) m (isSep_isGap hld) hg3
  have hform : ld ++ (numToks ((m, g3) :: l) ++ decimal last) =
      ld ++ (decimal m ++ (g3 ++ (numToks l ++ decimal last))) := by
    simp [numToks, List.append_assoc]
  unfold decodeP2
  rw [hform]
  rcases hmask with ⟨_, hmask⟩ | hmask
  · rw [hmask]
    simp only []
    by_cases hm0 : m = 0
    · rw [if_pos hm0]
      exact ⟨.divByZero, rfl, Or.inr (Or.inr rfl)⟩
    · rw [if_neg hm0]
      obtain ⟨s1, e, hrun, he⟩ := forLoop_rows_fail_or (decodeP2Pixel m (255 / m))
        (fun e => e = .eof ∨ e = .number ∨ e = .divByZero) w h (h - 1) (w - 1) (by omega)
        (by omega)
        (fun k st => ∃ ld, isSep ld = true ∧
          st.1 = ld ++ (numToks (l.drop k) ++ decimal last))
        (by
          intro y x st _ _ hlt hI
          obtain ⟨ld, hld, hr⟩ := hI
          obtain ⟨hread, hsep⟩ :=
            readU_numToks_or l (decimal last) ld (y * w + x) (by omega) hl hld
          rcases hread with hread | hread
          · exact Or.inl ⟨_, by rw [decodeP2Pixel, hr, hread], _, hsep, by rfl⟩
          · exact Or.inr ⟨st, .number, by rw [decodeP2Pixel, hr, hread],
              Or.inr (Or.inl rfl)⟩)
        (by
          intro st hI
          obtain ⟨ld, hld, hr⟩ := hI
          exact ⟨st, .eof, by rw [decodeP2Pixel, hr, readU_last l ld last _ (by omega) hld],
            Or.inl rfl⟩)
        (trimSep g3 ++ (numToks l ++ decimal last), img) ⟨_, isSep_trimSep hg3, by simp⟩
      exact ⟨e, by simp only [hrun], he⟩
  · rw [hmask]
    exact ⟨.number, rfl, Or.inr (Or.inl rfl)⟩

theorem decodeP3_err (w h m : Nat) (hw : 0 < w) (hh : 0 < h)
    (g3 : List Nat) (hg3 : isSep g3 = true) (l : List (Nat × List Nat))
    (hlen : l.length + 1 = 3 * (w * h)) (hl : ∀ p ∈ l, isSep p.2 = true)
    (ld : List Nat) (hld : isSep ld = true) (last : Nat) (img : Image) :
    ∃ e, (decodeP3 (ld ++ (numToks ((m, g3) :: l) ++ decimal last)) img w h).2 = some e ∧
      (e = .eof ∨ e = .number ∨ e = .divByZero) := by
  obtain ⟨n, hn⟩ : ∃ n, n + 1 = w * h := ⟨w * h - 1, by
    have : 0 < w * h := Nat.mul_pos hw hh
    omega⟩
  have hK := last_pixel w h n hw hh hn
  have hmask := readU_decimal_or ld g3 (numToks l ++ decimal last) m (isSep_isGap hld) hg3
  have hform : ld ++ (numToks ((m, g3) :: l) ++ decimal last) =
      ld ++ (decimal m ++ (g3 ++ (numToks l ++ decimal last))) := by
    simp [numToks, List.append_assoc]
  unfold decodeP3
  rw [hform]
  rcases hmask with ⟨_, hmask⟩ | hmask
  · rw [hmask]
    simp only []
    by_cases hm0 : m = 0
    · rw [if_pos hm0]
      exact ⟨.divByZero, rfl, Or.inr (Or.inr rfl)⟩
    · rw [if_neg hm0]
      obtain ⟨s1, e, hrun, he⟩ := forLoop_rows_fail_or (decodeP3Pixel m (255 / m))
        (fun e => e = .eof ∨ e = .number ∨ e = .divByZero) w h (h - 1) (w - 1) (by omega)
        (by omega)
        (fun k st => ∃ ld, isSep ld = true ∧
          st.1 = ld ++ (numToks (l.drop (3 * k)) ++ decimal last))
        (by
          intro y x st _ _ hlt hI
          obtain ⟨ld, hld, hr⟩ := hI
          obtain ⟨hread1, hsep1⟩ :=
            readU_numToks_or l (decimal last) ld (3 * (y * w + x)) (by omega) hl hld
          obtain ⟨hread2, hsep2⟩ :=
            readU_numToks_or l (decimal last) _ (3 * (y * w + x) + 1) (by omega) hl hsep1
          obtain ⟨hread3, hsep3⟩ :=
            readU_numToks_or l (decimal last) _ (3 * (y * w + x) + 1 + 1) (by omega) hl hsep2
          rcases hread1 with hread1 | hread1
          · rcases hread2 with hread2 | hread2
            · rcases hread3 with hread3 | hread3
              · exact Or.inl ⟨_, by
                  rw [decodeP3Pixel, hr, hread1]
                  simp only []
                  rw [hread2]
                  simp only []
                  rw [hread3], _, hsep3, by
                  rw [show 3 * (y * w + x + 1) = 3 * (y * w + x) + 1 + 1 + 1 by omega]⟩
              · exact Or.inr ⟨st, .number, by
                  rw [decodeP3Pixel, hr, hread1]
                  simp only []
                  rw [hread2]
                  simp only []
                  rw [hread3], Or.inr (Or.inl rfl)⟩
            · exact Or.inr ⟨st, .number, by
                rw [decodeP3Pixel, hr, hread1]
                simp only []
                rw [hread2], Or.inr (Or.inl rfl)⟩
          · exact Or.inr ⟨st, .number, by rw [decodeP3Pixel, hr, hread1],
              Or.inr (Or.inl rfl)⟩)
        (by
          intro st hI
          obtain ⟨ld, hld, hr⟩ := hI
          obtain ⟨hread1, hsep1⟩ :=
            readU_numToks_or l (decimal last) ld (3 * ((h - 1) * w + (w - 1))) (by omega)
              hl hld
          obtain ⟨hread2, hsep2⟩ :=
            readU_numToks_or l (decimal last) _ (3 * ((h - 1) * w + (w - 1)) + 1) (by omega)
              hl hsep1
          rcases hread1 with hread1 | hread1
          · rcases hread2 with hread2 | hread2
            · exact ⟨st, .eof, by
                rw [decodeP3Pixel, hr, hread1]
                simp only []
                rw [hread2]
                simp only []
                rw [readU_last l _ last _ (by omega) hsep2], Or.inl rfl⟩
            · exact ⟨st, .number, by
                rw [decodeP3Pixel, hr, hread1]
                simp only []
                rw [hread2], Or.inr (Or.inl rfl)⟩
          · exact ⟨st, .number, by rw [decodeP3Pixel, hr, hread1], Or.inr (Or.inl rfl)⟩)
        (trimSep g3 ++ (numToks l ++ decimal last), img) ⟨_, isSep_trimSep hg3, by simp⟩
      exact ⟨e, by simp only [hrun], he⟩
  · rw [hmask]
    exact ⟨.number, rfl, Or.inr (Or.inl rfl)⟩

/-- A width or a height of `2^32` or more in the header of an ASCII stream
makes `Decode` fail before it makes an image. -/
theorem Decode_asciiStream_big (d w h : Nat) (g0 g1 g2 : List Nat)
    (toks : List (Nat × List Nat)) (last : Nat) (hd : isTokByte d = true)
    (h0 : isSep g0 = true) (h1 : isSep g1 = true) (h2 : isSep g2 = true)
    (hbig : ¬ (w < 4294967296 ∧ h < 4294967296)) (fills : List (List Nat))
    (hf : fills.flatten = asciiStream d g0 ((w, g1) :: (h, g2) :: toks) last) :
    Decode fills = (none, some .number) := by
  have hP : isTok [0x50, d] = true := by
    simp only [isTok, List.all_cons, List.all_nil, Bool.and_true, Bool.and_eq_true]
    exact ⟨by decide, hd⟩
  have hs := read_tok [] [0x50, d] g0
    (numToks ((w, g1) :: (h, g2) :: toks) ++ decimal last) rfl hP (by simp) h0
  rw [List.nil_append] at hs
  have hfw : trimSep g0 ++ (numToks ((w, g1) :: (h, g2) :: toks) ++ decimal last) =
      trimSep g0 ++ (decimal w ++ (g1 ++ (numToks ((h, g2) :: toks) ++ decimal last))) := by
    simp [numToks, List.append_assoc]
  have hfh : trimSep g1 ++ (numToks ((h, g2) :: toks) ++ decimal last) =
      trimSep g1 ++ (decimal h ++ (g2 ++ (numToks toks ++ decimal last))) := by
    simp [numToks, List.append_assoc]
  unfold Decode
  rw [hf]
  unfold readS asciiStream
  rw [hs]
  simp only []
  rw [hfw]
  rcases readU_decimal_or (trimSep g0) g1 (numToks ((h, g2) :: toks) ++ decimal last) w
    (isSep_isGap (isSep_trimSep h0)) h1 with ⟨hw, hrw⟩ | hrw
  · rw [hrw]
    simp only []
    rw [hfh]
    rcases readU_decimal_or (trimSep g1) g2 (numToks toks ++ decimal last) h
      (isSep_isGap (isSep_trimSep h1)) h2 with ⟨hh, _⟩ | hrh
    · exact absurd ⟨hw, hh⟩ hbig
    · rw [hrh]
  · rw [hrw]

/-! ## Numbers that `readU` returns -/

theorem parseUintLoop_le : ∀ (s : List Nat) (a n : Nat), a ≤ 4294967295 →
    parseUintLoop s a = .ok n → n ≤ 4294967295 := by
  intro s
  induction s with
  | nil =>
    intro a n ha h
    simp only [parseUintLoop, Except.ok.injEq] at h
    omega
  | cons c cs ih =>
    intro a n _ h
    unfold parseUintLoop at h
    split_ifs at h with h1 h2
    exact ih _ n (by omega) h

/-- A number that `readU` returns is below `2^32`. -/
theorem readU_lt {r r1 : List Nat} {n : Nat} (h : readU r = .ok (n, r1)) : n < 4294967296 := by
  unfold readU at h
  cases hs : readS r with
  | error e => rw [hs] at h; simp at h
  | ok v =>
    obtain ⟨s, r2⟩ := v
    rw [hs] at h
    simp only [] at h
    cases hp : parseUint s with
    | error e => rw [hp] at h; simp at h
    | ok k =>
      rw [hp] at h
      simp only [Except.ok.injEq, Prod.mk.injEq] at h
      unfold parseUint at hp
      split_ifs at hp
      have := parseUintLoop_le s 0 k (by omega) hp
      omega

/-- Go's `image.New...` on a width that `readU` returned: the blank image when
the pixel buffer has at most `maxAlloc` bytes, and one of the two panics
otherwise. -/
theorem Image.new_cases (model : ColorModel) (w h : Nat) (hw : w < 4294967296) :
    (model.bytesPerPixel * w * h ≤ maxAlloc ∧
      Image.new model w h = .ok (Image.blank model w h)) ∨
    (maxAlloc < model.bytesPerPixel * w * h ∧
      (Image.new model w h = .error .hugeRect ∨ Image.new model w h = .error .makeslice)) := by
  cases hn : Image.new model w h with
  | ok img =>
    obtain ⟨rfl, hb⟩ := Image.new_eq_ok _ _ _ _ hn
    exact Or.inl ⟨hb, rfl⟩
  | error e =>
    obtain ⟨he, hb⟩ := Image.new_error _ _ _ _ hw hn
    rcases he with rfl | rfl
    · exact Or.inr ⟨hb, Or.inl rfl⟩
    · exact Or.inr ⟨hb, Or.inr rfl⟩

/-! ## The header and the `switch` of `Decode` -/

/-- The three header tokens of a stream, as `Decode` reads them. -/
theorem header_reads (d w h : Nat) (g0 g1 g2 tail : List Nat) (hd : isTokByte d = true)
    (hw : w < 4294967296) (hh : h < 4294967296)
    (h0 : isSep g0 = true) (h1 : isSep g1 = true) (h2 : isSep g2 = true) :
    readS ([0x50, d] ++ (g0 ++ (decimal w ++ (g1 ++ (decimal h ++ (g2 ++ tail)))))) =
      .ok ([0x50, d], trimSep g0 ++ (decimal w ++ (g1 ++ (decimal h ++ (g2 ++ tail))))) ∧
    readU (trimSep g0 ++ (decimal w ++ (g1 ++ (decimal h ++ (g2 ++ tail))))) =
      .ok (w, trimSep g1 ++ (decimal h ++ (g2 ++ tail))) ∧
    readU (trimSep g1 ++ (decimal h ++ (g2 ++ tail))) = .ok (h, trimSep g2 ++ tail) := by
  have hP : isTok [0x50, d] = true := by
    simp only [isTok, List.all_cons, List.all_nil, Bool.and_true, Bool.and_eq_true]
    exact ⟨by decide, hd⟩
  refine ⟨?_, ?_, ?_⟩
  · have := read_tok [] [0x50, d] g0
      (decimal w ++ (g1 ++ (decimal h ++ (g2 ++ tail)))) rfl hP (by simp) h0
    rw [List.nil_append] at this
    exact this
  · exact readU_decimal (trimSep g0) g1 _ w (isSep_isGap (isSep_trimSep h0)) hw h1
  · exact readU_decimal (trimSep g1) g2 _ h (isSep_isGap (isSep_trimSep h1)) hh h2

theorem Decode_P1 (fills : List (List Nat)) (r1 r2 r3 : List Nat) (w h : Nat)
    (h0 : readS fills.flatten = .ok ([0x50, 0x31], r1)) (h1 : readU r1 = .ok (w, r2))
    (h2 : readU r2 = .ok (h, r3)) :
    Decode fills = (match Image.new .alpha w h with
      | .error e => (none, some e)
      | .ok img => (some (decodeP1 r3 img w h).1, (decodeP1 r3 img w h).2)) := by
  unfold Decode
  rw [h0]
  simp only []
  rw [h1]
  simp only []
  rw [h2]
  simp

theorem Decode_P2 (fills : List (List Nat)) (r1 r2 r3 : List Nat) (w h : Nat)
    (h0 : readS fills.flatten = .ok ([0x50, 0x32], r1)) (h1 : readU r1 = .ok (w, r2))
    (h2 : readU r2 = .ok (h, r3)) :
    Decode fills = (match Image.new .gray w h with
      | .error e => (none, some e)
      | .ok img => (some (decodeP2 r3 img w h).1, (decodeP2 r3 img w h).2)) := by
  unfold Decode
  rw [h0]
  simp only []
  rw [h1]
  simp only []
  rw [h2]
  simp

theorem Decode_P3 (fills : List (List Nat)) (r1 r2 r3 : List Nat) (w h : Nat)
    (h0 : readS fills.flatten = .ok ([0x50, 0x33], r1)) (h1 : readU r1 = .ok (w, r2))
    (h2 : readU r2 = .ok (h, r3)) :
    Decode fills = (match Image.new .rgba w h with
      | .error e => (none, some e)
      | .ok img => (some (decodeP3 r3 img w h).1, (decodeP3 r3 img w h).2)) := by
  unfold Decode
  rw [h0]
  simp only []
  rw [h1]
  simp only []
  rw [h2]
  simp

theorem Decode_P5 (fills : List (List Nat)) (r1 r2 r3 : List Nat) (w h : Nat)
    (h0 : readS fills.flatten = .ok ([0x50, 0x35], r1)) (h1 : readU r1 = .ok (w, r2))
    (h2 : readU r2 = .ok (h, r3)) :
    Decode fills = (match Image.new .gray w h with
      | .error e => (none, some e)
      | .ok img => (some (decodeP5 fills r3 img w h).1, (decodeP5 fills r3 img w h).2)) := by
  unfold Decode
  rw [h0]
  simp only []
  rw [h1]
  simp only []
  rw [h2]
  simp

theorem Decode_P6 (fills : List (List Nat)) (r1 r2 r3 : List Nat) (w h : Nat)
    (h0 : readS fills.flatten = .ok ([0x50, 0x36], r1)) (h1 : readU r1 = .ok (w, r2))
    (h2 : readU r2 = .ok (h, r3)) :
    Decode fills = (match Image.new .rgba w h with
      | .error e => (none, some e)
      | .ok img => (some (decodeP6 fills r3 img w h).1, (decodeP6 fills r3 img w h).2)) := by
  unfold Decode
  rw [h0]
  simp only []
  rw [h1]
  simp only []
  rw [h2]
  simp

/-- An ASCII stream that ends right after its last sample makes `Decode` fail,
with the error of the decoder of its format or with a panic of
`image.New...`. -/
theorem Decode_asciiStream_err (d w h : Nat) (g0 g1 g2 : List Nat)
    (toks : List (Nat × List Nat)) (last : Nat) (model : ColorModel)
    (dec : List Nat → Image → Image × Option Err)
    (hd : isTokByte d = true)
    (h0 : isSep g0 = true) (h1 : isSep g1 = true) (h2 : isSep g2 = true)
    (fills : List (List Nat))
    (hf : fills.flatten = asciiStream d g0 ((w, g1) :: (h, g2) :: toks) last)
    (hD : ∀ r1 r2 r3, readS fills.flatten = .ok ([0x50, d], r1) → readU r1 = .ok (w, r2) →
      readU r2 = .ok (h, r3) →
      Decode fills = (match Image.new model w h with
        | .error e => (none, some e)
        | .ok img => (some (dec r3 img).1, (dec r3 img).2)))
    (hdec : ∀ img, ∃ e, (dec (trimSep g2 ++ (numToks toks ++ decimal last)) img).2 = some e ∧
      (e = .eof ∨ e = .number ∨ e = .divByZero)) :
    ∃ e, (Decode fills).2 = some e ∧
      (e = .eof ∨ e = .number ∨ e = .divByZero ∨ e = .hugeRect ∨ e = .makeslice) := by
  by_cases hb : w < 4294967296 ∧ h < 4294967296
  · obtain ⟨a, b, c⟩ := asciiStream_header d w h g0 g1 g2 toks last hd hb.1 hb.2 h0 h1 h2
    rw [← hf] at a
    rw [hD _ _ _ a b c]
    rcases Image.new_cases model w h hb.1 with ⟨_, hn⟩ | ⟨_, hn | hn⟩
    · rw [hn]
      obtain ⟨e, he, hP⟩ := hdec (Image.blank model w h)
      refine ⟨e, he, ?_⟩
      rcases hP with hP | hP | hP
      · exact Or.inl hP
      · exact Or.inr (Or.inl hP)
      · exact Or.inr (Or.inr (Or.inl hP))
    · rw [hn]
      exact ⟨.hugeRect, rfl, by simp⟩
    · rw [hn]
      exact ⟨.makeslice, rfl, by simp⟩
  · rw [Decode_asciiStream_big d w h g0 g1 g2 toks last hd h0 h1 h2 hb fills hf]
    exact ⟨.number, rfl, by simp⟩

/-- An ASCII stream that ends right after its last sample, with a header that
`readU` accepts and an image that can be made: `Decode` returns the error of the
decoder of its format. -/
theorem Decode_asciiStream_eof (d w h : Nat) (g0 g1 g2 : List Nat)
    (toks : List (Nat × List Nat)) (last : Nat) (model : ColorModel)
    (dec : List Nat → Image → Image × Option Err)
    (hd : isTokByte d = true) (hw : w < 4294967296) (hh : h < 4294967296)
    (hb : model.bytesPerPixel * w * h ≤ maxAlloc)
    (h0 : isSep g0 = true) (h1 : isSep g1 = true) (h2 : isSep g2 = true)
    (fills : List (List Nat))
    (hf : fills.flatten = asciiStream d g0 ((w, g1) :: (h, g2) :: toks) last)
    (hD : ∀ r1 r2 r3, readS fills.flatten = .ok ([0x50, d], r1) → readU r1 = .ok (w, r2) →
      readU r2 = .ok (h, r3) →
      Decode fills = (match Image.new model w h with
        | .error e => (none, some e)
        | .ok img => (some (dec r3 img).1, (dec r3 img).2)))
    (hdec : ∀ img, (dec (trimSep g2 ++ (numToks toks ++ decimal last)) img).2 = some .eof) :
    (Decode fills).2 = some .eof := by
  obtain ⟨a, b, c⟩ := asciiStream_header d w h g0 g1 g2 toks last hd hw hh h0 h1 h2
  rw [← hf] at a
  rw [hD _ _ _ a b c, Image.new_ok model w h hb hw]
  exact hdec _

/-! ## Pixel loops that fill the image -/

/-- The two nested loops of a decoder whose body sets pixel `(x, y)` to entry
`y * w + x` of `cols` fill a blank image with `cols`. -/
theorem forLoop_fill {σ : Type} (body : Nat → Nat → σ → σ × Option Err) (w h : Nat)
    (model : ColorModel) (cols : List Color) (hlen : cols.length = w * h)
    (hconv : ∀ c ∈ cols, model.convert c = c) (getImg : σ → Image) (J : Nat → σ → Prop)
    (hstep : ∀ y x s, y < h → x < w → J (y * w + x) s →
      ∃ s1 c, body y x s = (s1, none) ∧ cols[y * w + x]? = some c ∧ J (y * w + x + 1) s1 ∧
        getImg s1 = (getImg s).Set x y c) :
    ∀ s, J 0 s → getImg s = Image.blank model w h →
      ∃ s1, forLoop (fun y st => forLoop (body y) 0 w st) 0 h s = (s1, none) ∧ J (h * w) s1 ∧
        getImg s1 = Image.mk model 0 0 w h cols := by
  intro s hJ himg
  have hrun := forLoop_rows body w h
    (fun k s => J k s ∧ getImg s = Image.mk model 0 0 w h
      (cols.take k ++ List.replicate (w * h - (cols.take k).length) model.zero))
    (by
      intro y x s hy hx hI
      obtain ⟨hJ, himg⟩ := hI
      obtain ⟨s1, c, hb, hc, hJ1, hset⟩ := hstep y x s hy hx hJ
      have hk : y * w + x < cols.length := by
        rw [hlen]
        calc y * w + x < y * w + w := by omega
          _ = (y + 1) * w := by rw [Nat.succ_mul]
          _ ≤ h * w := Nat.mul_le_mul_right _ hy
          _ = w * h := Nat.mul_comm _ _
      have hce : cols[y * w + x] = c := by
        rw [List.getElem?_eq_getElem hk] at hc
        exact Option.some.inj hc
      have hl : (cols.take (y * w + x)).length = y * w + x := by
        rw [List.length_take]
        omega
      have hdone : cols.take (y * w + x + 1) = cols.take (y * w + x) ++ [c] := by
        rw [← List.take_concat_get cols _ hk, List.concat_eq_append, hce]
      refine ⟨s1, hb, hJ1, ?_⟩
      rw [hset, himg, Image.Set_next model w h _ c x y hx hy hl
        (hconv c (hce ▸ List.getElem_mem hk)), hdone])
    s ⟨hJ, by rw [himg]; simp [Image.blank]⟩
  obtain ⟨s1, hloop, hJ1, himg1⟩ := hrun
  refine ⟨s1, hloop, hJ1, ?_⟩
  have hfull : cols.take (h * w) = cols := List.take_of_length_le (by rw [hlen, Nat.mul_comm])
  rw [himg1, hfull, hlen]
  simp

/-! ## Decoding the samples of `P2` and `P3` -/

theorem decodeP2_numToks (w h m : Nat) (hm0 : 0 < m) (hm : m < 4294967296)
    (g3 : List Nat) (hg3 : isSep g3 = true) (l : List (Nat × List Nat)) (hlen : l.length = w * h)
    (hl : ∀ p ∈ l, p.1 < 4294967296 ∧ isSep p.2 = true)
    (ld : List Nat) (hld : isSep ld = true) (tail : List Nat) :
    decodeP2 (ld ++ (numToks ((m, g3) :: l) ++ tail)) (Image.blank .gray w h) w h =
      (Image.mk .gray 0 0 w h (l.map (fun p => Color.gray (sampleU m (255 / m) p.1))),
        none) := by
  have hmask : readU (ld ++ (numToks ((m, g3) :: l) ++ tail)) =
      .ok (m, trimSep g3 ++ (numToks l ++ tail)) := by
    have := readU_decimal ld g3 (numToks l ++ tail) m (isSep_isGap hld) hm hg3
    simpa [numToks, List.append_assoc] using this
  obtain ⟨s1, hrun, _, himg⟩ := forLoop_fill (decodeP2Pixel m (255 / m)) w h .gray
    (l.map (fun p => Color.gray (sampleU m (255 / m) p.1))) (by rw [List.length_map, hlen])
    (by
      intro c hc
      obtain ⟨p, _, rfl⟩ := List.mem_map.1 hc
      rfl)
    (fun st => st.2)
    (fun k st => ∃ ld, isSep ld = true ∧ st.1 = ld ++ (numToks (l.drop k) ++ tail))
    (by
      intro y x st hy hx hI
      obtain ⟨ld, hld, hr⟩ := hI
      have hk : y * w + x < l.length := by
        rw [hlen]
        calc y * w + x < y * w + w := by omega
          _ = (y + 1) * w := by rw [Nat.succ_mul]
          _ ≤ h * w := Nat.mul_le_mul_right _ hy
          _ = w * h := Nat.mul_comm _ _
      obtain ⟨hread, hsep⟩ := readU_numToks l tail ld (y * w + x) hk hl hld
      refine ⟨_, Color.gray (sampleU m (255 / m) l[y * w + x].1), by
        rw [decodeP2Pixel, hr, hread], ?_, ⟨_, hsep, by rfl⟩, by rfl⟩
      rw [List.getElem?_map, List.getElem?_eq_getElem hk]
      rfl)
    (trimSep g3 ++ (numToks l ++ tail), Image.blank .gray w h)
    ⟨_, isSep_trimSep hg3, by simp⟩ rfl
  unfold decodeP2
  rw [hmask]
  simp only [show m ≠ 0 by omega, if_false, hrun, himg]

theorem triples_drop {α : Type} (l : List (α × α × α)) (k : Nat) (hk : k < l.length) :
    triples (l.drop k) = l[k].1 :: l[k].2.1 :: l[k].2.2 :: triples (l.drop (k + 1)) := by
  rw [List.drop_eq_getElem_cons hk, triples]

theorem mem_triples {α : Type} (l : List (α × α × α)) (t : α × α × α) (ht : t ∈ l) :
    t.1 ∈ triples l ∧ t.2.1 ∈ triples l ∧ t.2.2 ∈ triples l := by
  induction l with
  | nil => simp at ht
  | cons p l ih =>
    rcases List.mem_cons.1 ht with rfl | h
    · simp [triples]
    · obtain ⟨a, b, c⟩ := ih h
      simp [triples, a, b, c]

theorem triples_length {α : Type} (l : List (α × α × α)) : (triples l).length = 3 * l.length := by
  induction l with
  | nil => rfl
  | cons p l ih =>
    simp only [triples, List.length_cons, ih]
    omega

/-- The three entries of triple `k` in the run of all entries. -/
theorem triples_getElem? {α : Type} (l : List (α × α × α)) :
    ∀ (k : Nat) (hk : k < l.length),
      (triples l)[3 * k]? = some l[k].1 ∧ (triples l)[3 * k + 1]? = some l[k].2.1 ∧
        (triples l)[3 * k + 2]? = some l[k].2.2 := by
  induction l with
  | nil => intro k hk; simp at hk
  | cons p l ih =>
    intro k hk
    cases k with
    | zero => simp [triples]
    | succ k =>
      have hk1 : k < l.length := by simpa using hk
      obtain ⟨a, b, c⟩ := ih k hk1
      have e0 : 3 * (k + 1) = 3 * k + 1 + 1 + 1 := by omega
      have e1 : 3 * (k + 1) + 1 = 3 * k + 1 + 1 + 1 + 1 := by omega
      have e2 : 3 * (k + 1) + 2 = 3 * k + 2 + 1 + 1 + 1 := by omega
      refine ⟨?_, ?_, ?_⟩
      · rw [e0]
        simpa [triples] using a
      · rw [e1]
        simpa [triples] using b
      · rw [e2]
        simpa [triples] using c

theorem decodeP3_numToks (w h m : Nat) (hm0 : 0 < m) (hm : m < 4294967296)
    (g3 : List Nat) (hg3 : isSep g3 = true)
    (l : List ((Nat × List Nat) × (Nat × List Nat) × (Nat × List Nat)))
    (hlen : l.length = w * h)
    (hl : ∀ p ∈ triples l, p.1 < 4294967296 ∧ isSep p.2 = true)
    (ld : List Nat) (hld : isSep ld = true) (tail : List Nat) :
    decodeP3 (ld ++ (numToks ((m, g3) :: triples l) ++ tail)) (Image.blank .rgba w h) w h =
      (Image.mk .rgba 0 0 w h (l.map (fun t => Color.rgba (sampleU m (255 / m) t.1.1)
        (sampleU m (255 / m) t.2.1.1) (sampleU m (255 / m) t.2.2.1) 0xff)), none) := by
  have hmask : readU (ld ++ (numToks ((m, g3) :: triples l) ++ tail)) =
      .ok (m, trimSep g3 ++ (numToks (triples l) ++ tail)) := by
    have := readU_decimal ld g3 (numToks (triples l) ++ tail) m (isSep_isGap hld) hm hg3
    simpa [numToks, List.append_assoc] using this
  obtain ⟨s1, hrun, _, himg⟩ := forLoop_fill (decodeP3Pixel m (255 / m)) w h .rgba
    (l.map (fun t => Color.rgba (sampleU m (255 / m) t.1.1)
      (sampleU m (255 / m) t.2.1.1) (sampleU m (255 / m) t.2.2.1) 0xff))
    (by rw [List.length_map, hlen])
    (by
      intro c hc
      obtain ⟨p, _, rfl⟩ := List.mem_map.1 hc
      rfl)
    (fun st => st.2)
    (fun k st => ∃ ld, isSep ld = true ∧ st.1 = ld ++ (numToks (triples (l.drop k)) ++ tail))
    (by
      intro y x st hy hx hI
      obtain ⟨ld, hld, hr⟩ := hI
      have hk : y * w + x < l.length := by
        rw [hlen]
        calc y * w + x < y * w + w := by omega
          _ = (y + 1) * w := by rw [Nat.succ_mul]
          _ ≤ h * w := Nat.mul_le_mul_right _ hy
          _ = w * h := Nat.mul_comm _ _
      obtain ⟨ma, mb, mc⟩ := mem_triples l _ (List.getElem_mem hk)
      have ha := hl _ ma
      have hb := hl _ mb
      have hc := hl _ mc
      have hst : st.1 = ld ++ (decimal l[y * w + x].1.1 ++ (l[y * w + x].1.2 ++
          (decimal l[y * w + x].2.1.1 ++ (l[y * w + x].2.1.2 ++
            (decimal l[y * w + x].2.2.1 ++ (l[y * w + x].2.2.2 ++
              (numToks (triples (l.drop (y * w + x + 1))) ++ tail))))))) := by
        rw [hr, triples_drop l _ hk]
        simp [numToks, List.append_assoc]
      have r1 := readU_decimal ld l[y * w + x].1.2
        (decimal l[y * w + x].2.1.1 ++ (l[y * w + x].2.1.2 ++
          (decimal l[y * w + x].2.2.1 ++ (l[y * w + x].2.2.2 ++
            (numToks (triples (l.drop (y * w + x + 1))) ++ tail)))))
        l[y * w + x].1.1 (isSep_isGap hld) ha.1 ha.2
      have r2 := readU_decimal (trimSep l[y * w + x].1.2) l[y * w + x].2.1.2
        (decimal l[y * w + x].2.2.1 ++ (l[y * w + x].2.2.2 ++
          (numToks (triples (l.drop (y * w + x + 1))) ++ tail)))
        l[y * w + x].2.1.1 (isSep_isGap (isSep_trimSep ha.2)) hb.1 hb.2
      have r3 := readU_decimal (trimSep l[y * w + x].2.1.2) l[y * w + x].2.2.2
        (numToks (triples (l.drop (y * w + x + 1))) ++ tail)
        l[y * w + x].2.2.1 (isSep_isGap (isSep_trimSep hb.2)) hc.1 hc.2
      refine ⟨_, Color.rgba (sampleU m (255 / m) l[y * w + x].1.1)
        (sampleU m (255 / m) l[y * w + x].2.1.1) (sampleU m (255 / m) l[y * w + x].2.2.1) 0xff,
        by
          rw [decodeP3Pixel, hst, r1]
          simp only []
          rw [r2]
          simp only []
          rw [r3], ?_, ⟨_, isSep_trimSep hc.2, by rfl⟩, by rfl⟩
      rw [List.getElem?_map, List.getElem?_eq_getElem hk]
      rfl)
    (trimSep g3 ++ (numToks (triples l) ++ tail), Image.blank .rgba w h)
    ⟨_, isSep_trimSep hg3, by simp⟩ rfl
  unfold decodeP3
  rw [hmask]
  simp only [show m ≠ 0 by omega, if_false, hrun, himg]

/-! ## Decoding the payload of `P5` and `P6` -/

/-- While bytes of the input are unread the buffer holds at least one of them
and no more than all of them: where the decoders call `Read`, after `space`
has put a byte back, the buffer is not empty. -/
theorem buffered_pos (fills : List (List Nat)) (left : Nat) (h : left ≤ fills.flatten.length) :
    buffered fills left ≤ left ∧ (0 < left → 0 < buffered fills left) := by
  induction fills with
  | nil =>
    simp only [List.flatten_nil, List.length_nil] at h
    simp only [buffered]
    omega
  | cons p ps ih =>
    unfold buffered
    split_ifs with hle
    · exact ih hle
    · omega

/-- An input that arrives in one piece is in the buffer as long as it is unread. -/
theorem buffered_one (s : List Nat) (left : Nat) : buffered [s] left = left := by
  simp only [buffered, List.flatten_nil, List.length_nil]
  split_ifs with h
  · omega
  · omega

theorem space_ws (ws rest : List Nat) (d : Nat) (hws : ws.all isSpace = true)
    (hd : isSpace d = false) : space (ws ++ d :: rest) = .ok (d :: rest) := by
  induction ws with
  | nil => exact space_of_not_isSpace rest hd
  | cons b ws ih =>
    simp only [List.all_cons, Bool.and_eq_true] at hws
    rw [List.cons_append, space_of_isSpace _ hws.1]
    exact ih hws.2

theorem isSep_ws (ws : List Nat) (hne : ws ≠ []) (hws : ws.all isSpace = true) :
    isSep ws = true ∧ trimSep ws = ws := by
  cases ws with
  | nil => exact absurd rfl hne
  | cons b ws =>
    have hb : isSpace b = true := by
      simp only [List.all_cons, Bool.and_eq_true] at hws
      exact hws.1
    have hb' : b ≠ 0x23 := by
      intro h
      rw [h] at hb
      exact absurd hb (by decide)
    refine ⟨?_, ?_⟩
    · simp only [isSep, isGapFrom_of_all_isSpace _ hws, List.isEmpty_cons, Bool.not_false,
        Bool.and_self]
    · simp only [trimSep, if_neg hb']

/-- Go's `Read` fills the whole slice when the buffer holds enough bytes. -/
theorem Read_full (n k : Nat) (data tail : List Nat) (hk : 0 < k) (hlen : data.length = k)
    (hn : k ≤ n) :
    Read n (data ++ tail) (List.replicate k 0) = .ok (data, tail) := by
  have hne : data ++ tail ≠ [] := by
    intro h
    have := congrArg List.length h
    simp only [List.length_append, List.length_nil] at this
    omega
  unfold Read
  rw [List.length_replicate, if_neg (by omega), if_neg hne]
  have hmin : min k (min n (data ++ tail).length) = k := by
    simp only [List.length_append]
    omega
  simp only [hmin]
  rw [← hlen]
  simp

/-- Go's `Read` returns the slice it was given, with its length. -/
theorem Read_length {n : Nat} {r p data rest : List Nat} (h : Read n r p = .ok (data, rest)) :
    data.length = p.length := by
  unfold Read at h
  split_ifs at h with h1 h2
  · simp only [Except.ok.injEq, Prod.mk.injEq] at h
    rw [← h.1]
  · simp only [Except.ok.injEq, Prod.mk.injEq] at h
    rw [← h.1]
    simp only [List.length_append, List.length_take, List.length_drop]
    omega

/-- Go's `decodeP5` on a header maxSample `m` from 1 to 255: whatever bytes
`Read` delivers, each pixel is the masked and rescaled byte. -/
theorem decodeP5_of_Read (fills : List (List Nat)) (w h m : Nat) (h1 : 1 ≤ m) (h2 : m ≤ 255)
    (g3 : List Nat) (hg3 : isSep g3 = true) (payload ld : List Nat) (hld : isSep ld = true)
    (r1 data rest : List Nat) (hs : space (trimSep g3 ++ payload) = .ok r1)
    (hr : Read (buffered fills r1.length) r1 (List.replicate (w * h) 0) = .ok (data, rest)) :
    decodeP5 fills (ld ++ (decimal m ++ (g3 ++ payload))) (Image.blank .gray w h) w h =
      (Image.mk .gray 0 0 w h (data.map (fun d => Color.gray ((d &&& m) * (255 / m)))),
        none) := by
  have hlen : data.length = w * h := by
    rw [Read_length hr, List.length_replicate]
  have hmask : readU (ld ++ (decimal m ++ (g3 ++ payload))) = .ok (m, trimSep g3 ++ payload) :=
    readU_decimal ld g3 payload m (isSep_isGap hld) (by omega) hg3
  have hm : m % 256 = m := by omega
  obtain ⟨s1, hrun, _, himg⟩ := forLoop_fill (decodeP5Pixel data m (255 / m)) w h .gray
    (data.map (fun d => Color.gray ((d &&& m) * (255 / m)))) (by rw [List.length_map, hlen])
    (by
      intro c hc
      obtain ⟨p, _, rfl⟩ := List.mem_map.1 hc
      rfl)
    (fun st => st.1)
    (fun k st => st.2 = k)
    (by
      intro y x st hy hx hI
      have hk : y * w + x < data.length := by
        rw [hlen]
        calc y * w + x < y * w + w := by omega
          _ = (y + 1) * w := by rw [Nat.succ_mul]
          _ ≤ h * w := Nat.mul_le_mul_right _ hy
          _ = w * h := Nat.mul_comm _ _
      have hget : data[st.2]? = some data[y * w + x] := by
        rw [hI, List.getElem?_eq_getElem hk]
      have hsb := sampleB_eq m data[y * w + x] h2
      rw [hm] at hsb
      refine ⟨_, Color.gray ((data[y * w + x] &&& m) * (255 / m)), by
        rw [decodeP5Pixel, hget], ?_, by simp only [hI], by simp only [hsb]⟩
      rw [List.getElem?_map, List.getElem?_eq_getElem hk]
      rfl)
    (Image.blank .gray w h, 0) rfl rfl
  unfold decodeP5
  rw [hmask]
  simp only [hm, show m ≠ 0 by omega, if_false]
  rw [hs]
  simp only []
  rw [hr]
  simp only [hrun, himg]

/-- Go's `decodeP6` on a header maxSample `m` from 1 to 255: whatever bytes
`Read` delivers, each channel of a pixel is the masked and rescaled byte. -/
theorem decodeP6_of_Read (fills : List (List Nat)) (w h m : Nat) (h1 : 1 ≤ m) (h2 : m ≤ 255)
    (g3 : List Nat) (hg3 : isSep g3 = true) (payload ld : List Nat) (hld : isSep ld = true)
    (r1 rest : List Nat) (l : List (Nat × Nat × Nat))
    (hs : space (trimSep g3 ++ payload) = .ok r1)
    (hr : Read (buffered fills r1.length) r1 (List.replicate (w * h * 3) 0) =
      .ok (triples l, rest)) :
    decodeP6 fills (ld ++ (decimal m ++ (g3 ++ payload))) (Image.blank .rgba w h) w h =
      (Image.mk .rgba 0 0 w h (l.map (fun t => Color.rgba ((t.1 &&& m) * (255 / m))
        ((t.2.1 &&& m) * (255 / m)) ((t.2.2 &&& m) * (255 / m)) 0xff)), none) := by
  have hlen : l.length = w * h := by
    have := Read_length hr
    rw [triples_length, List.length_replicate] at this
    omega
  have hmask : readU (ld ++ (decimal m ++ (g3 ++ payload))) = .ok (m, trimSep g3 ++ payload) :=
    readU_decimal ld g3 payload m (isSep_isGap hld) (by omega) hg3
  have hm : m % 256 = m := by omega
  obtain ⟨s1, hrun, _, himg⟩ := forLoop_fill (decodeP6Pixel (triples l) m (255 / m)) w h .rgba
    (l.map (fun t => Color.rgba ((t.1 &&& m) * (255 / m))
      ((t.2.1 &&& m) * (255 / m)) ((t.2.2 &&& m) * (255 / m)) 0xff))
    (by rw [List.length_map, hlen])
    (by
      intro c hc
      obtain ⟨p, _, rfl⟩ := List.mem_map.1 hc
      rfl)
    (fun st => st.1)
    (fun k st => st.2 = 3 * k)
    (by
      intro y x st hy hx hI
      have hk : y * w + x < l.length := by
        rw [hlen]
        calc y * w + x < y * w + w := by omega
          _ = (y + 1) * w := by rw [Nat.succ_mul]
          _ ≤ h * w := Nat.mul_le_mul_right _ hy
          _ = w * h := Nat.mul_comm _ _
      obtain ⟨ga, gb, gc⟩ := triples_getElem? l (y * w + x) hk
      rw [← hI] at ga gb gc
      have sa := sampleB_eq m l[y * w + x].1 h2
      have sb := sampleB_eq m l[y * w + x].2.1 h2
      have sc := sampleB_eq m l[y * w + x].2.2 h2
      rw [hm] at sa sb sc
      refine ⟨_, Color.rgba ((l[y * w + x].1 &&& m) * (255 / m))
        ((l[y * w + x].2.1 &&& m) * (255 / m)) ((l[y * w + x].2.2 &&& m) * (255 / m)) 0xff, by
        rw [decodeP6Pixel, ga, gb, gc], ?_, ?_, by simp only [sa, sb, sc]⟩
      · rw [List.getElem?_map, List.getElem?_eq_getElem hk]
        rfl
      · show st.2 + 3 = 3 * (y * w + x + 1)
        omega)
    (Image.blank .rgba w h, 0) rfl rfl
  unfold decodeP6
  rw [hmask]
  simp only [hm, show m ≠ 0 by omega, if_false]
  rw [hs]
  simp only []
  rw [hr]
  simp only [hrun, himg]

/-- A payload that starts with a byte that is not whitespace and lies in the
buffer is what `space` leaves and `Read` delivers. -/
theorem payload_Read (fills : List (List Nat)) (k : Nat) (ws : List Nat) (hne : ws ≠ [])
    (hws : ws.all isSpace = true) (data tail : List Nat) (hlen : data.length = k)
    (hpos : 0 < k) (hd : ∀ d, data.head? = some d → isSpace d = false)
    (hbuf : data.length ≤ buffered fills (data ++ tail).length) :
    isSep ws = true ∧ space (trimSep ws ++ (data ++ tail)) = .ok (data ++ tail) ∧
    Read (buffered fills (data ++ tail).length) (data ++ tail) (List.replicate k 0) =
      .ok (data, tail) := by
  obtain ⟨hsep, htrim⟩ := isSep_ws ws hne hws
  refine ⟨hsep, ?_, Read_full _ _ data tail hpos hlen (by omega)⟩
  rw [htrim]
  cases data with
  | nil => rw [List.length_nil] at hlen; omega
  | cons d data => exact space_ws ws _ d hws (hd d rfl)

/-! ## Decoding whole streams with a maxSample -/

theorem Decode_P2_samples (w h m : Nat) (g0 g1 g2 g3 tail : List Nat)
    (l : List (Nat × List Nat)) (fills : List (List Nat))
    (hw : w < 4294967296) (hh : h < 4294967296) (hb : w * h ≤ maxAlloc)
    (hm0 : 0 < m) (hm : m < 4294967296)
    (h0 : isSep g0 = true) (h1 : isSep g1 = true) (h2 : isSep g2 = true)
    (h3 : isSep g3 = true) (hl : ∀ p ∈ l, p.1 < 4294967296 ∧ isSep p.2 = true)
    (hlen : l.length = w * h)
    (hf : fills.flatten = numStream 0x32 g0 ((w, g1) :: (h, g2) :: (m, g3) :: l) ++ tail) :
    Decode fills = (some (Image.mk .gray 0 0 w h
      (l.map (fun p => Color.gray ((p.1 &&& m) * (255 / m))))), none) := by
  have hf' : fills.flatten = [0x50, 0x32] ++ (g0 ++ (decimal w ++ (g1 ++ (decimal h ++
      (g2 ++ (numToks ((m, g3) :: l) ++ tail)))))) := by
    rw [hf]
    simp [numStream, numToks, List.append_assoc]
  obtain ⟨a, b, c⟩ := header_reads 0x32 w h g0 g1 g2 (numToks ((m, g3) :: l) ++ tail)
    (by decide) hw hh h0 h1 h2
  rw [← hf'] at a
  rw [Decode_P2 fills _ _ _ w h a b c,
    Image.new_ok .gray w h (by simpa [ColorModel.bytesPerPixel] using hb) hw]
  simp only []
  rw [decodeP2_numToks w h m hm0 hm g3 h3 l hlen hl _ (isSep_trimSep h2) tail]
  simp only [sampleU_eq]

theorem Decode_P3_samples (w h m : Nat) (g0 g1 g2 g3 tail : List Nat)
    (l : List ((Nat × List Nat) × (Nat × List Nat) × (Nat × List Nat)))
    (fills : List (List Nat))
    (hw : w < 4294967296) (hh : h < 4294967296) (hb : 4 * w * h ≤ maxAlloc)
    (hm0 : 0 < m) (hm : m < 4294967296)
    (h0 : isSep g0 = true) (h1 : isSep g1 = true) (h2 : isSep g2 = true)
    (h3 : isSep g3 = true) (hl : ∀ p ∈ triples l, p.1 < 4294967296 ∧ isSep p.2 = true)
    (hlen : l.length = w * h)
    (hf : fills.flatten =
      numStream 0x33 g0 ((w, g1) :: (h, g2) :: (m, g3) :: triples l) ++ tail) :
    Decode fills = (some (Image.mk .rgba 0 0 w h
      (l.map (fun t => Color.rgba ((t.1.1 &&& m) * (255 / m)) ((t.2.1.1 &&& m) * (255 / m))
        ((t.2.2.1 &&& m) * (255 / m)) 0xff))), none) := by
  have hf' : fills.flatten = [0x50, 0x33] ++ (g0 ++ (decimal w ++ (g1 ++ (decimal h ++
      (g2 ++ (numToks ((m, g3) :: triples l) ++ tail)))))) := by
    rw [hf]
    simp [numStream, numToks, List.append_assoc]
  obtain ⟨a, b, c⟩ := header_reads 0x33 w h g0 g1 g2 (numToks ((m, g3) :: triples l) ++ tail)
    (by decide) hw hh h0 h1 h2
  rw [← hf'] at a
  rw [Decode_P3 fills _ _ _ w h a b c, Image.new_ok .rgba w h hb hw]
  simp only []
  rw [decodeP3_numToks w h m hm0 hm g3 h3 l hlen hl _ (isSep_trimSep h2) tail]
  simp only [sampleU_eq]

theorem Decode_P5_samples (w h m : Nat) (g0 g1 g2 g3 payload : List Nat)
    (fills : List (List Nat)) (r1 data rest : List Nat)
    (hw : w < 4294967296) (hh : h < 4294967296) (hb : w * h ≤ maxAlloc)
    (hm1 : 1 ≤ m) (hm2 : m ≤ 255)
    (h0 : isSep g0 = true) (h1 : isSep g1 = true) (h2 : isSep g2 = true)
    (h3 : isSep g3 = true)
    (hf : fills.flatten = binStream 0x35 g0 w g1 h g2 m g3 payload)
    (hs : space (trimSep g3 ++ payload) = .ok r1)
    (hr : Read (buffered fills r1.length) r1 (List.replicate (w * h) 0) = .ok (data, rest)) :
    Decode fills = (some (Image.mk .gray 0 0 w h
      (data.map (fun d => Color.gray ((d &&& m) * (255 / m))))), none) := by
  obtain ⟨a, b, c⟩ := header_reads 0x35 w h g0 g1 g2 (decimal m ++ (g3 ++ payload))
    (by decide) hw hh h0 h1 h2
  unfold binStream at hf
  rw [← hf] at a
  rw [Decode_P5 fills _ _ _ w h a b c,
    Image.new_ok .gray w h (by simpa [ColorModel.bytesPerPixel] using hb) hw]
  simp only []
  rw [decodeP5_of_Read fills w h m hm1 hm2 g3 h3 payload _ (isSep_trimSep h2) r1 data rest
    hs hr]

theorem Decode_P6_samples (w h m : Nat) (g0 g1 g2 g3 payload : List Nat)
    (fills : List (List Nat)) (r1 rest : List Nat) (l : List (Nat × Nat × Nat))
    (hw : w < 4294967296) (hh : h < 4294967296) (hb : 4 * w * h ≤ maxAlloc)
    (hm1 : 1 ≤ m) (hm2 : m ≤ 255)
    (h0 : isSep g0 = true) (h1 : isSep g1 = true) (h2 : isSep g2 = true)
    (h3 : isSep g3 = true)
    (hf : fills.flatten = binStream 0x36 g0 w g1 h g2 m g3 payload)
    (hs : space (trimSep g3 ++ payload) = .ok r1)
    (hr : Read (buffered fills r1.length) r1 (List.replicate (w * h * 3) 0) =
      .ok (triples l, rest)) :
    Decode fills = (some (Image.mk .rgba 0 0 w h
      (l.map (fun t => Color.rgba ((t.1 &&& m) * (255 / m)) ((t.2.1 &&& m) * (255 / m))
        ((t.2.2 &&& m) * (255 / m)) 0xff))), none) := by
  obtain ⟨a, b, c⟩ := header_reads 0x36 w h g0 g1 g2 (decimal m ++ (g3 ++ payload))
    (by decide) hw hh h0 h1 h2
  unfold binStream at hf
  rw [← hf] at a
  rw [Decode_P6 fills _ _ _ w h a b c, Image.new_ok .rgba w h hb hw]
  simp only []
  rw [decodeP6_of_Read fills w h m hm1 hm2 g3 h3 payload _ (isSep_trimSep h2) r1 rest l
    hs hr]

/-! ## The claims -/

/-- Claim C4: for a header maxSample `m` with `1 <= m <= 255` the factor
`255 / m` is at least 1 and `(s & m) * (255 / m)` is at most 255 for every
`s`, and that value, with no wrap in `uint`, `uint8` or the conversion to a
byte, is the channel value `Decode` gives to every sample, in whatever pieces
the stream arrives: in a `P2` and in a `P3` stream (a `w` x `h` image that can
be made, every token followed by a separator) to the parsed number `s` of
each sample token, and in a `P5` and in a `P6` stream to each byte `s` that
`Read` delivers after `space`; these bytes are the payload itself when the
payload follows whitespace after maxSample, does not start with a whitespace
byte and lies in the buffer; and `"P5\n2 1\n15\n"` followed by `0F 03`, in one
piece, decodes to the gray values 255 and 51. -/
theorem masked_rescale (m : Nat) (hm1 : 1 ≤ m) (hm2 : m ≤ 255) :
    1 ≤ 255 / m ∧ (∀ s, (s &&& m) * (255 / m) ≤ 255) ∧
    (∀ (w h : Nat) (g0 g1 g2 g3 tail : List Nat) (l : List (Nat × List Nat))
      (fills : List (List Nat)),
      w < 4294967296 → h < 4294967296 → w * h ≤ maxAlloc →
      isSep g0 = true → isSep g1 = true → isSep g2 = true → isSep g3 = true →
      (∀ p ∈ l, p.1 < 4294967296 ∧ isSep p.2 = true) → l.length = w * h →
      fills.flatten = numStream 0x32 g0 ((w, g1) :: (h, g2) :: (m, g3) :: l) ++ tail →
      Decode fills = (some ⟨.gray, 0, 0, w, h,
        l.map (fun p => Color.gray ((p.1 &&& m) * (255 / m)))⟩, none)) ∧
    (∀ (w h : Nat) (g0 g1 g2 g3 tail : List Nat)
      (l : List ((Nat × List Nat) × (Nat × List Nat) × (Nat × List Nat)))
      (fills : List (List Nat)),
      w < 4294967296 → h < 4294967296 → 4 * w * h ≤ maxAlloc →
      isSep g0 = true → isSep g1 = true → isSep g2 = true → isSep g3 = true →
      (∀ p ∈ triples l, p.1 < 4294967296 ∧ isSep p.2 = true) → l.length = w * h →
      fills.flatten = numStream 0x33 g0 ((w, g1) :: (h, g2) :: (m, g3) :: triples l) ++ tail →
      Decode fills = (some ⟨.rgba, 0, 0, w, h,
        l.map (fun t => Color.rgba ((t.1.1 &&& m) * (255 / m)) ((t.2.1.1 &&& m) * (255 / m))
          ((t.2.2.1 &&& m) * (255 / m)) 0xff)⟩, none)) ∧
    (∀ (w h : Nat) (g0 g1 g2 g3 payload : List Nat) (fills : List (List Nat))
      (r1 data rest : List Nat),
      w < 4294967296 → h < 4294967296 → w * h ≤ maxAlloc →
      isSep g0 = true → isSep g1 = true → isSep g2 = true → isSep g3 = true →
      fills.flatten = binStream 0x35 g0 w g1 h g2 m g3 payload →
      space (trimSep g3 ++ payload) = .ok r1 →
      Read (buffered fills r1.length) r1 (List.replicate (w * h) 0) = .ok (data, rest) →
      Decode fills = (some ⟨.gray, 0, 0, w, h,
        data.map (fun d => Color.gray ((d &&& m) * (255 / m)))⟩, none)) ∧
    (∀ (w h : Nat) (g0 g1 g2 g3 payload : List Nat) (fills : List (List Nat))
      (r1 rest : List Nat) (l : List (Nat × Nat × Nat)),
      w < 4294967296 → h < 4294967296 → 4 * w * h ≤ maxAlloc →
      isSep g0 = true → isSep g1 = true → isSep g2 = true → isSep g3 = true →
      fills.flatten = binStream 0x36 g0 w g1 h g2 m g3 payload →
      space (trimSep g3 ++ payload) = .ok r1 →
      Read (buffered fills r1.length) r1 (List.replicate (w * h * 3) 0) =
        .ok (triples l, rest) →
      Decode fills = (some ⟨.rgba, 0, 0, w, h,
        l.map (fun t => Color.rgba ((t.1 &&& m) * (255 / m)) ((t.2.1 &&& m) * (255 / m))
          ((t.2.2 &&& m) * (255 / m)) 0xff)⟩, none)) ∧
    (∀ (w h : Nat) (g0 g1 g2 ws data tail : List Nat) (fills : List (List Nat)),
      0 < w → w < 4294967296 → 0 < h → h < 4294967296 → w * h ≤ maxAlloc →
      isSep g0 = true → isSep g1 = true → isSep g2 = true →
      ws ≠ [] → ws.all isSpace = true → data.length = w * h →
      (∀ d, data.head? = some d → isSpace d = false) →
      fills.flatten = binStream 0x35 g0 w g1 h g2 m ws (data ++ tail) →
      data.length ≤ buffered fills (data ++ tail).length →
      Decode fills = (some ⟨.gray, 0, 0, w, h,
        data.map (fun d => Color.gray ((d &&& m) * (255 / m)))⟩, none)) ∧
    (∀ (w h : Nat) (g0 g1 g2 ws tail : List Nat) (l : List (Nat × Nat × Nat))
      (fills : List (List Nat)),
      0 < w → w < 4294967296 → 0 < h → h < 4294967296 → 4 * w * h ≤ maxAlloc →
      isSep g0 = true → isSep g1 = true → isSep g2 = true →
      ws ≠ [] → ws.all isSpace = true → l.length = w * h →
      (∀ d, (triples l).head? = some d → isSpace d = false) →
      fills.flatten = binStream 0x36 g0 w g1 h g2 m ws (triples l ++ tail) →
      (triples l).length ≤ buffered fills (triples l ++ tail).length →
      Decode fills = (some ⟨.rgba, 0, 0, w, h,
        l.map (fun t => Color.rgba ((t.1 &&& m) * (255 / m)) ((t.2.1 &&& m) * (255 / m))
          ((t.2.2 &&& m) * (255 / m)) 0xff)⟩, none)) ∧
    Decode [[0x50, 0x35, 0x0a, 0x32, 0x20, 0x31, 0x0a, 0x31, 0x35, 0x0a, 0x0f, 0x03]] =
      (some ⟨.gray, 0, 0, 2, 1, [.gray 255, .gray 51]⟩, none) := by
  refine ⟨(Nat.one_le_div_iff (by omega)).2 hm2, fun s => rescale_le m s, ?_, ?_, ?_, ?_, ?_, ?_,
    by decide⟩
  · intro w h g0 g1 g2 g3 tail l fills hw hh hb h0 h1 h2 h3 hl hlen hf
    exact Decode_P2_samples w h m g0 g1 g2 g3 tail l fills hw hh hb (by omega) (by omega)
      h0 h1 h2 h3 hl hlen hf
  · intro w h g0 g1 g2 g3 tail l fills hw hh hb h0 h1 h2 h3 hl hlen hf
    exact Decode_P3_samples w h m g0 g1 g2 g3 tail l fills hw hh hb (by omega) (by omega)
      h0 h1 h2 h3 hl hlen hf
  · intro w h g0 g1 g2 g3 payload fills r1 data rest hw hh hb h0 h1 h2 h3 hf hs hr
    exact Decode_P5_samples w h m g0 g1 g2 g3 payload fills r1 data rest hw hh hb hm1 hm2
      h0 h1 h2 h3 hf hs hr
  · intro w h g0 g1 g2 g3 payload fills r1 rest l hw hh hb h0 h1 h2 h3 hf hs hr
    exact Decode_P6_samples w h m g0 g1 g2 g3 payload fills r1 rest l hw hh hb hm1 hm2
      h0 h1 h2 h3 hf hs hr
  · intro w h g0 g1 g2 ws data tail fills hw0 hw hh0 hh hb h0 h1 h2 hne hws hlen hd hf hbuf
    obtain ⟨h3, hs, hr⟩ := payload_Read fills (w * h) ws hne hws data tail hlen
      (Nat.mul_pos hw0 hh0) hd hbuf
    exact Decode_P5_samples w h m g0 g1 g2 ws (data ++ tail) fills _ data tail hw hh hb
      hm1 hm2 h0 h1 h2 h3 hf hs hr
  · intro w h g0 g1 g2 ws tail l fills hw0 hw hh0 hh hb h0 h1 h2 hne hws hlen hd hf hbuf
    have hlen3 : (triples l).length = w * h * 3 := by
      rw [triples_length, hlen]
      omega
    obtain ⟨h3, hs, hr⟩ := payload_Read fills (w * h * 3) ws hne hws (triples l) tail hlen3
      (Nat.mul_pos (Nat.mul_pos hw0 hh0) (by omega)) hd hbuf
    exact Decode_P6_samples w h m g0 g1 g2 ws (triples l ++ tail) fills _ tail l hw hh hb
      hm1 hm2 h0 h1 h2 h3 hf hs hr

theorem masked_rescale_witness :
    (1 ≤ 15 ∧ 15 ≤ 255) ∧ (0x03 &&& 15) * (255 / 15) ≤ 255 ∧
    Decode [[0x50, 0x32, 0x0a, 0x32, 0x20, 0x31, 0x0a, 0x31], [0x35, 0x0a, 0x31, 0x35, 0x20,
        0x31, 0x39], [0x0a]] =
      (some ⟨.gray, 0, 0, 2, 1, [(15, [0x20]), (19, [(0x0a : Nat)])].map
        (fun p => Color.gray ((p.1 &&& 15) * (255 / 15)))⟩, none) ∧
    Decode [[0x50, 0x33, 0x0a, 0x31, 0x20, 0x31, 0x0a, 0x31, 0x35, 0x0a, 0x31, 0x35, 0x20],
        [0x33, 0x20, 0x32, 0x35, 0x35, 0x0a]] =
      (some ⟨.rgba, 0, 0, 1, 1, [((15, [0x20]), (3, [0x20]), (255, [(0x0a : Nat)]))].map
        (fun t => Color.rgba ((t.1.1 &&& 15) * (255 / 15)) ((t.2.1.1 &&& 15) * (255 / 15))
          ((t.2.2.1 &&& 15) * (255 / 15)) 0xff)⟩, none) ∧
    Decode [[0x50, 0x35, 0x0a, 0x32, 0x20, 0x31, 0x0a], [0x31, 0x35, 0x0a, 0x0f, 0x03]] =
      (some ⟨.gray, 0, 0, 2, 1,
        [0x0f, 0x03].map (fun d => Color.gray ((d &&& 15) * (255 / 15)))⟩, none) ∧
    Decode [[0x50, 0x36, 0x0a, 0x31, 0x20, 0x31, 0x0a], [0x31, 0x35, 0x0a, 0xff, 0x20, 0x03]] =
      (some ⟨.rgba, 0, 0, 1, 1, [(0xff, 0x20, 0x03)].map
        (fun t => Color.rgba ((t.1 &&& 15) * (255 / 15)) ((t.2.1 &&& 15) * (255 / 15))
          ((t.2.2 &&& 15) * (255 / 15)) 0xff)⟩, none) :=
  ⟨by decide, (masked_rescale 15 (by decide) (by decide)).2.1 0x03,
    (masked_rescale 15 (by decide) (by decide)).2.2.1 2 1 [0x0a] [0x20] [0x0a] [0x0a] []
      [(15, [0x20]), (19, [0x0a])]
      [[0x50, 0x32, 0x0a, 0x32, 0x20, 0x31, 0x0a, 0x31], [0x35, 0x0a, 0x31, 0x35, 0x20, 0x31,
        0x39], [0x0a]]
      (by decide) (by decide) (by decide) (by decide) (by decide) (by decide) (by decide)
      (by decide) (by decide) (by decide),
    (masked_rescale 15 (by decide) (by decide)).2.2.2.1 1 1 [0x0a] [0x20] [0x0a] [0x0a] []
      [((15, [0x20]), (3, [0x20]), (255, [0x0a]))]
      [[0x50, 0x33, 0x0a, 0x31, 0x20, 0x31, 0x0a, 0x31, 0x35, 0x0a, 0x31, 0x35, 0x20],
        [0x33, 0x20, 0x32, 0x35, 0x35, 0x0a]]
      (by decide) (by decide) (by decide) (by decide) (by decide) (by decide) (by decide)
      (by decide) (by decide) (by decide),
    (masked_rescale 15 (by decide) (by decide)).2.2.2.2.2.2.1 2 1 [0x0a] [0x20] [0x0a] [0x0a]
      [0x0f, 0x03] []
      [[0x50, 0x35, 0x0a, 0x32, 0x20, 0x31, 0x0a], [0x31, 0x35, 0x0a, 0x0f, 0x03]]
      (by decide) (by decide) (by decide) (by decide) (by decide) (by decide) (by decide)
      (by decide) (by decide) (by decide) (by decide) (by decide) (by decide) (by decide),
    (masked_rescale 15 (by decide) (by decide)).2.2.2.2.2.2.2.1 1 1 [0x0a] [0x20] [0x0a] [0x0a]
      [] [(0xff, 0x20, 0x03)]
      [[0x50, 0x36, 0x0a, 0x31, 0x20, 0x31, 0x0a], [0x31, 0x35, 0x0a, 0xff, 0x20, 0x03]]
      (by decide) (by decide) (by decide) (by decide) (by decide) (by decide) (by decide)
      (by decide) (by decide) (by decide) (by decide) (by decide) (by decide) (by decide)⟩

/-- Claim C8: for an index `i` below 0 or at least `8 * len(b)`, `Set(i)` returns
with every byte of `b` unchanged and `Test(i)` returns false; both return
normally, so neither indexes outside the slice. -/
theorem bitset_out_of_range (b : List Nat) (i : Int) (h : i < 0 ∨ i ≥ 8 * (b.length : Int)) :
    bitset.Set b i = .ok b ∧ bitset.Test b i = .ok false := by
  have hw : i < 0 ∨ Int.tdiv i 8 ≥ b.length := by
    rcases h with h | h
    · exact Or.inl h
    · right
      rw [Int.tdiv_eq_ediv (by omega) (by omega)]
      omega
  constructor
  · simp only [bitset.Set]
    rw [if_pos hw]
  · simp only [bitset.Test]
    rw [if_neg]
    omega

theorem bitset_out_of_range_witness :
    (bitset.Set [0xff, 0x01] 16 = .ok [0xff, 0x01] ∧ bitset.Test [0xff, 0x01] 16 = .ok false) ∧
    (bitset.Set [0xff, 0x01] (-1) = .ok [0xff, 0x01] ∧
      bitset.Test [0xff, 0x01] (-1) = .ok false) :=
  ⟨bitset_out_of_range [0xff, 0x01] 16 (by decide),
    bitset_out_of_range [0xff, 0x01] (-1) (by decide)⟩

/-- Claim C10: when `Decode` returns no error on a stream, in whatever pieces
the stream arrives, it returns an image, the second and third tokens of the
stream are numbers, the width and the height of the image, and `DecodeConfig`
returns no error on the same stream, with `Width` and `Height` equal to
them. -/
theorem DecodeConfig_of_Decode (fills : List (List Nat)) (h : (Decode fills).2 = none) :
    ∃ img format r1 r2 r3, (Decode fills).1 = some img ∧
      readS fills.flatten = .ok (format, r1) ∧ readU r1 = .ok (img.width, r2) ∧
      readU r2 = .ok (img.height, r3) ∧
      DecodeConfig fills = (⟨img.width, img.height⟩, none) := by
  unfold Decode at h ⊢
  unfold DecodeConfig
  cases hs : readS fills.flatten with
  | error e => rw [hs] at h; simp at h
  | ok v =>
    obtain ⟨format, r1⟩ := v
    rw [hs] at h
    simp only [] at h ⊢
    cases hw : readU r1 with
    | error e => rw [hw] at h; simp at h
    | ok v =>
      obtain ⟨width, r2⟩ := v
      rw [hw] at h
      simp only [] at h ⊢
      cases hh : readU r2 with
      | error e => rw [hh] at h; simp at h
      | ok v =>
        obtain ⟨height, r3⟩ := v
        rw [hh] at h
        simp only [] at h ⊢
        have d1 : (decodeP1 r3 (Image.blank .alpha width height) width height).1.width = width ∧
            (decodeP1 r3 (Image.blank .alpha width height) width height).1.height = height :=
          decodeP1_dims r3 (Image.blank .alpha width height) width height
        have d2 : (decodeP2 r3 (Image.blank .gray width height) width height).1.width = width ∧
            (decodeP2 r3 (Image.blank .gray width height) width height).1.height = height :=
          decodeP2_dims r3 (Image.blank .gray width height) width height
        have d3 : (decodeP3 r3 (Image.blank .rgba width height) width height).1.width = width ∧
            (decodeP3 r3 (Image.blank .rgba width height) width height).1.height = height :=
          decodeP3_dims r3 (Image.blank .rgba width height) width height
        have d4 : (decodeP4 fills r3 (Image.blank .alpha width height) width height).1.width =
              width ∧
            (decodeP4 fills r3 (Image.blank .alpha width height) width height).1.height =
              height :=
          decodeP4_dims fills r3 (Image.blank .alpha width height) width height
        have d5 : (decodeP5 fills r3 (Image.blank .gray width height) width height).1.width =
              width ∧
            (decodeP5 fills r3 (Image.blank .gray width height) width height).1.height =
              height :=
          decodeP5_dims fills r3 (Image.blank .gray width height) width height
        have d6 : (decodeP6 fills r3 (Image.blank .rgba width height) width height).1.width =
              width ∧
            (decodeP6 fills r3 (Image.blank .rgba width height) width height).1.height =
              height :=
          decodeP6_dims fills r3 (Image.blank .rgba width height) width height
        by_cases f1 : format = [0x50, 0x31]
        · simp only [f1, if_true, true_or] at h ⊢
          cases hn : Image.new .alpha width height with
          | error e => rw [hn] at h; simp at h
          | ok img =>
            obtain ⟨rfl, _⟩ := Image.new_eq_ok _ _ _ _ hn
            exact ⟨_, _, _, r2, r3, rfl, rfl, by rw [d1.1]; first | rfl | exact hw,
              by rw [d1.2]; first | rfl | exact hh, by rw [d1.1, d1.2]⟩
        by_cases f2 : format = [0x50, 0x32]
        · simp only [f1, f2, if_true, if_false, true_or, or_true] at h ⊢
          cases hn : Image.new .gray width height with
          | error e => rw [hn] at h; simp at h
          | ok img =>
            obtain ⟨rfl, _⟩ := Image.new_eq_ok _ _ _ _ hn
            exact ⟨_, _, _, r2, r3, rfl, rfl, by rw [d2.1]; first | rfl | exact hw,
              by rw [d2.2]; first | rfl | exact hh, by rw [d2.1, d2.2]⟩
        by_cases f3 : format = [0x50, 0x33]
        · simp only [f1, f2, f3, if_true, if_false, true_or, or_true] at h ⊢
          cases hn : Image.new .rgba width height with
          | error e => rw [hn] at h; simp at h
          | ok img =>
            obtain ⟨rfl, _⟩ := Image.new_eq_ok _ _ _ _ hn
            exact ⟨_, _, _, r2, r3, rfl, rfl, by rw [d3.1]; first | rfl | exact hw,
              by rw [d3.2]; first | rfl | exact hh, by rw [d3.1, d3.2]⟩
        by_cases f4 : format = [0x50, 0x34]
        · simp only [f1, f2, f3, f4, if_true, if_false, true_or, or_true] at h ⊢
          cases hn : Image.new .alpha width height with
          | error e => rw [hn] at h; simp at h
          | ok img =>
            obtain ⟨rfl, _⟩ := Image.new_eq_ok _ _ _ _ hn
            exact ⟨_, _, _, r2, r3, rfl, rfl, by rw [d4.1]; first | rfl | exact hw,
              by rw [d4.2]; first | rfl | exact hh, by rw [d4.1, d4.2]⟩
        by_cases f5 : format = [0x50, 0x35]
        · simp only [f1, f2, f3, f4, f5, if_true, if_false, true_or, or_true] at h ⊢
          cases hn : Image.new .gray width height with
          | error e => rw [hn] at h; simp at h
          | ok img =>
            obtain ⟨rfl, _⟩ := Image.new_eq_ok _ _ _ _ hn
            exact ⟨_, _, _, r2, r3, rfl, rfl, by rw [d5.1]; first | rfl | exact hw,
              by rw [d5.2]; first | rfl | exact hh, by rw [d5.1, d5.2]⟩
        by_cases f6 : format = [0x50, 0x36]
        · simp only [f1, f2, f3, f4, f5, f6, if_true, if_false, true_or, or_true] at h ⊢
          cases hn : Image.new .rgba width height with
          | error e => rw [hn] at h; simp at h
          | ok img =>
            obtain ⟨rfl, _⟩ := Image.new_eq_ok _ _ _ _ hn
            exact ⟨_, _, _, r2, r3, rfl, rfl, by rw [d6.1]; first | rfl | exact hw,
              by rw [d6.2]; first | rfl | exact hh, by rw [d6.1, d6.2]⟩
        · simp [f1, f2, f3, f4, f5, f6] at h

theorem DecodeConfig_of_Decode_witness :
    (Decode [[0x50, 0x31, 0x0a, 0x33, 0x20, 0x32], [0x0a, 0x31, 0x20, 0x30, 0x20, 0x31, 0x0a,
        0x30, 0x20, 0x31, 0x20, 0x30, 0x0a]]).2 = none ∧
    ∃ img format r1 r2 r3,
      (Decode [[0x50, 0x31, 0x0a, 0x33, 0x20, 0x32], [0x0a, 0x31, 0x20, 0x30, 0x20, 0x31, 0x0a,
        0x30, 0x20, 0x31, 0x20, 0x30, 0x0a]]).1 = some img ∧
      readS (List.flatten [[0x50, 0x31, 0x0a, 0x33, 0x20, 0x32], [0x0a, 0x31, 0x20, 0x30, 0x20,
        0x31, 0x0a, 0x30, 0x20, 0x31, 0x20, 0x30, 0x0a]]) = .ok (format, r1) ∧
      readU r1 = .ok (img.width, r2) ∧ readU r2 = .ok (img.height, r3) ∧
      DecodeConfig [[0x50, 0x31, 0x0a, 0x33, 0x20, 0x32], [0x0a, 0x31, 0x20, 0x30, 0x20, 0x31,
        0x0a, 0x30, 0x20, 0x31, 0x20, 0x30, 0x0a]] = (⟨img.width, img.height⟩, none) :=
  ⟨by decide, DecodeConfig_of_Decode _ (by decide)⟩

/-- Claim C2, at the 1 x 1 image with the pixel `(0x0A, 0x14, 0x1E)`: `Encode`
writes `"P6\n1 1\n255\n"` and the bytes `0A 14 1E`; `Decode` of these bytes,
delivered in one piece, returns no error and the pixel `(0x14, 0x1E, 0x00)`,
because `space` takes the sample byte `0A` for whitespace. -/
theorem encodeP6_Decode_whitespace :
    Encode ⟨.rgba, 0, 0, 1, 1, [.rgba 0x0a 0x14 0x1e 0xff]⟩ PixmapBinary =
      ([0x50, 0x36, 0x0a, 0x31, 0x20, 0x31, 0x0a, 0x32, 0x35, 0x35, 0x0a, 0x0a, 0x14, 0x1e],
        none) ∧
    Decode [(Encode ⟨.rgba, 0, 0, 1, 1, [.rgba 0x0a 0x14 0x1e 0xff]⟩ PixmapBinary).1] =
      (some ⟨.rgba, 0, 0, 1, 1, [.rgba 0x14 0x1e 0x00 0xff]⟩, none) := by
  decide

/-- Claim C3, at the 1 x 1 image with the pixel `0xFF`: `Encode` writes
`"P4\n1 1\n"` and the byte `00`, because `Set(0)` sets no bit, and `Decode`
of these bytes, delivered in one piece, returns the pixel `0x00`. -/
theorem encodeP4_Decode_column0 :
    Encode ⟨.alpha, 0, 0, 1, 1, [.alpha 0xff]⟩ BitmapBinary =
      ([0x50, 0x34, 0x0a, 0x31, 0x20, 0x31, 0x0a, 0x00], none) ∧
    Decode [(Encode ⟨.alpha, 0, 0, 1, 1, [.alpha 0xff]⟩ BitmapBinary).1] =
      (some ⟨.alpha, 0, 0, 1, 1, [.alpha 0x00]⟩, none) := by
  decide

/-- Claim C5, at the test data, each stream delivered in one piece: `Decode`
succeeds on the `P4` and on the `P1` test case, both 6 x 10, but in row 0 the `P4` payload byte `08` gives pixel 4
transparent and pixel 5 set, where the `P1` letter J has pixel 4 set and
pixel 5 transparent; and the 8 x 1 payload `80` decodes to pixel 1 set, not
pixel 0. -/
theorem decodeP4_testP4 :
    (Decode [testP4]).2 = none ∧ (Decode [testP1]).2 = none ∧
    (Decode [testP4]).1.map (fun m => (m.width, m.height, m.At 4 0, m.At 5 0)) =
      some (6, 10, .alpha 0x00, .alpha 0xff) ∧
    (Decode [testP1]).1.map (fun m => (m.width, m.height, m.At 4 0, m.At 5 0)) =
      some (6, 10, .alpha 0xff, .alpha 0x00) ∧
    Decode [[0x50, 0x34, 0x0a, 0x38, 0x20, 0x31, 0x0a, 0x80]] =
      (some ⟨.alpha, 0, 0, 8, 1, [.alpha 0, .alpha 0xff, .alpha 0, .alpha 0, .alpha 0, .alpha 0,
        .alpha 0, .alpha 0]⟩, none) := by
  decide!

/-- Claim C7, at a zero byte: `Set(0)` and `Set(8)` set no bit at all, `Set(1)`
sets the mask `0x80` and `Set(7)` the mask `0x02`, where the claim has the
masks `0x80`, `0x80`, `0x40` and `0x01`. -/
theorem bitset_Set_positions :
    bitset.Set [0x00] 0 = .ok [0x00] ∧ bitset.Set [0x00] 1 = .ok [0x80] ∧
    bitset.Set [0x00] 7 = .ok [0x02] ∧ bitset.Set [0x00, 0x00] 8 = .ok [0x00, 0x00] := by
  decide

/-- Claim C9, at two 2 x 2 `P4` streams with the payloads `00 80` and `20 80`,
which differ in one padding bit of row 0 only, each delivered in one piece:
`Decode` returns the pixels
`00 00 / 00 FF` for the first and `00 FF / 00 00` for the second, because
`space` takes the payload byte `20` for whitespace. -/
theorem decodeP4_padding :
    Decode [[0x50, 0x34, 0x0a, 0x32, 0x20, 0x32, 0x0a, 0x00, 0x80]] =
      (some ⟨.alpha, 0, 0, 2, 2, [.alpha 0, .alpha 0, .alpha 0, .alpha 0xff]⟩, none) ∧
    Decode [[0x50, 0x34, 0x0a, 0x32, 0x20, 0x32, 0x0a, 0x20, 0x80]] =
      (some ⟨.alpha, 0, 0, 2, 2, [.alpha 0, .alpha 0xff, .alpha 0, .alpha 0]⟩, none) := by
  decide

/-- Claim C6, amended with the bound of `ParseUint` and the limit on the pixel
buffer: for `0 < w < 2^32` and `0 < h < 2^32` with `w * h` at most `maxAlloc`
(`2^48`), a stream made of the token `P1`, the decimal tokens `w` and `h` and
`w * h` tokens `0` or `1`, each token followed by a separator (whitespace and
comments, at least one byte), in whatever pieces the reader delivers it,
decodes without error to the `w` x `h` alpha image whose pixel `(x, y)` is
`0xFF` when token number `y * w + x` is `1` and `0x00` when it is `0`; and
`"P1\\n# comment\\n3 2\\n1 0 1\\n0 1 0\\n"` decodes to FF 00 FF / 00 FF 00. -/
theorem Decode_p1Stream (w h : Nat) (g0 g1 g2 : List Nat) (l : List (Bool × List Nat))
    (fills : List (List Nat))
    (_hw0 : 0 < w) (hw : w < 4294967296) (_hh0 : 0 < h) (hh : h < 4294967296)
    (hb : w * h ≤ maxAlloc)
    (h0 : isSep g0 = true) (h1 : isSep g1 = true) (h2 : isSep g2 = true)
    (hsep : ∀ p ∈ l, isSep p.2 = true) (hl : l.length = w * h)
    (hf : fills.flatten = p1Stream w h g0 g1 g2 l) :
    (∃ img, Decode fills = (some img, none) ∧
      img.model = .alpha ∧ img.width = w ∧ img.height = h ∧
      img.pix = l.map (fun p => Color.alpha (if p.1 then 0xff else 0x00)) ∧
      ∀ (x y : Nat) (p : Bool × List Nat), x < w → y < h → l[y * w + x]? = some p →
        img.At x y = Color.alpha (if p.1 then 0xff else 0x00)) ∧
    Decode [[0x50, 0x31, 0x0a, 0x23, 0x20, 0x63, 0x6f, 0x6d, 0x6d, 0x65, 0x6e, 0x74, 0x0a,
        0x33, 0x20, 0x32, 0x0a, 0x31, 0x20, 0x30, 0x20, 0x31, 0x0a, 0x30, 0x20, 0x31, 0x20,
        0x30, 0x0a]] =
      (some ⟨.alpha, 0, 0, 3, 2, [.alpha 0xff, .alpha 0x00, .alpha 0xff,
        .alpha 0x00, .alpha 0xff, .alpha 0x00]⟩, none) := by
  refine ⟨⟨_, Decode_p1Stream_general w h g0 g1 g2 l hw hh h0 h1 h2 hsep hl hb fills hf,
    rfl, rfl, rfl, rfl, ?_⟩, by decide⟩
  intro x y p hx hy hp
  rw [Image.At_row_major _ w h _ x y hx hy, List.getD_eq_getElem?_getD, List.getElem?_map, hp]
  rfl

theorem Decode_p1Stream_witness :
    (0 < 3 ∧ 3 < 4294967296 ∧ 0 < 2 ∧ 2 < 4294967296 ∧ 3 * 2 ≤ maxAlloc) ∧
    List.flatten [[0x50, 0x31, 0x0a, 0x23, 0x20, 0x63, 0x0a, 0x33, 0x20, 0x32, 0x0a, 0x31],
        [0x20, 0x30, 0x20, 0x31, 0x0a, 0x30, 0x20], [0x31, 0x20, 0x30, 0x0a]] =
      p1Stream 3 2 [0x0a, 0x23, 0x20, 0x63, 0x0a] [0x20] [0x0a]
        [(true, [0x20]), (false, [0x20]), (true, [0x0a]),
          (false, [0x20]), (true, [0x20]), (false, [0x0a])] ∧
    ((∃ img, Decode [[0x50, 0x31, 0x0a, 0x23, 0x20, 0x63, 0x0a, 0x33, 0x20, 0x32, 0x0a, 0x31],
        [0x20, 0x30, 0x20, 0x31, 0x0a, 0x30, 0x20], [0x31, 0x20, 0x30, 0x0a]] =
        (some img, none) ∧
      img.model = .alpha ∧ img.width = 3 ∧ img.height = 2 ∧
      img.pix = [(true, [0x20]), (false, [0x20]), (true, [0x0a]),
          (false, [0x20]), (true, [0x20]), (false, [0x0a])].map
            (fun p => Color.alpha (if p.1 then 0xff else 0x00)) ∧
      ∀ (x y : Nat) (p : Bool × List Nat), x < 3 → y < 2 →
        [(true, [0x20]), (false, [0x20]), (true, [0x0a]),
          (false, [0x20]), (true, [0x20]), (false, [(0x0a : Nat)])][y * 3 + x]? = some p →
        img.At x y = Color.alpha (if p.1 then 0xff else 0x00)) ∧
    Decode [[0x50, 0x31, 0x0a, 0x23, 0x20, 0x63, 0x6f, 0x6d, 0x6d, 0x65, 0x6e, 0x74, 0x0a,
        0x33, 0x20, 0x32, 0x0a, 0x31, 0x20, 0x30, 0x20, 0x31, 0x0a, 0x30, 0x20, 0x31, 0x20,
        0x30, 0x0a]] =
      (some ⟨.alpha, 0, 0, 3, 2, [.alpha 0xff, .alpha 0x00, .alpha 0xff,
        .alpha 0x00, .alpha 0xff, .alpha 0x00]⟩, none)) :=
  ⟨by decide, by decide, Decode_p1Stream 3 2 [0x0a, 0x23, 0x20, 0x63, 0x0a] [0x20] [0x0a]
    [(true, [0x20]), (false, [0x20]), (true, [0x0a]),
      (false, [0x20]), (true, [0x20]), (false, [0x0a])]
    [[0x50, 0x31, 0x0a, 0x23, 0x20, 0x63, 0x0a, 0x33, 0x20, 0x32, 0x0a, 0x31],
      [0x20, 0x30, 0x20, 0x31, 0x0a, 0x30, 0x20], [0x31, 0x20, 0x30, 0x0a]]
    (by decide) (by decide) (by decide) (by decide) (by decide) (by decide) (by decide)
    (by decide) (by decide) (by decide) (by decide)⟩

/-- Claim C6 as stated fails at a width of `2^32`: the stream made of `P1`, the tokens
`4294967296` and `1` and `2^32` tokens `1`, each followed by a line feed, is
of the form the claim describes, and `Decode` returns an error and no image,
because `readU` parses numbers with `ParseUint(s, 10, 32)`. -/
theorem Decode_p1Stream_wide :
    (0 < 4294967296 ∧ 0 < 1) ∧
    (List.replicate 4294967296 (true, [0x0a])).length = 4294967296 * 1 ∧
    (∀ p ∈ List.replicate 4294967296 (true, [0x0a]), isSep p.2 = true) ∧
    Decode [p1Stream 4294967296 1 [0x0a] [0x20] [0x0a]
      (List.replicate 4294967296 (true, [0x0a]))] = (none, some .number) := by
  refine ⟨by decide, by rw [List.length_replicate], ?_,
    Decode_width_range _ _ (flatten_one _)⟩
  intro p hp
  rw [(List.mem_replicate.1 hp).2]
  decide

/-- Claim C1, amended with the bound of `ParseUint` and the limit on the pixel
buffer: for every RGB image at the origin with fully opaque byte pixels, width
`0 < w < 2^32` and height `0 < h < 2^32` with `4 * w * h` at most `maxAlloc`
(`2^48`), `Encode(_, img, PixmapAscii)` returns no error and `Decode` of the
bytes written, in whatever pieces the reader delivers them, returns no error
and an image of the same width and height with the same colour, hence the
same R, G and B bytes, at every `(x, y)`: the image itself. -/
theorem Encode_Decode_PixmapAscii (m : Image) (fills : List (List Nat))
    (hm : isOpaqueRGB m = true)
    (hw0 : 0 < m.width) (hw : m.width < 4294967296)
    (_hh0 : 0 < m.height) (hh : m.height < 4294967296)
    (hb : 4 * m.width * m.height ≤ maxAlloc)
    (hf : fills.flatten = (Encode m PixmapAscii).1) :
    (Encode m PixmapAscii).2 = none ∧
    ∃ img, Decode fills = (some img, none) ∧
      img.width = m.width ∧ img.height = m.height ∧
      (∀ x y : Int, img.At x y = m.At x y) ∧ img = m := by
  obtain ⟨model, minX, minY, w, h, pix⟩ := m
  simp only [isOpaqueRGB, Bool.and_eq_true, beq_iff_eq, List.all_eq_true] at hm
  obtain ⟨⟨⟨⟨h1, h2⟩, h3⟩, h4⟩, h5⟩ := hm
  simp only at h1 h2 h3 h4 hw0 hw hh hb
  subst h1 h2 h3
  have hpix : ∀ c ∈ pix, ∃ r g b, c = .rgba r g b 0xff ∧ r < 256 ∧ g < 256 ∧ b < 256 := by
    intro c hc
    have := h5 c hc
    cases c with
    | alpha a => simp at this
    | gray y => simp at this
    | rgba r g b a =>
      simp only [Bool.and_eq_true, decide_eq_true_eq, beq_iff_eq] at this
      obtain ⟨⟨⟨hr, hg⟩, hb⟩, ha⟩ := this
      exact ⟨r, g, b, by rw [ha], hr, hg, hb⟩
  rw [Encode_PixmapAscii] at hf ⊢
  refine ⟨rfl, _, Decode_encodeP3 w h pix hw0 hw hh h4 hpix hb fills hf, rfl, rfl,
    fun _ _ => rfl, rfl⟩

theorem Encode_Decode_PixmapAscii_witness :
    isOpaqueRGB ⟨.rgba, 0, 0, 2, 1, [.rgba 1 20 255 0xff, .rgba 0 10 32 0xff]⟩ = true ∧
    (Encode ⟨.rgba, 0, 0, 2, 1, [.rgba 1 20 255 0xff, .rgba 0 10 32 0xff]⟩ PixmapAscii).2 =
      none ∧
    List.flatten [[0x50, 0x33, 0x0a, 0x32, 0x20, 0x31, 0x0a, 0x32, 0x35, 0x35, 0x0a, 0x31,
        0x20, 0x32], [0x30, 0x20, 0x32, 0x35, 0x35, 0x20, 0x30, 0x20, 0x31, 0x30, 0x20, 0x33,
        0x32, 0x0a]] =
      (Encode ⟨.rgba, 0, 0, 2, 1, [.rgba 1 20 255 0xff, .rgba 0 10 32 0xff]⟩ PixmapAscii).1 ∧
    ∃ img, Decode [[0x50, 0x33, 0x0a, 0x32, 0x20, 0x31, 0x0a, 0x32, 0x35, 0x35, 0x0a, 0x31,
        0x20, 0x32], [0x30, 0x20, 0x32, 0x35, 0x35, 0x20, 0x30, 0x20, 0x31, 0x30, 0x20, 0x33,
        0x32, 0x0a]] = (some img, none) ∧
      img.width = 2 ∧ img.height = 1 ∧
      (∀ x y : Int, img.At x y =
        Image.At ⟨.rgba, 0, 0, 2, 1, [.rgba 1 20 255 0xff, .rgba 0 10 32 0xff]⟩ x y) ∧
      img = ⟨.rgba, 0, 0, 2, 1, [.rgba 1 20 255 0xff, .rgba 0 10 32 0xff]⟩ :=
  ⟨by decide, (Encode_Decode_PixmapAscii
      ⟨.rgba, 0, 0, 2, 1, [.rgba 1 20 255 0xff, .rgba 0 10 32 0xff]⟩
      [[0x50, 0x33, 0x0a, 0x32, 0x20, 0x31, 0x0a, 0x32, 0x35, 0x35, 0x0a, 0x31, 0x20, 0x32],
        [0x30, 0x20, 0x32, 0x35, 0x35, 0x20, 0x30, 0x20, 0x31, 0x30, 0x20, 0x33, 0x32, 0x0a]]
      (by decide) (by decide) (by decide) (by decide) (by decide) (by decide) (by decide)).1,
    by decide, (Encode_Decode_PixmapAscii
      ⟨.rgba, 0, 0, 2, 1, [.rgba 1 20 255 0xff, .rgba 0 10 32 0xff]⟩
      [[0x50, 0x33, 0x0a, 0x32, 0x20, 0x31, 0x0a, 0x32, 0x35, 0x35, 0x0a, 0x31, 0x20, 0x32],
        [0x30, 0x20, 0x32, 0x35, 0x35, 0x20, 0x30, 0x20, 0x31, 0x30, 0x20, 0x33, 0x32, 0x0a]]
      (by decide) (by decide) (by decide) (by decide) (by decide) (by decide) (by decide)).2⟩

/-- Claim C1 as stated fails at a height of `2^32`: the 1 x `2^32` RGB image at
the origin with every pixel `(0, 0, 0)` fully opaque is encoded without an
error, with the header `"P3\\n1 4294967296\\n255\\n"`, and `Decode` of the bytes
written returns an error and no image, because `readU` parses numbers with
`ParseUint(s, 10, 32)`. -/
theorem Encode_Decode_PixmapAscii_tall :
    isOpaqueRGB ⟨.rgba, 0, 0, 1, 4294967296,
      List.replicate 4294967296 (.rgba 0 0 0 0xff)⟩ = true ∧
    (Encode ⟨.rgba, 0, 0, 1, 4294967296,
      List.replicate 4294967296 (.rgba 0 0 0 0xff)⟩ PixmapAscii).2 = none ∧
    Decode [(Encode ⟨.rgba, 0, 0, 1, 4294967296,
      List.replicate 4294967296 (.rgba 0 0 0 0xff)⟩ PixmapAscii).1] = (none, some .number) := by
  refine ⟨?_, ?_, ?_⟩
  · simp only [isOpaqueRGB, Bool.and_eq_true, beq_iff_eq, List.all_eq_true,
      List.length_replicate]
    refine ⟨by decide, ?_⟩
    intro c hc
    rw [(List.mem_replicate.1 hc).2]
    decide
  · rw [Encode_PixmapAscii]
  · rw [Encode_PixmapAscii, encodeP3_eq _ (by decide)]
    exact Decode_height_range _ _ (flatten_one _)

/-- Claim C11, at two streams that end inside the pixel loop of `decodeP1`:
`"P1\\n1 1\\n"` has no pixel token and `"P1\\n2 1\\n1 "` has one of two;
on each, delivered in one piece, `Decode` returns the error `io.EOF` together with an image that is not nil,
the 1 x 1 image with its pixel unset and the 2 x 1 image with its first pixel
set, where the claim has no image at all; a failure in the header, as in
`"P1\\n1 "`, returns no image. -/
theorem Decode_error_with_image :
    Decode [[0x50, 0x31, 0x0a, 0x31, 0x20, 0x31, 0x0a]] =
      (some ⟨.alpha, 0, 0, 1, 1, [.alpha 0x00]⟩, some .eof) ∧
    Decode [[0x50, 0x31, 0x0a, 0x32, 0x20, 0x31, 0x0a, 0x31, 0x20]] =
      (some ⟨.alpha, 0, 0, 2, 1, [.alpha 0xff, .alpha 0x00]⟩, some .eof) ∧
    Decode [[0x50, 0x31, 0x0a, 0x31, 0x20]] = (none, some .eof) := by
  decide

/-- Claim C12, at the stream `"P6\\n2 2\\n255\\n"` followed by the 5 bytes
`01 02 03 04 05`, where 12 are declared, all delivered in one piece: `Decode`
returns no error and the
2 x 2 image with the pixels `(1, 2, 3)`, `(4, 5, 0)`, `(0, 0, 0)`, `(0, 0, 0)`,
the missing samples filled with zero, where the claim has an error. -/
theorem Decode_short_payload :
    Decode [[0x50, 0x36, 0x0a, 0x32, 0x20, 0x32, 0x0a, 0x32, 0x35, 0x35, 0x0a,
        0x01, 0x02, 0x03, 0x04, 0x05]] =
      (some ⟨.rgba, 0, 0, 2, 2, [.rgba 1 2 3 0xff, .rgba 4 5 0 0xff, .rgba 0 0 0 0xff,
        .rgba 0 0 0 0xff]⟩, none) := by
  decide

/-- Claim C13, at the stream `"P5\\n2 1\\n255\\n"` followed by the payload
`20 07`, and at `"P6\\n1 1\\n255\\n"` followed by `09 0D 07`, each delivered
in one piece: one line feed
follows the maxSample token, and `Decode` consumes the payload bytes `20`, and
`09 0D`, as whitespace too; it returns the gray values 7 and 0, where the
claim has 32 and 7, and the pixel `(7, 0, 0)`, where the claim has
`(9, 13, 7)`. -/
theorem Decode_payload_whitespace :
    Decode [[0x50, 0x35, 0x0a, 0x32, 0x20, 0x31, 0x0a, 0x32, 0x35, 0x35, 0x0a, 0x20, 0x07]] =
      (some ⟨.gray, 0, 0, 2, 1, [.gray 7, .gray 0]⟩, none) ∧
    Decode [[0x50, 0x36, 0x0a, 0x31, 0x20, 0x31, 0x0a, 0x32, 0x35, 0x35, 0x0a,
        0x09, 0x0d, 0x07]] =
      (some ⟨.rgba, 0, 0, 1, 1, [.rgba 7 0 0 0xff]⟩, none) := by
  decide

/-- Claim C14: when the first token of a stream is `P2`, `P3`, `P5` or `P6`, the
next two tokens are numbers `w` and `h` and the fourth token, maxSample, is
the number 0, `Decode` returns an error, in whatever pieces the stream
arrives: the panic of the division `255 / mask`, recovered like every other
panic, when the pixel buffer of the `w` x `h` image (1 byte a pixel for `P2`
and `P5`, 4 for `P3` and `P6`) has at most `maxAlloc` bytes, and the panic of
`image.NewGray` or `image.NewRGBA`, with no image, when it has more. -/
theorem Decode_maxSample_zero (fills : List (List Nat)) (format r1 r2 r3 r4 : List Nat)
    (w h : Nat)
    (hf : format = [0x50, 0x32] ∨ format = [0x50, 0x33] ∨ format = [0x50, 0x35] ∨
      format = [0x50, 0x36])
    (h0 : readS fills.flatten = .ok (format, r1)) (h1 : readU r1 = .ok (w, r2))
    (h2 : readU r2 = .ok (h, r3)) (h3 : readU r3 = .ok (0, r4)) :
    (∃ e, (Decode fills).2 = some e) ∧
    ((if format = [0x50, 0x32] ∨ format = [0x50, 0x35] then 1 else 4) * w * h ≤ maxAlloc →
      (Decode fills).2 = some .divByZero) ∧
    (maxAlloc < (if format = [0x50, 0x32] ∨ format = [0x50, 0x35] then 1 else 4) * w * h →
      Decode fills = (none, some .hugeRect) ∨ Decode fills = (none, some .makeslice)) := by
  have hw := readU_lt h1
  have key : ∀ (model : ColorModel) (dec : Image → Image × Option Err),
      (∀ img, (dec img).2 = some .divByZero) →
      (if format = [0x50, 0x32] ∨ format = [0x50, 0x35] then 1 else 4) =
        model.bytesPerPixel →
      Decode fills = (match Image.new model w h with
        | .error e => (none, some e)
        | .ok img => (some (dec img).1, (dec img).2)) →
      (∃ e, (Decode fills).2 = some e) ∧
      ((if format = [0x50, 0x32] ∨ format = [0x50, 0x35] then 1 else 4) * w * h ≤ maxAlloc →
        (Decode fills).2 = some .divByZero) ∧
      (maxAlloc < (if format = [0x50, 0x32] ∨ format = [0x50, 0x35] then 1 else 4) * w * h →
        Decode fills = (none, some .hugeRect) ∨ Decode fills = (none, some .makeslice)) := by
    intro model dec hdec hbpp hD
    rw [hbpp, hD]
    rcases Image.new_cases model w h hw with ⟨hb, hn⟩ | ⟨hb, hn | hn⟩
    · rw [hn]
      exact ⟨⟨_, hdec _⟩, fun _ => hdec _, fun hgt => absurd hb (by omega)⟩
    · rw [hn]
      exact ⟨⟨_, rfl⟩, fun hle => absurd hle (by omega), fun _ => Or.inl rfl⟩
    · rw [hn]
      exact ⟨⟨_, rfl⟩, fun hle => absurd hle (by omega), fun _ => Or.inr rfl⟩
  rcases hf with hf | hf | hf | hf <;> subst hf
  · refine key .gray (fun img => decodeP2 r3 img w h) ?_ (by decide) ?_
    · intro img
      simp only [decodeP2, h3, if_true]
    · unfold Decode
      rw [h0]
      simp only []
      rw [h1]
      simp only []
      rw [h2]
      simp
  · refine key .rgba (fun img => decodeP3 r3 img w h) ?_ (by decide) ?_
    · intro img
      simp only [decodeP3, h3, if_true]
    · unfold Decode
      rw [h0]
      simp only []
      rw [h1]
      simp only []
      rw [h2]
      simp
  · refine key .gray (fun img => decodeP5 fills r3 img w h) ?_ (by decide) ?_
    · intro img
      simp only [decodeP5, h3, Nat.zero_mod, if_true]
    · unfold Decode
      rw [h0]
      simp only []
      rw [h1]
      simp only []
      rw [h2]
      simp
  · refine key .rgba (fun img => decodeP6 fills r3 img w h) ?_ (by decide) ?_
    · intro img
      simp only [decodeP6, h3, Nat.zero_mod, if_true]
    · unfold Decode
      rw [h0]
      simp only []
      rw [h1]
      simp only []
      rw [h2]
      simp

theorem Decode_maxSample_zero_witness :
    ((∃ e, (Decode [[0x50, 0x32, 0x0a, 0x31, 0x20], [0x31, 0x0a, 0x30, 0x0a, 0x35, 0x0a]]).2 =
        some e) ∧
      ((if [0x50, 0x32] = [0x50, 0x32] ∨ [0x50, 0x32] = [0x50, 0x35] then 1 else 4) * 1 * 1 ≤
          maxAlloc →
        (Decode [[0x50, 0x32, 0x0a, 0x31, 0x20], [0x31, 0x0a, 0x30, 0x0a, 0x35, 0x0a]]).2 =
          some .divByZero) ∧
      (maxAlloc <
          (if [0x50, 0x32] = [0x50, 0x32] ∨ [0x50, 0x32] = [0x50, 0x35] then 1 else 4) * 1 * 1 →
        Decode [[0x50, 0x32, 0x0a, 0x31, 0x20], [0x31, 0x0a, 0x30, 0x0a, 0x35, 0x0a]] =
          (none, some .hugeRect) ∨
        Decode [[0x50, 0x32, 0x0a, 0x31, 0x20], [0x31, 0x0a, 0x30, 0x0a, 0x35, 0x0a]] =
          (none, some .makeslice))) ∧
    (Decode [[0x50, 0x36, 0x0a, 0x31, 0x20, 0x31, 0x0a, 0x30, 0x0a, 0x35, 0x06, 0x07]]).2 =
      some .divByZero ∧
    (Decode [[0x50, 0x36, 0x0a, 0x31, 0x30, 0x30, 0x30, 0x30, 0x30, 0x30, 0x30, 0x30, 0x30,
        0x20, 0x31, 0x30, 0x30, 0x30, 0x30, 0x30, 0x30, 0x30, 0x30, 0x30, 0x0a, 0x30, 0x0a]] =
        (none, some .hugeRect) ∨
      Decode [[0x50, 0x36, 0x0a, 0x31, 0x30, 0x30, 0x30, 0x30, 0x30, 0x30, 0x30, 0x30, 0x30,
        0x20, 0x31, 0x30, 0x30, 0x30, 0x30, 0x30, 0x30, 0x30, 0x30, 0x30, 0x0a, 0x30, 0x0a]] =
        (none, some .makeslice)) :=
  ⟨Decode_maxSample_zero [[0x50, 0x32, 0x0a, 0x31, 0x20], [0x31, 0x0a, 0x30, 0x0a, 0x35, 0x0a]]
      [0x50, 0x32] [0x0a, 0x31, 0x20, 0x31, 0x0a, 0x30, 0x0a, 0x35, 0x0a]
      [0x20, 0x31, 0x0a, 0x30, 0x0a, 0x35, 0x0a] [0x0a, 0x30, 0x0a, 0x35, 0x0a]
      [0x0a, 0x35, 0x0a] 1 1 (by decide) (by decide) (by decide) (by decide) (by decide),
    (Decode_maxSample_zero
      [[0x50, 0x36, 0x0a, 0x31, 0x20, 0x31, 0x0a, 0x30, 0x0a, 0x35, 0x06, 0x07]]
      [0x50, 0x36] [0x0a, 0x31, 0x20, 0x31, 0x0a, 0x30, 0x0a, 0x35, 0x06, 0x07]
      [0x20, 0x31, 0x0a, 0x30, 0x0a, 0x35, 0x06, 0x07] [0x0a, 0x30, 0x0a, 0x35, 0x06, 0x07]
      [0x0a, 0x35, 0x06, 0x07] 1 1 (by decide) (by decide) (by decide) (by decide)
      (by decide)).2.1 (by decide),
    (Decode_maxSample_zero
      [[0x50, 0x36, 0x0a, 0x31, 0x30, 0x30, 0x30, 0x30, 0x30, 0x30, 0x30, 0x30, 0x30,
        0x20, 0x31, 0x30, 0x30, 0x30, 0x30, 0x30, 0x30, 0x30, 0x30, 0x30, 0x0a, 0x30, 0x0a]]
      [0x50, 0x36]
      [0x0a, 0x31, 0x30, 0x30, 0x30, 0x30, 0x30, 0x30, 0x30, 0x30, 0x30,
        0x20, 0x31, 0x30, 0x30, 0x30, 0x30, 0x30, 0x30, 0x30, 0x30, 0x30, 0x0a, 0x30, 0x0a]
      [0x20, 0x31, 0x30, 0x30, 0x30, 0x30, 0x30, 0x30, 0x30, 0x30, 0x30, 0x0a, 0x30, 0x0a]
      [0x0a, 0x30, 0x0a] [0x0a] 1000000000 1000000000
      (by decide) (by decide) (by decide) (by decide) (by decide)).2.2 (by decide)⟩

/-- Claim C15: when the first token of a stream is not one of `P1`, ..., `P6`,
in whatever pieces the stream arrives, `Decode` returns no image and an error, the error of reading the width or the
height or the panic "Unknown PPM format", and `DecodeConfig` returns that
panic as its error; neither error is the recursion bound of the model.  For
the stream `"P9\\n"` the errors are `io.EOF` and the panic. -/
theorem Decode_unknown_format (fills : List (List Nat)) (format r1 : List Nat)
    (h0 : readS fills.flatten = .ok (format, r1))
    (hf : format ≠ [0x50, 0x31] ∧ format ≠ [0x50, 0x32] ∧ format ≠ [0x50, 0x33] ∧
      format ≠ [0x50, 0x34] ∧ format ≠ [0x50, 0x35] ∧ format ≠ [0x50, 0x36]) :
    (Decode fills).1 = none ∧
    (∃ e, (Decode fills).2 = some e ∧ e ≠ .fuel) ∧
    (DecodeConfig fills).2 = some .unknownFormat ∧
    Decode [[0x50, 0x39, 0x0a]] = (none, some .eof) ∧
    (DecodeConfig [[0x50, 0x39, 0x0a]]).2 = some .unknownFormat := by
  obtain ⟨f1, f2, f3, f4, f5, f6⟩ := hf
  refine ⟨?_, ?_, ?_, by decide, by decide⟩
  · unfold Decode
    rw [h0]
    simp only []
    cases h1 : readU r1 with
    | error e => rfl
    | ok v =>
      obtain ⟨w, r2⟩ := v
      simp only []
      cases h2 : readU r2 with
      | error e => rfl
      | ok v =>
        obtain ⟨h, r3⟩ := v
        simp only []
        rw [if_neg f1, if_neg f2, if_neg f3, if_neg f4, if_neg f5, if_neg f6]
  · unfold Decode
    rw [h0]
    simp only []
    cases h1 : readU r1 with
    | error e =>
      refine ⟨e, rfl, ?_⟩
      intro he
      rw [he] at h1
      exact readU_ne_fuel r1 h1
    | ok v =>
      obtain ⟨w, r2⟩ := v
      simp only []
      cases h2 : readU r2 with
      | error e =>
        refine ⟨e, rfl, ?_⟩
        intro he
        rw [he] at h2
        exact readU_ne_fuel r2 h2
      | ok v =>
        obtain ⟨h, r3⟩ := v
        simp only []
        rw [if_neg f1, if_neg f2, if_neg f3, if_neg f4, if_neg f5, if_neg f6]
        exact ⟨.unknownFormat, rfl, by decide⟩
  · unfold DecodeConfig
    rw [h0]
    simp only []
    rw [if_neg (by simp [f1, f2, f3, f4, f5, f6])]

theorem Decode_unknown_format_witness :
    (Decode [[0x50, 0x39, 0x0a, 0x31, 0x20, 0x31, 0x0a, 0x31, 0x0a]]).1 = none ∧
    (∃ e, (Decode [[0x50, 0x39, 0x0a, 0x31, 0x20, 0x31, 0x0a, 0x31, 0x0a]]).2 = some e ∧
      e ≠ .fuel) ∧
    (DecodeConfig [[0x50, 0x39, 0x0a, 0x31, 0x20, 0x31, 0x0a, 0x31, 0x0a]]).2 =
      some .unknownFormat ∧
    Decode [[0x50, 0x39, 0x0a]] = (none, some .eof) ∧
    (DecodeConfig [[0x50, 0x39, 0x0a]]).2 = some .unknownFormat :=
  Decode_unknown_format [[0x50, 0x39, 0x0a, 0x31, 0x20, 0x31, 0x0a, 0x31, 0x0a]] [0x50, 0x39]
    [0x0a, 0x31, 0x20, 0x31, 0x0a, 0x31, 0x0a] (by decide) (by decide)

/-- Claim C16: for every image and every value of the type argument below 0 or
above 5, that is none of the six constants, `Encode` returns the error
"Invalid PPM type" and has written no byte. -/
theorem Encode_invalid_type (m : Image) (ptype : Int) (h : ptype < 0 ∨ ptype > 5) :
    Encode m ptype = ([], some .invalidType) ∧
    ptype ≠ BitmapAscii ∧ ptype ≠ BitmapBinary ∧ ptype ≠ GraymapAscii ∧
    ptype ≠ GraymapBinary ∧ ptype ≠ PixmapAscii ∧ ptype ≠ PixmapBinary := by
  have h1 : ptype ≠ BitmapAscii := by unfold BitmapAscii; omega
  have h2 : ptype ≠ BitmapBinary := by unfold BitmapBinary; omega
  have h3 : ptype ≠ GraymapAscii := by unfold GraymapAscii; omega
  have h4 : ptype ≠ GraymapBinary := by unfold GraymapBinary; omega
  have h5 : ptype ≠ PixmapAscii := by unfold PixmapAscii; omega
  have h6 : ptype ≠ PixmapBinary := by unfold PixmapBinary; omega
  refine ⟨?_, h1, h2, h3, h4, h5, h6⟩
  unfold Encode
  rw [if_neg h1, if_neg h3, if_neg h5, if_neg h2, if_neg h4, if_neg h6]

theorem Encode_invalid_type_witness :
    (Encode ⟨.alpha, 0, 0, 1, 1, [.alpha 0xff]⟩ 6 = ([], some .invalidType) ∧
      (6 : Int) ≠ BitmapAscii ∧ (6 : Int) ≠ BitmapBinary ∧ (6 : Int) ≠ GraymapAscii ∧
      (6 : Int) ≠ GraymapBinary ∧ (6 : Int) ≠ PixmapAscii ∧ (6 : Int) ≠ PixmapBinary) ∧
    (Encode ⟨.alpha, 0, 0, 1, 1, [.alpha 0xff]⟩ (-1) = ([], some .invalidType) ∧
      (-1 : Int) ≠ BitmapAscii ∧ (-1 : Int) ≠ BitmapBinary ∧ (-1 : Int) ≠ GraymapAscii ∧
      (-1 : Int) ≠ GraymapBinary ∧ (-1 : Int) ≠ PixmapAscii ∧ (-1 : Int) ≠ PixmapBinary) :=
  ⟨Encode_invalid_type ⟨.alpha, 0, 0, 1, 1, [.alpha 0xff]⟩ 6 (by decide),
    Encode_invalid_type ⟨.alpha, 0, 0, 1, 1, [.alpha 0xff]⟩ (-1) (by decide)⟩

/-- Claim C17: for every run `t` of bytes that are neither whitespace nor `#`
(empty or not), every comment body `c` without CR and LF, every byte `n` that
is CR or LF and every `rest`, the token reader gives the same result on
`t ++ "#" ++ c ++ [n] ++ rest` as on `t ++ [n] ++ rest`; when `t` is not empty
the result is the token `t` with the reader in front of `n`. -/
theorem read_comment (t c rest : List Nat) (n : Nat) (ht : isTok t = true)
    (hc : ∀ b ∈ c, isNewline b = false) (hn : isNewline n = true) :
    read (t ++ (0x23 :: (c ++ (n :: rest)))) = read (t ++ (n :: rest)) ∧
    (t ≠ [] → read (t ++ (0x23 :: (c ++ (n :: rest)))) = .ok (t, n :: rest)) := by
  obtain ⟨hsep, htrim⟩ := isSep_comment c n hc hn
  have hform : (0x23 :: (c ++ [n])) ++ rest = 0x23 :: (c ++ (n :: rest)) := by simp
  have hn1 : isSep [n] = true := isSep_single (isNewline_isSpace hn)
  have hleft : t ≠ [] → read (t ++ (0x23 :: (c ++ (n :: rest)))) = .ok (t, n :: rest) := by
    intro hne
    have := read_tok [] t (0x23 :: (c ++ [n])) rest rfl ht hne hsep
    rw [htrim, hform] at this
    simpa using this
  refine ⟨?_, hleft⟩
  cases t with
  | nil =>
    have hl : readLoop false [] (0x23 :: (c ++ (n :: rest))) = .ok ([], n :: rest) := by
      have := readLoop_tok [] (0x23 :: (c ++ [n])) rfl hsep [] rest
      rw [htrim, hform] at this
      simpa using this
    rw [List.nil_append, List.nil_append]
    rw [read_eq_readN (n :: rest) (0x23 :: (c ++ (n :: rest))).length
      (by simp only [List.length_cons, List.length_append]; omega)]
    unfold read
    rw [readN, space_of_not_isSpace _ isSpace_hash]
    simp only [hl, List.length_nil, if_true]
  | cons b t =>
    rw [hleft (by simp)]
    have := read_tok [] (b :: t) [n] rest rfl ht (by simp) hn1
    rw [trimSep_single (isNewline_isSpace hn)] at this
    simpa using this.symm

theorem read_comment_witness :
    (read ([0x33, 0x32] ++ (0x23 :: ([0x20, 0x23, 0x78] ++ (0x0d :: [0x34, 0x20])))) =
        read ([0x33, 0x32] ++ (0x0d :: [0x34, 0x20])) ∧
      ([0x33, 0x32] ≠ [] →
        read ([0x33, 0x32] ++ (0x23 :: ([0x20, 0x23, 0x78] ++ (0x0d :: [0x34, 0x20])))) =
          .ok ([0x33, 0x32], 0x0d :: [0x34, 0x20]))) ∧
    (read ([] ++ (0x23 :: ([0x20, 0x23, 0x78] ++ (0x0a :: [0x34, 0x20])))) =
        read ([] ++ (0x0a :: [0x34, 0x20])) ∧
      (([] : List Nat) ≠ [] →
        read ([] ++ (0x23 :: ([0x20, 0x23, 0x78] ++ (0x0a :: [0x34, 0x20])))) =
          .ok ([], 0x0a :: [0x34, 0x20]))) :=
  ⟨read_comment [0x33, 0x32] [0x20, 0x23, 0x78] [0x34, 0x20] 0x0d (by decide) (by decide)
      (by decide),
    read_comment [] [0x20, 0x23, 0x78] [0x34, 0x20] 0x0a (by decide) (by decide) (by decide)⟩

/-- Claim C18: on a stream `ws ++ t ++ [s] ++ rest`, where `ws` is a run of
whitespace bytes (empty or not), `t` a run of bytes that are neither
whitespace nor `#`, not empty, and `s` a whitespace byte, the token reader
returns exactly `t` and leaves the reader at `[s] ++ rest`: the byte `s` is
put back. -/
theorem read_token (ws t rest : List Nat) (s : Nat) (hws : ws.all isSpace = true)
    (ht : isTok t = true) (hne : t ≠ []) (hs : isSpace s = true) :
    read (ws ++ (t ++ (s :: rest))) = .ok (t, s :: rest) := by
  have := read_tok ws t [s] rest (isGapFrom_of_all_isSpace ws hws) ht hne (isSep_single hs)
  rw [trimSep_single hs] at this
  simpa using this

theorem read_token_witness :
    read ([0x20, 0x09, 0x0a, 0x0b, 0x0c, 0x0d] ++ ([0x50, 0x36] ++ (0x0b :: [0x0a, 0x31]))) =
      .ok ([0x50, 0x36], 0x0b :: [0x0a, 0x31]) :=
  read_token [0x20, 0x09, 0x0a, 0x0b, 0x0c, 0x0d] [0x50, 0x36] [0x0a, 0x31] 0x0b (by decide)
    (by decide) (by decide) (by decide)

/-- Claim C19: on every stream the token reader returns, within the recursion
depth the length of the stream allows; what it returns is an error or a token
that is not empty and holds no whitespace byte and no `#`; on a stream made of
whitespace and comments only it returns the error `io.EOF`. -/
theorem read_result (r : List Nat) :
    read r ≠ .error .fuel ∧
    (∀ tok r1, read r = .ok (tok, r1) →
      tok ≠ [] ∧ ∀ b ∈ tok, isSpace b = false ∧ b ≠ 0x23) ∧
    (isBlankFrom false r = true → read r = .error .eof) := by
  refine ⟨read_ne_fuel r, ?_, ?_⟩
  · intro tok r1 h
    obtain ⟨h1, h2⟩ := readN_ok_isTok _ r tok r1 h
    refine ⟨h1, ?_⟩
    intro b hb
    simp only [isTok, List.all_eq_true] at h2
    exact isTokByte_iff.1 (h2 b hb)
  · intro hb
    exact readN_blank r.length r _ (le_refl _) hb (by omega)

theorem read_result_witness :
    (read [0x20, 0x23, 0x20, 0x63, 0x0a, 0x09, 0x23, 0x64] ≠ .error .fuel ∧
      (∀ tok r1, read [0x20, 0x23, 0x20, 0x63, 0x0a, 0x09, 0x23, 0x64] = .ok (tok, r1) →
        tok ≠ [] ∧ ∀ b ∈ tok, isSpace b = false ∧ b ≠ 0x23) ∧
      (isBlankFrom false [0x20, 0x23, 0x20, 0x63, 0x0a, 0x09, 0x23, 0x64] = true →
        read [0x20, 0x23, 0x20, 0x63, 0x0a, 0x09, 0x23, 0x64] = .error .eof)) ∧
    isBlankFrom false [0x20, 0x23, 0x20, 0x63, 0x0a, 0x09, 0x23, 0x64] = true ∧
    read [0x23, 0x63, 0x0a, 0x37, 0x23, 0x64, 0x0a] = .ok ([0x37], [0x0a]) :=
  ⟨read_result [0x20, 0x23, 0x20, 0x63, 0x0a, 0x09, 0x23, 0x64], by decide, by decide⟩

/-- Claim C20: when the input ends right after the bytes of a token, with
whitespace and comments or nothing in front of the token, the token reader
returns the error `io.EOF` and not the token; hence `Decode` returns an error
on every `P1`, `P2` or `P3` stream made of the header tokens and the samples
of a `w` x `h` image, `w > 0` and `h > 0`, with a separator after every token
but the last sample, in whatever pieces the stream arrives: the error is
`io.EOF` when all the numbers are below `2^32`, maxSample is not 0 and the
pixel buffer of the image has at most `maxAlloc` bytes, and an error of
`ParseUint`, the division by zero or a panic of `image.New...` otherwise;
`"P1\\n1 1\\n1"` is such a stream. -/
theorem read_eof_token (g t : List Nat) (hg : isGapFrom false g = true) (ht : isTok t = true)
    (w h m last : Nat) (g0 g1 g2 g3 : List Nat) (l l3 : List (Nat × List Nat))
    (hw0 : 0 < w) (hh0 : 0 < h)
    (h0 : isSep g0 = true) (h1 : isSep g1 = true) (h2 : isSep g2 = true)
    (h3 : isSep g3 = true)
    (hl : ∀ p ∈ l, isSep p.2 = true) (hlen : l.length + 1 = w * h)
    (hl3 : ∀ p ∈ l3, isSep p.2 = true) (hlen3 : l3.length + 1 = 3 * (w * h)) :
    read (g ++ t) = .error .eof ∧
    (∀ fills : List (List Nat),
      fills.flatten = asciiStream 0x31 g0 ((w, g1) :: (h, g2) :: l) last →
      ∃ e, (Decode fills).2 = some e ∧
        (e = .eof ∨ e = .number ∨ e = .divByZero ∨ e = .hugeRect ∨ e = .makeslice)) ∧
    (∀ fills : List (List Nat),
      fills.flatten = asciiStream 0x32 g0 ((w, g1) :: (h, g2) :: (m, g3) :: l) last →
      ∃ e, (Decode fills).2 = some e ∧
        (e = .eof ∨ e = .number ∨ e = .divByZero ∨ e = .hugeRect ∨ e = .makeslice)) ∧
    (∀ fills : List (List Nat),
      fills.flatten = asciiStream 0x33 g0 ((w, g1) :: (h, g2) :: (m, g3) :: l3) last →
      ∃ e, (Decode fills).2 = some e ∧
        (e = .eof ∨ e = .number ∨ e = .divByZero ∨ e = .hugeRect ∨ e = .makeslice)) ∧
    (w < 4294967296 → h < 4294967296 → 0 < m → m < 4294967296 →
      (∀ p ∈ l, p.1 < 4294967296) → (∀ p ∈ l3, p.1 < 4294967296) →
      (w * h ≤ maxAlloc → ∀ fills : List (List Nat),
        fills.flatten = asciiStream 0x31 g0 ((w, g1) :: (h, g2) :: l) last →
        (Decode fills).2 = some .eof) ∧
      (w * h ≤ maxAlloc → ∀ fills : List (List Nat),
        fills.flatten = asciiStream 0x32 g0 ((w, g1) :: (h, g2) :: (m, g3) :: l) last →
        (Decode fills).2 = some .eof) ∧
      (4 * w * h ≤ maxAlloc → ∀ fills : List (List Nat),
        fills.flatten = asciiStream 0x33 g0 ((w, g1) :: (h, g2) :: (m, g3) :: l3) last →
        (Decode fills).2 = some .eof)) ∧
    Decode [[0x50, 0x31, 0x0a, 0x31, 0x20, 0x31, 0x0a, 0x31]] =
      (some ⟨.alpha, 0, 0, 1, 1, [.alpha 0x00]⟩, some .eof) := by
  refine ⟨read_tok_eof g t hg ht, ?_, ?_, ?_, ?_, by decide⟩
  · intro fills hf
    exact Decode_asciiStream_err 0x31 w h g0 g1 g2 l last .alpha
      (fun r img => decodeP1 r img w h) (by decide) h0 h1 h2 fills hf
      (fun r1 r2 r3 a b c => Decode_P1 fills r1 r2 r3 w h a b c)
      (fun img => decodeP1_err w h hw0 hh0 l hlen hl _ (isSep_trimSep h2) last img)
  · intro fills hf
    exact Decode_asciiStream_err 0x32 w h g0 g1 g2 ((m, g3) :: l) last .gray
      (fun r img => decodeP2 r img w h) (by decide) h0 h1 h2 fills hf
      (fun r1 r2 r3 a b c => Decode_P2 fills r1 r2 r3 w h a b c)
      (fun img => decodeP2_err w h m hw0 hh0 g3 h3 l hlen hl _ (isSep_trimSep h2) last img)
  · intro fills hf
    exact Decode_asciiStream_err 0x33 w h g0 g1 g2 ((m, g3) :: l3) last .rgba
      (fun r img => decodeP3 r img w h) (by decide) h0 h1 h2 fills hf
      (fun r1 r2 r3 a b c => Decode_P3 fills r1 r2 r3 w h a b c)
      (fun img => decodeP3_err w h m hw0 hh0 g3 h3 l3 hlen3 hl3 _ (isSep_trimSep h2) last img)
  · intro hw hh hm0 hm hb hb3
    have hl' : ∀ p ∈ l, p.1 < 4294967296 ∧ isSep p.2 = true := fun p hp => ⟨hb p hp, hl p hp⟩
    have hl3' : ∀ p ∈ l3, p.1 < 4294967296 ∧ isSep p.2 = true :=
      fun p hp => ⟨hb3 p hp, hl3 p hp⟩
    refine ⟨?_, ?_, ?_⟩
    · intro ha fills hf
      exact Decode_asciiStream_eof 0x31 w h g0 g1 g2 l last .alpha
        (fun r img => decodeP1 r img w h) (by decide) hw hh
        (by simpa [ColorModel.bytesPerPixel] using ha) h0 h1 h2 fills hf
        (fun r1 r2 r3 a b c => Decode_P1 fills r1 r2 r3 w h a b c)
        (fun img => decodeP1_eof w h hw0 hh0 l hlen hl' _ (isSep_trimSep h2) last img)
    · intro ha fills hf
      exact Decode_asciiStream_eof 0x32 w h g0 g1 g2 ((m, g3) :: l) last .gray
        (fun r img => decodeP2 r img w h) (by decide) hw hh
        (by simpa [ColorModel.bytesPerPixel] using ha) h0 h1 h2 fills hf
        (fun r1 r2 r3 a b c => Decode_P2 fills r1 r2 r3 w h a b c)
        (fun img => decodeP2_eof w h m hw0 hh0 hm0 hm g3 h3 l hlen hl' _ (isSep_trimSep h2)
          last img)
    · intro ha fills hf
      exact Decode_asciiStream_eof 0x33 w h g0 g1 g2 ((m, g3) :: l3) last .rgba
        (fun r img => decodeP3 r img w h) (by decide) hw hh
        (by simpa [ColorModel.bytesPerPixel] using ha) h0 h1 h2 fills hf
        (fun r1 r2 r3 a b c => Decode_P3 fills r1 r2 r3 w h a b c)
        (fun img => decodeP3_eof w h m hw0 hh0 hm0 hm g3 h3 l3 hlen3 hl3' _ (isSep_trimSep h2)
          last img)

theorem read_eof_token_witness :
    read ([0x0a, 0x23, 0x63, 0x0d, 0x20] ++ [0x31, 0x32]) = .error .eof ∧
    (∃ e, (Decode [[0x50, 0x31, 0x0a, 0x32], [0x20, 0x31, 0x0a, 0x31, 0x20, 0x30]]).2 =
        some e ∧
      (e = .eof ∨ e = .number ∨ e = .divByZero ∨ e = .hugeRect ∨ e = .makeslice)) ∧
    (Decode [[0x50, 0x32, 0x0a, 0x32, 0x20, 0x31, 0x0a, 0x32, 0x35, 0x35, 0x0a, 0x31, 0x20],
      [0x30]]).2 = some .eof ∧
    (Decode [[0x50, 0x33, 0x0a, 0x32, 0x20, 0x31, 0x0a, 0x32, 0x35, 0x35, 0x0a, 0x31, 0x20,
      0x32, 0x20, 0x33, 0x20, 0x34, 0x20, 0x35, 0x20, 0x30]]).2 = some .eof ∧
    Decode [[0x50, 0x31, 0x0a, 0x31, 0x20, 0x31, 0x0a, 0x31]] =
      (some ⟨.alpha, 0, 0, 1, 1, [.alpha 0x00]⟩, some .eof) :=
  ⟨(read_eof_token [0x0a, 0x23, 0x63, 0x0d, 0x20] [0x31, 0x32] (by decide) (by decide)
      2 1 255 0 [0x0a] [0x20] [0x0a] [0x0a] [(1, [0x20])]
      [(1, [0x20]), (2, [0x20]), (3, [0x20]), (4, [0x20]), (5, [0x20])]
      (by decide) (by decide) (by decide) (by decide) (by decide) (by decide)
      (by decide) (by decide) (by decide) (by decide)).1,
    (read_eof_token [0x0a, 0x23, 0x63, 0x0d, 0x20] [0x31, 0x32] (by decide) (by decide)
      2 1 255 0 [0x0a] [0x20] [0x0a] [0x0a] [(1, [0x20])]
      [(1, [0x20]), (2, [0x20]), (3, [0x20]), (4, [0x20]), (5, [0x20])]
      (by decide) (by decide) (by decide) (by decide) (by decide) (by decide)
      (by decide) (by decide) (by decide) (by decide)).2.1
      [[0x50, 0x31, 0x0a, 0x32], [0x20, 0x31, 0x0a, 0x31, 0x20, 0x30]] (by decide),
    ((read_eof_token [0x0a, 0x23, 0x63, 0x0d, 0x20] [0x31, 0x32] (by decide) (by decide)
      2 1 255 0 [0x0a] [0x20] [0x0a] [0x0a] [(1, [0x20])]
      [(1, [0x20]), (2, [0x20]), (3, [0x20]), (4, [0x20]), (5, [0x20])]
      (by decide) (by decide) (by decide) (by decide) (by decide) (by decide)
      (by decide) (by decide) (by decide) (by decide)).2.2.2.2.1
      (by decide) (by decide) (by decide) (by decide) (by decide) (by decide)).2.1
      (by decide)
      [[0x50, 0x32, 0x0a, 0x32, 0x20, 0x31, 0x0a, 0x32, 0x35, 0x35, 0x0a, 0x31, 0x20], [0x30]]
      (by decide),
    ((read_eof_token [0x0a, 0x23, 0x63, 0x0d, 0x20] [0x31, 0x32] (by decide) (by decide)
      2 1 255 0 [0x0a] [0x20] [0x0a] [0x0a] [(1, [0x20])]
      [(1, [0x20]), (2, [0x20]), (3, [0x20]), (4, [0x20]), (5, [0x20])]
      (by decide) (by decide) (by decide) (by decide) (by decide) (by decide)
      (by decide) (by decide) (by decide) (by decide)).2.2.2.2.1
      (by decide) (by decide) (by decide) (by decide) (by decide) (by decide)).2.2
      (by decide)
      [[0x50, 0x33, 0x0a, 0x32, 0x20, 0x31, 0x0a, 0x32, 0x35, 0x35, 0x0a, 0x31, 0x20,
        0x32, 0x20, 0x33, 0x20, 0x34, 0x20, 0x35, 0x20, 0x30]] (by decide),
    (read_eof_token [0x0a, 0x23, 0x63, 0x0d, 0x20] [0x31, 0x32] (by decide) (by decide)
      2 1 255 0 [0x0a] [0x20] [0x0a] [0x0a] [(1, [0x20])]
      [(1, [0x20]), (2, [0x20]), (3, [0x20]), (4, [0x20]), (5, [0x20])]
      (by decide) (by decide) (by decide) (by decide) (by decide) (by decide)
      (by decide) (by decide) (by decide) (by decide)).2.2.2.2.2⟩

end Pnm
